import Mathlib

/-!
# The all_gather collective of `Common/MPI/all_gather.hpp`

A shallow embedding of the all-gather interface of coolfluid3 and the
properties its specification states.

Conventions of the embedding

* A linear block of memory is a `List T`; an index is a C `int`, here an
  `Int`.  The sum the public interface forms over the caller's table `out_n`
  is reduced to 32 bits at every addition (`int32`), as the machine does; the
  sizes and displacements the implementations compute from the counts of data
  that exists are left exact, so the statements on them concern executions
  whose arithmetic stays in range.
* An access outside a block is undefined behaviour in C++; here it ends the
  call with `Fault.MemoryFault`.
* A process is described by the arguments of its call.  The communicator of a
  collective round lists, by rank, what every process hands to the exchange
  primitive `MPI_Allgatherv`, which belongs to the external runtime.
-/

namespace CF.Common.mpi

/-! ## Memory -/

/-- Ways in which a call ends without returning normally. -/
inductive Fault where
  /-- `CF::Common::NotEnoughMemory`: a buffer could not be allocated. -/
  | NotEnoughMemory
  /-- `CF::Common::ParallelError`: receive map given while counts are unknown. -/
  | ParallelError
  /-- `CF::Common::BadValue`. -/
  | BadValue
  /-- A failed `cf_assert`. -/
  | FailedAssertion
  /-- `MPI_CHECK_RESULT` saw the exchange fail. -/
  | TransportFailure
  /-- An access outside a block of memory. -/
  | MemoryFault
  deriving DecidableEq, Repr

/-- The `out_values` pointer, as the code can tell it apart: the null pointer,
the very address of `in_values`, or a block of its own. -/
inductive Ptr (T : Type) where
  | null
  | aliased
  | buffer (cells : List T)
  deriving DecidableEq, Repr

/-- Outcome of a call: the fault that ended it (`none` when it returned), the
caller-visible storage at that moment, and how many times the exchange
primitive was invoked. -/
structure Result (σ : Type) where
  fault : Option Fault
  state : σ
  rounds : Nat
  deriving DecidableEq, Repr

/-- Allocation oracle: `heap n` tells whether a request for `n` items of the
element type is granted. -/
abbrev Heap := Int → Bool

/-- The items `out_values` designates, given those of `in_values`. -/
def Ptr.view {T : Type} (in_values : List T) : Ptr T → List T
  | .null => []
  | .aliased => in_values
  | .buffer cells => cells

/-- The test `in_values==out_values`. -/
def Ptr.isAlias {T : Type} : Ptr T → Bool
  | .aliased => true
  | _ => false

/-- `new T[n]`: a block of `n` items of unspecified content (here `default`),
refused when the oracle says so or when `n` is negative. -/
def alloc {T : Type} [Inhabited T] (heap : Heap) (n : Int) : Option (List T) :=
  if 0 ≤ n ∧ heap n = true then some (List.replicate n.toNat default) else none

/-- Read `buf[i]`. -/
def load {T : Type} (buf : List T) (i : Int) : Option T :=
  if 0 ≤ i then buf[i.toNat]? else none

/-- Write `buf[i]=v`. -/
def store {T : Type} (buf : List T) (i : Int) (v : T) : Option (List T) :=
  if 0 ≤ i ∧ i < buf.length then some (buf.set i.toNat v) else none

/-- Copy `n` items: `memcpy(&dst[d],&src[s],n*sizeof(T))`. -/
def memcpy {T : Type} (dst : List T) (d : Int) (src : List T) (s : Int) (n : Int) :
    Option (List T) :=
  if 0 ≤ n ∧ 0 ≤ d ∧ 0 ≤ s ∧ s + n ≤ src.length ∧ d + n ≤ dst.length then
    some (dst.take d.toNat ++ (src.drop s.toNat).take n.toNat ++ dst.drop (d + n).toNat)
  else none

/-- The value an `int` holds when the exact result of an operation is `x`:
`x` reduced modulo 2^32 into the range of the type. -/
def int32 (x : Int) : Int := (x + 2147483648) % 4294967296 - 2147483648

/-- The loop `for(int i=0; i<n; i++) body`, threading the state `s`. -/
def forLoop {σ : Type} (n : Nat) (body : Nat → σ → Option σ) (s : σ) : Option σ :=
  match n with
  | 0 => some s
  | k + 1 => (forLoop k body s).bind (body k)

/-! ## The external runtime -/

/-- Modelled from the spec: the communicator handle of the external runtime,
seen from one process during one collective round. `rank` is the calling
process; `sends` lists by rank the send buffer and send count every process of
the group passes to the exchange of this round (`none` for a process that
never reaches it). The specification has every process invoke the matching
call, so the list stands for those calls. -/
structure Communicator (T : Type) where
  rank : Nat
  sends : List (Option (List T × Int))

/-- Modelled from the spec: `MPI_Comm_size`, the number of processes. -/
def Communicator.nproc {T : Type} (comm : Communicator T) : Nat := comm.sends.length

/-- Modelled from the spec: the blocking exchange primitive `MPI_Allgatherv`
of the external runtime (spec 4.4). Given the contiguous send buffer and
send count of the caller and a receive-count and displacement table, it
delivers the contribution of every rank `k` at `out_buf[displs[k]..]`. It
fails (`none`) when some rank does not take part, when a receive count differs
from what that rank sends, or when a block does not fit its buffer. -/
def MPI_Allgatherv {T : Type} (comm : Communicator T) (in_buf : List T) (in_sum : Int)
    (out_buf : List T) (counts displs : List Int) : Option (List T) :=
  let sends := comm.sends.set comm.rank (some (in_buf, in_sum))
  forLoop sends.length
    (fun k out =>
      match sends[k]?, counts[k]?, displs[k]? with
      | some (some (buf, n)), some c, some d => if c = n then memcpy out d buf 0 n else none
      | _, _, _ => none)
    out_buf

/-! ## detail::all_gatherc_impl -/

namespace detail

/-- Constant size communication, `detail::all_gatherc_impl` (lines 57-91). The
state of the result is the content of the storage of `out_values`. -/
def all_gatherc_impl {T : Type} [Inhabited T] (heap : Heap) (comm : Communicator T)
    (in_values : List T) (in_n : Int) (out_values : Ptr T) (stride : Int) :
    Result (List T) :=
  let nproc : Nat := comm.nproc
  let out0 := out_values.view in_values
  -- cf_assert( stride>0 )
  if ¬ (stride > 0) then ⟨some .FailedAssertion, out0, 0⟩ else
  -- set up out_buf
  match (if out_values.isAlias then alloc heap ((nproc : Int) * in_n * stride + 1)
         else some out0) with
  | none => ⟨some .NotEnoughMemory, out0, 0⟩
  | some out_buf =>
    -- do the communication
    let displs : List Int := List.map (fun (i : Nat) => (i : Int) * in_n * stride) (List.range nproc)
    let counts : List Int := List.map (fun (_ : Nat) => in_n * stride) (List.range nproc)
    match MPI_Allgatherv comm in_values (in_n * stride) out_buf counts displs with
    | none => ⟨some .TransportFailure, out0, 1⟩
    | some out_buf =>
      -- deal with out_buf
      if out_values.isAlias then
        match memcpy in_values 0 out_buf 0 ((nproc : Int) * in_n * stride) with
        | none => ⟨some .MemoryFault, out0, 1⟩
        | some cells => ⟨none, cells, 1⟩
      else ⟨none, out_buf, 1⟩

/-! ## detail::all_gathervm_impl -/

/-- The tables `out_nstride` and `out_disp` of `all_gathervm_impl`
(lines 120-129). -/
def out_tables (nproc : Nat) (stride : Int) (out_n : List Int) :
    Option (List Int × List Int) :=
  let out_nstride : List Int := List.replicate nproc 0
  let out_disp : List Int := List.replicate nproc 0
  (store out_disp 0 0).bind fun out_disp =>
  (forLoop (nproc - 1)
    (fun i (t : List Int × List Int) =>
      (load out_n i).bind fun n_i =>
      (store t.1 i (stride * n_i)).bind fun ns =>
      (load t.2 i).bind fun d_i =>
      (load ns i).bind fun ns_i =>
      (store t.2 (i + 1) (d_i + ns_i)).bind fun ds => some (ns, ds))
    (out_nstride, out_disp)).bind fun t =>
  (load out_n ((nproc : Int) - 1)).bind fun n_last =>
  (store t.1 ((nproc : Int) - 1) (n_last * stride)).bind fun ns => some (ns, t.2)

/-- The send buffer `in_buf` of `all_gathervm_impl` (lines 135-141): the
application buffer itself, or a staging buffer filled through `in_map`. -/
def in_buf {T : Type} [Inhabited T] (heap : Heap) (in_values : List T) (in_n : Int)
    (in_map : Option (List Int)) (stride : Int) : Except Fault (List T) :=
  let in_sum := stride * in_n
  match in_map with
  | none => .ok in_values
  | some in_map =>
    match (alloc heap (in_sum + 1) : Option (List T)) with
    | none => .error .NotEnoughMemory
    | some buf =>
      let filled :=
        if stride = 1 then
          forLoop in_sum.toNat
            (fun i b =>
              (load in_map i).bind fun m_i =>
              (load in_values m_i).bind fun v => store b i v)
            buf
        else
          forLoop (in_sum.tdiv stride).toNat
            (fun i b =>
              (load in_map i).bind fun m_i =>
              memcpy b (stride * i) in_values (stride * m_i) stride)
            buf
      match filled with
      | none => .error .MemoryFault
      | some b => .ok b

/-- The re-population of `out_values` through `out_map` in `all_gathervm_impl`
(lines 154-155). -/
def repopulate {T : Type} (out_values out_buf : List T) (out_map : List Int)
    (out_sum stride : Int) : Option (List T) :=
  if stride = 1 then
    forLoop out_sum.toNat
      (fun i o =>
        (load out_map i).bind fun m_i =>
        (load out_buf i).bind fun v => store o m_i v)
      out_values
  else
    forLoop (out_sum.tdiv stride).toNat
      (fun i o =>
        (load out_map i).bind fun m_i =>
        memcpy o (stride * m_i) out_buf (stride * i) stride)
      out_values

/-- Variable size communication through in and out map,
`detail::all_gathervm_impl` (lines 108-166). The state of the result is the
content of the storage of `out_values`. -/
def all_gathervm_impl {T : Type} [Inhabited T] (heap : Heap) (comm : Communicator T)
    (in_values : List T) (in_n : Int) (in_map : Option (List Int)) (out_values : Ptr T)
    (out_n : List Int) (out_map : Option (List Int)) (stride : Int) : Result (List T) :=
  let nproc : Nat := comm.nproc
  let out0 := out_values.view in_values
  -- cf_assert( stride>0 )
  if ¬ (stride > 0) then ⟨some .FailedAssertion, out0, 0⟩ else
  -- compute displacements and stride-multiplied receive counts
  match out_tables nproc stride out_n with
  | none => ⟨some .MemoryFault, out0, 0⟩
  | some (out_nstride, out_disp) =>
    -- compute total number of send and receive items
    let in_sum := stride * in_n
    match (load out_disp ((nproc : Int) - 1)).bind fun d =>
          (load out_n ((nproc : Int) - 1)).map fun n => d + stride * n with
    | none => ⟨some .MemoryFault, out0, 0⟩
    | some out_sum =>
      -- set up in_buf
      match in_buf heap in_values in_n in_map stride with
      | .error f => ⟨some f, out0, 0⟩
      | .ok in_buf =>
        -- set up out_buf
        match (if out_map.isSome ∨ out_values.isAlias then alloc heap (out_sum + 1)
               else some out0) with
        | none => ⟨some .NotEnoughMemory, out0, 0⟩
        | some out_buf =>
          -- do the communication
          match MPI_Allgatherv comm in_buf in_sum out_buf out_nstride out_disp with
          | none => ⟨some .TransportFailure, out0, 1⟩
          | some out_buf =>
            -- re-populate out_values
            match out_map with
            | some out_map =>
              match repopulate out0 out_buf out_map out_sum stride with
              | none => ⟨some .MemoryFault, out0, 1⟩
              | some cells => ⟨none, cells, 1⟩
            | none =>
              if out_values.isAlias then
                match memcpy out0 0 out_buf 0 out_sum with
                | none => ⟨some .MemoryFault, out0, 1⟩
                | some cells => ⟨none, cells, 1⟩
              else ⟨none, out_buf, 1⟩

end detail

/-! ## The public interface -/

/-- What a raw-pointer all_gather hands back: the items of the block the
returned pointer designates, and whether the call allocated that block. -/
structure Returned (T : Type) where
  cells : List T
  allocated : Bool
  deriving DecidableEq, Repr

/-- The send-side arguments of one process in a constant size call. -/
structure ConstArgs (T : Type) where
  in_values : List T
  in_n : Int
  stride : Int
  deriving DecidableEq, Repr

/-- The round of a constant size gather: every process passes `in_values`
with the send count `in_n*stride` to the exchange (line 82). -/
def constant_round {T : Type} (rank : Nat) (calls : List (ConstArgs T)) : Communicator T :=
  ⟨rank, calls.map fun a => some (a.in_values, a.in_n * a.stride)⟩

/-- Interface to the constant size all_gather communication, raw pointers
(lines 183-201). -/
def all_gather_const_raw {T : Type} [Inhabited T] (heap : Heap) (comm : Communicator T)
    (in_values : List T) (in_n : Int) (out_values : Ptr T) (stride : Int) :
    Result (Returned T) :=
  let nproc : Nat := comm.nproc
  -- allocate out_buf if incoming pointer is null
  let out_buf : Option (Ptr T × Bool) :=
    match out_values with
    | .null =>
      let size := if stride * nproc * in_n > 1 then stride * nproc * in_n else 1
      (alloc heap size).map fun cells => (.buffer cells, true)
    | p => some (p, false)
  match out_buf with
  | none => ⟨some .NotEnoughMemory, ⟨[], false⟩, 0⟩
  | some (out_buf, fresh) =>
    -- call c_impl
    let r := detail.all_gatherc_impl heap comm in_values in_n out_buf stride
    ⟨r.fault, ⟨r.state, fresh⟩, r.rounds⟩

/-- The send-side arguments of one process in a variable size call. -/
structure SendArgs (T : Type) where
  in_values : List T
  in_n : Int
  in_map : Option (List Int)
  stride : Int
  deriving DecidableEq, Repr

/-- Modelled from the spec: the communicator handle of the external runtime
during a variable size all_gather, which has two rounds of different element
type. It is given by the calling rank and the send-side arguments of the
matching call of every process of the group. -/
structure Group (T : Type) where
  rank : Nat
  calls : List (SendArgs T)

/-- The pre communication round: every process contributes its scalar `in_n`
(`all_gatherc_impl(comm,&in_n,1,out_n,1)`). -/
def Group.count_round {T : Type} (g : Group T) : Communicator Int :=
  ⟨g.rank, g.calls.map fun a => some ([a.in_n], 1 * 1)⟩

/-- The data round: every process passes its `in_buf` with the send count
`in_sum = stride*in_n` to the exchange (line 150); a process whose staging
fails never reaches it. -/
def Group.data_round {T : Type} [Inhabited T] (heap : Heap) (g : Group T) : Communicator T :=
  ⟨g.rank, g.calls.map fun a =>
    match detail.in_buf heap a.in_values a.in_n a.in_map a.stride with
    | .ok b => some (b, a.stride * a.in_n)
    | .error _ => none⟩

/-- The storage a variable size raw-pointer all_gather leaves behind. -/
structure VarState (T : Type) where
  out : Returned T
  out_n : List Int
  deriving DecidableEq, Repr

/-- The loop `for (int i=0; i<nproc; i++) out_sum+=out_n[i];`, `out_sum` being
an `int`. -/
def sum_out_n (nproc : Nat) (out_n : List Int) : Option Int :=
  forLoop nproc (fun i out_sum => (load out_n i).map fun n_i => int32 (out_sum + n_i)) 0

/-- Lines 334-342 of the mapped raw-pointer all_gather: if `out_n` consists of
-1s communicate for the number of receives. The state is `out_n` and
`out_sum`. -/
def negotiate {T : Type} (heap : Heap) (g : Group T) (in_n : Int) (out_n : List Int)
    (out_map : Option (List Int)) : Result (List Int × Int) :=
  let nproc : Nat := g.calls.length
  match sum_out_n nproc out_n with
  | none => ⟨some .MemoryFault, (out_n, 0), 0⟩
  | some out_sum =>
    if out_sum = int32 (-(nproc : Int)) then
      if out_map.isSome then ⟨some .ParallelError, (out_n, out_sum), 0⟩
      else
        let r := detail.all_gatherc_impl heap g.count_round [in_n] 1 (.buffer out_n) 1
        match r.fault with
        | some f => ⟨some f, (r.state, out_sum), r.rounds⟩
        | none =>
          match sum_out_n nproc r.state with
          | none => ⟨some .MemoryFault, (r.state, 0), r.rounds⟩
          | some out_sum => ⟨none, (r.state, out_sum), r.rounds⟩
    else ⟨none, (out_n, out_sum), 0⟩

/-- Lines 344-353 of the mapped raw-pointer all_gather: allocate `out_buf` if
the incoming pointer is null. -/
def allocate_out {T : Type} [Inhabited T] (heap : Heap) (out_values : Ptr T)
    (out_map : Option (List Int)) (out_sum stride : Int) :
    Except Fault (Ptr T × Bool) :=
  match out_values with
  | .null =>
    let out_sum : Option Int :=
      match out_map with
      | some out_map =>
        (forLoop out_sum.toNat
          (fun i out_sum_tmp =>
            (load out_map i).map fun m_i => if m_i > out_sum_tmp then m_i else out_sum_tmp)
          (0 : Int)).map fun out_sum_tmp => out_sum_tmp + 1
      | none => some out_sum
    match out_sum with
    | none => .error .MemoryFault
    | some out_sum =>
      match (alloc heap (stride * out_sum) : Option (List T)) with
      | none => .error .NotEnoughMemory
      | some cells => .ok (.buffer cells, true)
  | p => .ok (p, false)

/-- Interface to the variable size mapped all_gather communication, raw
pointers (lines 326-358). -/
def all_gather_mapped_raw {T : Type} [Inhabited T] (heap : Heap) (g : Group T)
    (in_values : List T) (in_n : Int) (in_map : Option (List Int)) (out_values : Ptr T)
    (out_n : List Int) (out_map : Option (List Int)) (stride : Int) : Result (VarState T) :=
  let out0 : Returned T := ⟨out_values.view in_values, false⟩
  -- if out_n consist of -1s then communicate for number of receives
  let pre := negotiate heap g in_n out_n out_map
  match pre.fault with
  | some f => ⟨some f, ⟨out0, pre.state.1⟩, pre.rounds⟩
  | none =>
    let out_n := pre.state.1
    -- allocate out_buf if incoming pointer is null
    match allocate_out heap out_values out_map pre.state.2 stride with
    | .error f => ⟨some f, ⟨out0, out_n⟩, pre.rounds⟩
    | .ok (out_buf, fresh) =>
      -- call vm_impl
      let r := detail.all_gathervm_impl heap (g.data_round heap) in_values in_n in_map
        out_buf out_n out_map stride
      ⟨r.fault, ⟨⟨r.state, fresh⟩, out_n⟩, pre.rounds + r.rounds⟩

/-- Interface to the variable size all_gather communication, raw pointers
(lines 273-279): the mapped call with both maps null. -/
def all_gather_var_raw {T : Type} [Inhabited T] (heap : Heap) (g : Group T)
    (in_values : List T) (in_n : Int) (out_values : Ptr T) (out_n : List Int)
    (stride : Int) : Result (VarState T) :=
  all_gather_mapped_raw heap g in_values in_n none out_values out_n none stride

/-- The `out_values` vector of a std::vector call: the very vector passed as
`in_values`, or a vector of its own. -/
inductive OutVec (T : Type) where
  | self
  | vec (cells : List T)
  deriving DecidableEq, Repr

/-- The items of the `out_values` vector, given those of `in_values`. -/
def OutVec.view {T : Type} (in_values : List T) : OutVec T → List T
  | .self => in_values
  | .vec cells => cells

/-- The storage a variable size std::vector all_gather leaves behind. -/
structure VecState (T : Type) where
  out_values : List T
  out_n : List Int
  deriving DecidableEq, Repr

/-- The pointer `&map[0]` of a map vector whose capacity is its size, such as
the vectors of lines 305-306: the address of its items, and the null pointer
for a vector of size zero. -/
def map_pointer (map : List Int) : Option (List Int) :=
  if map.length = 0 then none else some map

/-- The pointer `&map[0]` of a map vector whose storage holds the entries
`spare` past its items: the address of that storage, and the null pointer for
a vector that owns no storage. -/
def storage_pointer (map spare : List Int) : Option (List Int) :=
  if (map ++ spare).length = 0 then none else some (map ++ spare)

/-- Interface to the variable size mapped all_gather communication,
std::vector (lines 377-411), called with map vectors whose capacity is their
size. -/
def all_gather_mapped_vector {T : Type} [Inhabited T] (heap : Heap) (g : Group T)
    (in_values : List T) (in_n : Int) (in_map : List Int) (out_values : OutVec T)
    (out_n : List Int) (out_map : List Int) (stride : Int) : Result (VecState T) :=
  let nproc : Nat := g.calls.length
  let out0 := out_values.view in_values
  -- line 384 builds a BadValue object when out_n.size()!=nproc but does not throw it
  -- compute number of send and receive
  let out_sum : Int := out_n.foldl (fun out_sum i => int32 (out_sum + i)) 0
  -- if necessary, do communication for out_n
  let pre : Result (List Int × Int) :=
    if out_sum = int32 (-(nproc : Int)) then
      if out_map.length ≠ 0 then ⟨some .ParallelError, (out_n, out_sum), 0⟩
      else
        let r := detail.all_gatherc_impl heap g.count_round [in_n] 1 (.buffer out_n) 1
        ⟨r.fault, (r.state, r.state.foldl (fun out_sum i => int32 (out_sum + i)) 0), r.rounds⟩
    else ⟨none, (out_n, out_sum), 0⟩
  match pre.fault with
  | some f => ⟨some f, ⟨out0, pre.state.1⟩, pre.rounds⟩
  | none =>
    let out_n := pre.state.1
    -- resize out_values if vector size is zero
    let resized : Option (List T) :=
      if out0.length = 0 then
        let out_sum : Int :=
          if out_map.length ≠ 0 then
            let out_sum := out_map.foldl (fun out_sum i => if i > out_sum then i else out_sum) 0
            if out_sum ≠ 0 then out_sum + 1 else out_sum
          else pre.state.2
        alloc heap (stride * out_sum)
      else some out0
    match resized with
    | none => ⟨some .NotEnoughMemory, ⟨out0, out_n⟩, pre.rounds⟩
    | some cells =>
      -- call vm_impl
      let r :=
        match out_values with
        | .self =>
          detail.all_gathervm_impl heap (g.data_round heap) cells in_n (map_pointer in_map)
            .aliased out_n (map_pointer out_map) stride
        | .vec _ =>
          detail.all_gathervm_impl heap (g.data_round heap) in_values in_n (map_pointer in_map)
            (.buffer cells) out_n (map_pointer out_map) stride
      ⟨r.fault, ⟨r.state, out_n⟩, pre.rounds + r.rounds⟩

/-- Interface to the variable size mapped all_gather communication,
std::vector (lines 377-411), called with map vectors that own the storage
`in_map ++ in_spare` and `out_map ++ out_spare`: the sizes the code tests are
those of `in_map` and `out_map`, the pointers it passes on are `&in_map[0]`
and `&out_map[0]`. -/
def all_gather_mapped_vector_storage {T : Type} [Inhabited T] (heap : Heap) (g : Group T)
    (in_values : List T) (in_n : Int) (in_map in_spare : List Int) (out_values : OutVec T)
    (out_n : List Int) (out_map out_spare : List Int) (stride : Int) : Result (VecState T) :=
  let nproc : Nat := g.calls.length
  let out0 := out_values.view in_values
  -- line 384 builds a BadValue object when out_n.size()!=nproc but does not throw it
  -- compute number of send and receive
  let out_sum : Int := out_n.foldl (fun out_sum i => int32 (out_sum + i)) 0
  -- if necessary, do communication for out_n
  let pre : Result (List Int × Int) :=
    if out_sum = int32 (-(nproc : Int)) then
      if out_map.length ≠ 0 then ⟨some .ParallelError, (out_n, out_sum), 0⟩
      else
        let r := detail.all_gatherc_impl heap g.count_round [in_n] 1 (.buffer out_n) 1
        ⟨r.fault, (r.state, r.state.foldl (fun out_sum i => int32 (out_sum + i)) 0), r.rounds⟩
    else ⟨none, (out_n, out_sum), 0⟩
  match pre.fault with
  | some f => ⟨some f, ⟨out0, pre.state.1⟩, pre.rounds⟩
  | none =>
    let out_n := pre.state.1
    -- resize out_values if vector size is zero
    let resized : Option (List T) :=
      if out0.length = 0 then
        let out_sum : Int :=
          if out_map.length ≠ 0 then
            let out_sum := out_map.foldl (fun out_sum i => if i > out_sum then i else out_sum) 0
            if out_sum ≠ 0 then out_sum + 1 else out_sum
          else pre.state.2
        alloc heap (stride * out_sum)
      else some out0
    match resized with
    | none => ⟨some .NotEnoughMemory, ⟨out0, out_n⟩, pre.rounds⟩
    | some cells =>
      -- call vm_impl
      let r :=
        match out_values with
        | .self =>
          detail.all_gathervm_impl heap (g.data_round heap) cells in_n
            (storage_pointer in_map in_spare) .aliased out_n
            (storage_pointer out_map out_spare) stride
        | .vec _ =>
          detail.all_gathervm_impl heap (g.data_round heap) in_values in_n
            (storage_pointer in_map in_spare) (.buffer cells) out_n
            (storage_pointer out_map out_spare) stride
      ⟨r.fault, ⟨r.state, out_n⟩, pre.rounds + r.rounds⟩

/-- Interface to the variable size all_gather communication, std::vector
(lines 300-308): the mapped call with two maps of size zero. -/
def all_gather_var_vector {T : Type} [Inhabited T] (heap : Heap) (g : Group T)
    (in_values : List T) (in_n : Int) (out_values : OutVec T) (out_n : List Int)
    (stride : Int) : Result (VecState T) :=
  all_gather_mapped_vector heap g in_values in_n [] out_values out_n [] stride

/-- The group in which rank `k` calls with the send-side arguments `calls[k]`,
seen from `rank`. -/
def group {T : Type} (rank : Nat) (calls : List (SendArgs T)) : Group T := ⟨rank, calls⟩

/-- The call `v.resize(n)` of a std::vector: the first `n` items are kept, new
items are value-initialised (here `default`); growth is refused when the
allocation oracle says so, and so is a negative `n`. -/
def resize {T : Type} [Inhabited T] (heap : Heap) (v : List T) (n : Int) : Option (List T) :=
  if n < 0 then none
  else if n ≤ v.length then some (v.take n.toNat)
  else if heap n = true then some (v ++ List.replicate (n.toNat - v.length) default)
  else none

/-- Interface to the constant size all_gather communication, std::vector
(lines 212-228). The state of the result is the content of `out_values`. -/
def all_gather_const_vector {T : Type} [Inhabited T] (heap : Heap) (comm : Communicator T)
    (in_values : List T) (out_values : OutVec T) (stride : Int) : Result (List T) :=
  let nproc : Nat := comm.nproc
  let out0 := out_values.view in_values
  -- cf_assert( in_values.size() % (stride) == 0 )
  if ¬ ((in_values.length : Int) % stride = 0) then ⟨some .FailedAssertion, out0, 0⟩ else
  -- set out_values's sizes
  let in_n : Int := in_values.length
  match resize heap out0 (in_n * nproc) with
  | none => ⟨some .NotEnoughMemory, out0, 0⟩
  | some cells =>
    -- call c_impl
    match out_values with
    | .self => detail.all_gatherc_impl heap comm cells (in_n.tdiv stride) .aliased stride
    | .vec _ =>
      detail.all_gatherc_impl heap comm in_values (in_n.tdiv stride) (.buffer cells) stride

/-- Interface to the constant size all_gather communication of one scalar per
process, std::vector (lines 239-253). The object `in_value` refers to is taken
to lie outside the storage of `out_values`. The state of the result is the
content of `out_values`. -/
def all_gather_scalar {T : Type} [Inhabited T] (heap : Heap) (comm : Communicator T)
    (in_value : T) (out_values : List T) : Result (List T) :=
  let nproc : Nat := comm.nproc
  -- set out_values's sizes
  match resize heap out_values nproc with
  | none => ⟨some .NotEnoughMemory, out_values, 0⟩
  | some cells =>
    -- call c_impl
    detail.all_gatherc_impl heap comm [in_value] 1 (.buffer cells) 1

/-! ## Specification vocabulary -/

/-- The wire-order content of a round: the rank-ordered concatenation of the
first `count` items of every send buffer. -/
def wire {T : Type} : List (List T × Int) → List T
  | [] => []
  | p :: ps => p.1.take p.2.toNat ++ wire ps

/-- The sum of the send counts of the first `k` ranks. -/
def offset {T : Type} (sends : List (List T × Int)) (k : Nat) : Int :=
  ((sends.take k).map fun p => p.2).sum

/-- The send buffer a process hands to the data round (`[]` when its staging
fails). -/
def staged {T : Type} [Inhabited T] (heap : Heap) (a : SendArgs T) : List T :=
  match detail.in_buf heap a.in_values a.in_n a.in_map a.stride with
  | .ok b => b
  | .error _ => []

/-- The send buffers and send counts of the data round of a group. -/
def staged_sends {T : Type} [Inhabited T] (heap : Heap) (calls : List (SendArgs T)) :
    List (List T × Int) :=
  calls.map fun a => (staged heap a, a.stride * a.in_n)

/-! ## Loops and memory -/

theorem forLoop_inv {σ : Type} (Inv : Nat → σ → Prop) (n : Nat) (body : Nat → σ → Option σ)
    (s : σ) (h0 : Inv 0 s)
    (hstep : ∀ i t, i < n → Inv i t → ∃ t', body i t = some t' ∧ Inv (i + 1) t') :
    ∃ t, forLoop n body s = some t ∧ Inv n t := by
  induction n with
  | zero => exact ⟨s, rfl, h0⟩
  | succ m ih =>
    obtain ⟨t, ht, hI⟩ := ih (fun i t hi hI => hstep i t (Nat.lt_succ_of_lt hi) hI)
    obtain ⟨t', ht', hI'⟩ := hstep m t (Nat.lt_succ_self m) hI
    exact ⟨t', by simp [forLoop, ht, ht'], hI'⟩

theorem forLoop_congr {σ : Type} (n : Nat) (f g : Nat → σ → Option σ) (s : σ)
    (h : ∀ i t, i < n → f i t = g i t) : forLoop n f s = forLoop n g s := by
  induction n with
  | zero => rfl
  | succ m ih =>
    simp only [forLoop]
    rw [ih (fun i t hi => h i t (Nat.lt_succ_of_lt hi))]
    cases hg : forLoop m g s with
    | none => rfl
    | some t => simp [h m t (Nat.lt_succ_self m)]

theorem memcpy_eq {T : Type} (dst src : List T) (d s n : Nat)
    (hs : s + n ≤ src.length) (hd : d + n ≤ dst.length) :
    memcpy dst (d : Int) src (s : Int) (n : Int)
      = some (dst.take d ++ (src.drop s).take n ++ dst.drop (d + n)) := by
  have h : (0 : Int) ≤ n ∧ (0 : Int) ≤ d ∧ (0 : Int) ≤ s ∧ (s : Int) + n ≤ src.length
      ∧ (d : Int) + n ≤ dst.length := by
    refine ⟨by omega, by omega, by omega, by omega, by omega⟩
  have e : ((d : Int) + (n : Int)).toNat = d + n := by omega
  simp only [memcpy, if_pos h, Int.toNat_ofNat, e]

theorem memcpy_length {T : Type} (dst src : List T) (d s n : Int) (o : List T)
    (h : memcpy dst d src s n = some o) : o.length = dst.length := by
  unfold memcpy at h
  split at h
  · rename_i hc
    obtain ⟨h1, h2, h3, h4, h5⟩ := hc
    simp only [Option.some.injEq] at h
    subst h
    simp only [List.length_append, List.length_take, List.length_drop]
    omega
  · cases h

theorem wire_append {T : Type} (l₁ l₂ : List (List T × Int)) :
    wire (l₁ ++ l₂) = wire l₁ ++ wire l₂ := by
  induction l₁ with
  | nil => rfl
  | cons p ps ih => simp [wire, ih]

theorem wire_length {T : Type} (sends : List (List T × Int))
    (h : ∀ p ∈ sends, 0 ≤ p.2 ∧ p.2 ≤ p.1.length) :
    ((wire sends).length : Int) = (sends.map fun p => p.2).sum := by
  induction sends with
  | nil => rfl
  | cons p ps ih =>
    have hp := h p (List.mem_cons_self _ _)
    have := ih (fun q hq => h q (List.mem_cons_of_mem _ hq))
    simp only [wire, List.length_append, List.length_take, List.map_cons, List.sum_cons]
    omega

theorem offset_nonneg {T : Type} (sends : List (List T × Int))
    (h : ∀ p ∈ sends, 0 ≤ p.2 ∧ p.2 ≤ p.1.length) (k : Nat) : 0 ≤ offset sends k := by
  have := wire_length (sends.take k) (fun p hp => h p (List.mem_of_mem_take hp))
  unfold offset
  omega

theorem offset_succ {T : Type} (sends : List (List T × Int)) (k : Nat) (p : List T × Int)
    (hk : sends[k]? = some p) : offset sends (k + 1) = offset sends k + p.2 := by
  unfold offset
  rw [List.take_succ, hk]
  simp

theorem offset_length {T : Type} (sends : List (List T × Int)) :
    offset sends sends.length = (sends.map fun p => p.2).sum := by
  simp [offset]

theorem offset_le_total {T : Type} (sends : List (List T × Int))
    (h : ∀ p ∈ sends, 0 ≤ p.2 ∧ p.2 ≤ p.1.length) (k : Nat) :
    offset sends k ≤ offset sends sends.length := by
  have h1 := wire_length (sends.drop k) (fun p hp => h p (List.mem_of_mem_drop hp))
  have h2 : (sends.map fun p => p.2).sum
      = ((sends.take k).map fun p => p.2).sum + ((sends.drop k).map fun p => p.2).sum := by
    rw [← List.sum_append, ← List.map_append, List.take_append_drop]
  rw [offset_length, h2]
  unfold offset
  omega

theorem wire_take_succ {T : Type} (sends : List (List T × Int)) (k : Nat) (p : List T × Int)
    (hk : sends[k]? = some p) :
    wire (sends.take (k + 1)) = wire (sends.take k) ++ p.1.take p.2.toNat := by
  rw [List.take_succ, hk, wire_append]
  simp [wire]

theorem memcpy_append_block {T : Type} (W out src : List T) (n : Nat) (hn : n ≤ src.length)
    (ho : W.length + n ≤ out.length) :
    memcpy (W ++ out.drop W.length) (W.length : Int) src 0 (n : Int)
      = some ((W ++ src.take n) ++ out.drop (W ++ src.take n).length) := by
  have h := memcpy_eq (W ++ out.drop W.length) src W.length 0 n (by omega)
    (by rw [List.length_append, List.length_drop]; omega)
  rw [show ((0 : Nat) : Int) = 0 from rfl] at h
  rw [h]
  have hl : (List.take n src).length = n := by rw [List.length_take]; omega
  have hd : List.drop (W.length + n) (W ++ List.drop W.length out)
      = List.drop (W.length + n) out := by
    rw [List.drop_append_eq_append_drop, List.drop_drop]
    have : List.drop (W.length + n) W = [] := List.drop_eq_nil_of_le (by omega)
    rw [this]
    simp
  simp only [List.drop_zero, List.take_left, List.length_append, hl, hd]

/-- The exchange with consecutive displacements and matching counts delivers
the wire-order content at the head of the receive buffer and leaves the rest
of it untouched. -/
theorem MPI_Allgatherv_wire {T : Type} (comm : Communicator T) (in_buf : List T) (in_sum : Int)
    (out : List T) (counts displs : List Int) (sends : List (List T × Int))
    (hs : comm.sends.set comm.rank (some (in_buf, in_sum)) = sends.map some)
    (hc : ∀ (k : Nat) (p : List T × Int), sends[k]? = some p → counts[k]? = some p.2)
    (hd : ∀ k, k < sends.length → displs[k]? = some (offset sends k))
    (hn : ∀ p ∈ sends, 0 ≤ p.2 ∧ p.2 ≤ p.1.length)
    (hout : offset sends sends.length ≤ out.length) :
    MPI_Allgatherv comm in_buf in_sum out counts displs
      = some (wire sends ++ out.drop (wire sends).length) := by
  unfold MPI_Allgatherv
  simp only [hs, List.length_map]
  obtain ⟨t, ht, hI⟩ := forLoop_inv
    (fun k o => o = wire (sends.take k) ++ out.drop (wire (sends.take k)).length)
    sends.length
    (fun k o =>
      match (sends.map some)[k]?, counts[k]?, displs[k]? with
      | some (some (buf, n)), some c, some d => if c = n then memcpy o d buf 0 n else none
      | _, _, _ => none)
    out (by simp [wire]) (by
      intro i t hi hI
      have hp : sends[i]? = some sends[i] := List.getElem?_eq_getElem hi
      have hmem : sends[i] ∈ sends := List.getElem_mem hi
      generalize sends[i] = p at hp hmem
      obtain ⟨hp0, hp1⟩ := hn p hmem
      have hW := wire_length (sends.take i) (fun q hq => hn q (List.mem_of_mem_take hq))
      have hsucc := offset_succ sends i p hp
      have hle := offset_le_total sends hn (i + 1)
      have hoff : offset sends i = ((wire (sends.take i)).length : Int) := by
        rw [hW]; rfl
      have hpn : p.2 = ((p.2.toNat : Nat) : Int) := by omega
      have hbody : (match (sends.map some)[i]?, counts[i]?, displs[i]? with
          | some (some (buf, n)), some c, some d => if c = n then memcpy t d buf 0 n else none
          | _, _, _ => none) = memcpy t (offset sends i) p.1 0 p.2 := by
        rw [List.getElem?_map, hp, hc i p hp, hd i hi]
        simp
      have hcopy : memcpy t (offset sends i) p.1 0 p.2
          = some (wire (sends.take (i + 1))
              ++ out.drop (wire (sends.take (i + 1))).length) := by
        rw [hoff, hpn, hI, wire_take_succ sends i p hp]
        refine memcpy_append_block _ out p.1 p.2.toNat (by omega) (by omega)
      exact ⟨_, hbody.trans hcopy, rfl⟩)
  rw [ht, hI, List.take_length]

theorem set_eq_self {α : Type} (l : List α) (k : Nat) (x : α) (h : l[k]? = some x) :
    l.set k x = l := by
  apply List.ext_getElem?
  intro n
  rw [List.getElem?_set]
  by_cases hkn : k = n
  · subst hkn
    have hlt : k < l.length := by
      by_contra hc
      rw [List.getElem?_eq_none (by omega)] at h
      cases h
    simp [hlt, h]
  · simp [hkn]

theorem offset_const {T : Type} (sends : List (List T × Int)) (c : Int)
    (h : ∀ p ∈ sends, p.2 = c) (k : Nat) (hk : k ≤ sends.length) :
    offset sends k = k * c := by
  induction k with
  | zero => simp [offset]
  | succ m ih =>
    have hm : m < sends.length := by omega
    have hp : sends[m]? = some sends[m] := List.getElem?_eq_getElem hm
    rw [offset_succ sends m _ hp, ih (by omega), h _ (List.getElem_mem hm)]
    push_cast
    ring

/-- Pointwise reading of the wire-order content: the items of rank `k` start
at the sum of the counts of the ranks before it. -/
theorem wire_getElem? {T : Type} (sends : List (List T × Int))
    (hn : ∀ p ∈ sends, 0 ≤ p.2 ∧ p.2 ≤ p.1.length) (k : Nat) (p : List T × Int)
    (hk : sends[k]? = some p) (j : Nat) (hj : (j : Int) < p.2) :
    (wire sends)[(offset sends k).toNat + j]? = p.1[j]? := by
  induction sends generalizing k with
  | nil => simp at hk
  | cons q qs ih =>
    have hq := hn q (List.mem_cons_self _ _)
    cases k with
    | zero =>
      simp only [List.getElem?_cons_zero, Option.some.injEq] at hk
      subst hk
      have hl : (List.take q.2.toNat q.1).length = q.2.toNat := by
        rw [List.length_take]; omega
      simp only [offset, List.take_zero, List.map_nil, List.sum_nil, Int.toNat_zero, zero_add,
        wire]
      rw [List.getElem?_append_left (by omega), List.getElem?_take_of_lt (by omega)]
    | succ m =>
      simp only [List.getElem?_cons_succ] at hk
      have hqs : ∀ p ∈ qs, 0 ≤ p.2 ∧ p.2 ≤ p.1.length :=
        fun p hp => hn p (List.mem_cons_of_mem _ hp)
      have h1 := ih hqs m hk
      have h2 := offset_nonneg qs hqs m
      have hl : (List.take q.2.toNat q.1).length = q.2.toNat := by
        rw [List.length_take]; omega
      have ho : offset (q :: qs) (m + 1) = q.2 + offset qs m := by
        simp [offset]
      simp only [wire]
      rw [List.getElem?_append_right (by omega), ← h1]
      congr 1
      omega

theorem load_natCast {T : Type} (buf : List T) (i : Nat) : load buf (i : Int) = buf[i]? := by
  simp [load]

theorem load_of_nonneg {T : Type} (buf : List T) (i : Int) (h : 0 ≤ i) :
    load buf i = buf[i.toNat]? := by
  simp [load, h]

/-- The constant size implementation on a block of its own: the wire-order
content followed by the untouched rest of the block. -/
theorem all_gatherc_impl_buffer {T : Type} [Inhabited T] (heap : Heap) (comm : Communicator T)
    (in_values : List T) (in_n : Int) (out : List T) (stride : Int)
    (sends : List (List T × Int))
    (hs : comm.sends.set comm.rank (some (in_values, in_n * stride)) = sends.map some)
    (hsend : ∀ p ∈ sends, p.2 = in_n * stride ∧ in_n * stride ≤ p.1.length)
    (hS : 0 < stride) (h0 : 0 ≤ in_n * stride)
    (hout : (sends.length : Int) * (in_n * stride) ≤ out.length) :
    detail.all_gatherc_impl heap comm in_values in_n (.buffer out) stride
      = ⟨none, wire sends ++ out.drop (wire sends).length, 1⟩ := by
  have hlen : comm.nproc = sends.length := by
    have := congrArg List.length hs
    simpa [Communicator.nproc] using this
  have hn : ∀ p ∈ sends, 0 ≤ p.2 ∧ p.2 ≤ p.1.length := by
    intro p hp
    obtain ⟨h1, h2⟩ := hsend p hp
    omega
  have hoff := offset_const sends (in_n * stride) (fun p hp => (hsend p hp).1)
  have hx := MPI_Allgatherv_wire comm in_values (in_n * stride) out
    (List.map (fun (_ : Nat) => in_n * stride) (List.range sends.length))
    (List.map (fun (i : Nat) => (i : Int) * in_n * stride) (List.range sends.length)) sends hs
    (by
      intro k p hk
      have hlt : k < sends.length := by
        by_contra hc
        rw [List.getElem?_eq_none (by omega)] at hk
        cases hk
      rw [List.getElem?_map, List.getElem?_range hlt]
      have hp : p ∈ sends := by
        rw [List.getElem?_eq_getElem hlt] at hk
        exact (Option.some.inj hk) ▸ List.getElem_mem hlt
      simp [(hsend p hp).1])
    (by
      intro k hk
      rw [List.getElem?_map, List.getElem?_range hk, hoff k (by omega)]
      simp [mul_assoc])
    hn (by rw [hoff _ (le_refl _)]; exact hout)
  unfold detail.all_gatherc_impl
  simp only [hlen, Ptr.isAlias, Ptr.view, hS, gt_iff_lt, not_true_eq_false, if_false,
    Bool.false_eq_true, hx]

theorem getElem?_lt_length {α : Type} (l : List α) (n : Nat) (x : α) (h : l[n]? = some x) :
    n < l.length := by
  by_contra hc
  rw [List.getElem?_eq_none (by omega)] at h
  cases h

theorem mem_of_getElem?_eq {α : Type} (l : List α) (n : Nat) (x : α) (h : l[n]? = some x) :
    x ∈ l := by
  have hlt := getElem?_lt_length l n x h
  rw [List.getElem?_eq_getElem hlt] at h
  exact (Option.some.inj h) ▸ List.getElem_mem hlt

theorem wire_append_getElem? {T : Type} (sends : List (List T × Int)) (rest : List T)
    (hn : ∀ p ∈ sends, 0 ≤ p.2 ∧ p.2 ≤ p.1.length) (k : Nat) (p : List T × Int)
    (hk : sends[k]? = some p) (j : Nat) (hj : (j : Int) < p.2) :
    ∃ v, p.1[j]? = some v ∧ (wire sends ++ rest)[(offset sends k).toNat + j]? = some v := by
  have h := wire_getElem? sends hn k p hk j hj
  have hp := hn p (mem_of_getElem?_eq sends k p hk)
  have hjl : j < p.1.length := by omega
  refine ⟨p.1[j], List.getElem?_eq_getElem hjl, ?_⟩
  rw [List.getElem?_eq_getElem hjl] at h
  rw [List.getElem?_append_left (getElem?_lt_length _ _ _ h), h]

/-- The sends of a constant size round, once the caller's own arguments are
put in its place. -/
theorem constant_round_sends {T : Type} (rank : Nat) (calls : List (ConstArgs T))
    (c : ConstArgs T) (hrank : calls[rank]? = some c) :
    (constant_round rank calls).sends.set (constant_round rank calls).rank
        (some (c.in_values, c.in_n * c.stride))
      = (calls.map fun a => (a.in_values, a.in_n * a.stride)).map some := by
  simp only [constant_round, List.map_map]
  apply set_eq_self
  rw [List.getElem?_map, hrank]
  rfl

/-- The raw-pointer constant size all_gather on a supplied block of its own. -/
theorem all_gather_const_raw_buffer {T : Type} [Inhabited T] (heap : Heap)
    (calls : List (ConstArgs T)) (N S : Int) (rank : Nat) (c : ConstArgs T) (out : List T)
    (hS : 0 < S) (hN : 0 ≤ N)
    (hcalls : ∀ a ∈ calls, a.in_n = N ∧ a.stride = S ∧ N * S ≤ a.in_values.length)
    (hrank : calls[rank]? = some c)
    (hout : (calls.length : Int) * N * S ≤ out.length) :
    all_gather_const_raw heap (constant_round rank calls) c.in_values N (.buffer out) S
      = ⟨none, ⟨wire (calls.map fun a => (a.in_values, a.in_n * a.stride))
          ++ out.drop (wire (calls.map fun a => (a.in_values, a.in_n * a.stride))).length,
          false⟩, 1⟩ := by
  obtain ⟨hcN, hcS, -⟩ := hcalls c (mem_of_getElem?_eq calls rank c hrank)
  have hs := constant_round_sends rank calls c hrank
  rw [hcN, hcS] at hs
  have h := all_gatherc_impl_buffer heap (constant_round rank calls) c.in_values N out S
    (calls.map fun a => (a.in_values, a.in_n * a.stride)) hs
    (by
      intro p hp
      obtain ⟨a, ha, rfl⟩ := List.mem_map.1 hp
      obtain ⟨h1, h2, h3⟩ := hcalls a ha
      simp only [h1, h2]
      exact ⟨trivial, h3⟩)
    hS (mul_nonneg hN (le_of_lt hS))
    (by rw [List.length_map, ← mul_assoc]; exact hout)
  simp only [all_gather_const_raw, h]

/-! ## Constant size gather -/

/-- The raw-pointer constant size all_gather on a supplied block of its own,
item by item. -/
theorem all_gather_const_raw_items {T : Type} [Inhabited T] (heap : Heap)
    (calls : List (ConstArgs T)) (N S : Int) (rank : Nat) (c : ConstArgs T) (out : List T)
    (hS : 0 < S) (hN : 0 ≤ N)
    (hcalls : ∀ a ∈ calls, a.in_n = N ∧ a.stride = S ∧ N * S ≤ a.in_values.length)
    (hrank : calls[rank]? = some c)
    (hout : (calls.length : Int) * N * S ≤ out.length) :
    ∃ cells : List T,
      all_gather_const_raw heap (constant_round rank calls) c.in_values N (.buffer out) S
        = ⟨none, ⟨cells, false⟩, 1⟩
      ∧ cells.length = out.length
      ∧ ∀ (k : Nat) (a : ConstArgs T) (j : Nat), calls[k]? = some a → (j : Int) < N * S →
          ∃ v, load a.in_values j = some v ∧ load cells (k * N * S + j) = some v := by
  have hNS : 0 ≤ N * S := mul_nonneg hN (le_of_lt hS)
  have hn : ∀ p ∈ calls.map (fun a => (a.in_values, a.in_n * a.stride)),
      0 ≤ p.2 ∧ p.2 ≤ p.1.length := by
    intro p hp
    obtain ⟨a, ha, rfl⟩ := List.mem_map.1 hp
    obtain ⟨h1, h2, h3⟩ := hcalls a ha
    simp only [h1, h2]
    exact ⟨hNS, h3⟩
  have hoff := offset_const (calls.map fun a => (a.in_values, a.in_n * a.stride)) (N * S)
    (by
      intro p hp
      obtain ⟨a, ha, rfl⟩ := List.mem_map.1 hp
      obtain ⟨h1, h2, -⟩ := hcalls a ha
      simp only [h1, h2])
  have hwl := wire_length _ hn
  rw [← offset_length, hoff _ (le_refl _), List.length_map] at hwl
  refine ⟨_, all_gather_const_raw_buffer heap calls N S rank c out hS hN hcalls hrank hout,
    ?_, ?_⟩
  · rw [List.length_append, List.length_drop]
    have : (calls.length : Int) * (N * S) ≤ out.length := by rw [← mul_assoc]; exact hout
    omega
  · intro k a j hk hj
    have hka : (calls.map fun a => (a.in_values, a.in_n * a.stride))[k]?
        = some (a.in_values, a.in_n * a.stride) := by
      rw [List.getElem?_map, hk]; rfl
    obtain ⟨h1, h2, -⟩ := hcalls a (mem_of_getElem?_eq calls k a hk)
    have hklt := getElem?_lt_length calls k a hk
    obtain ⟨v, hv1, hv2⟩ := wire_append_getElem? _
      (out.drop (wire (calls.map fun a => (a.in_values, a.in_n * a.stride))).length) hn k _ hka j
      (by simpa only [h1, h2] using hj)
    refine ⟨v, by rw [load_natCast]; exact hv1, ?_⟩
    have hkn : (0 : Int) ≤ k * (N * S) := mul_nonneg (by omega) hNS
    rw [load_of_nonneg _ _ (by rw [mul_assoc]; omega), ← hv2]
    congr 1
    rw [hoff k (by rw [List.length_map]; omega), mul_assoc]
    omega

/-- C1: constant-size gather, raw-pointer shape, output supplied and not
aliased. With `P` processes each contributing `N` elements of stride `S`, the
call of every rank returns normally after one exchange, and the output holds
at `k*N*S + j` the item `j` of the input of rank `k`, for every rank `k` and
every `j < N*S`. -/
theorem constant_gather_concatenates {T : Type} [Inhabited T] (heap : Heap)
    (calls : List (ConstArgs T)) (N S : Int) (rank : Nat) (c : ConstArgs T) (out : List T)
    (hS : 0 < S) (hN : 0 ≤ N)
    (hcalls : ∀ a ∈ calls, a.in_n = N ∧ a.stride = S ∧ N * S ≤ a.in_values.length)
    (hrank : calls[rank]? = some c)
    (hout : (calls.length : Int) * N * S ≤ out.length) :
    ∃ cells : List T,
      all_gather_const_raw heap (constant_round rank calls) c.in_values N (.buffer out) S
        = ⟨none, ⟨cells, false⟩, 1⟩
      ∧ cells.length = out.length
      ∧ ∀ (k : Nat) (a : ConstArgs T) (j : Nat), calls[k]? = some a → (j : Int) < N * S →
          ∃ v, load a.in_values j = some v ∧ load cells (k * N * S + j) = some v :=
  all_gather_const_raw_items heap calls N S rank c out hS hN hcalls hrank hout

/-- C1 at a concrete input: three ranks, two elements of stride two each. -/
theorem constant_gather_concatenates_witness :
    ∃ cells : List Int,
      all_gather_const_raw (fun _ => true)
          (constant_round 1 [⟨[1, 2, 3, 4], 2, 2⟩, ⟨[5, 6, 7, 8], 2, 2⟩, ⟨[9, 10, 11, 12], 2, 2⟩])
          [5, 6, 7, 8] 2 (.buffer (List.replicate 13 0)) 2
        = ⟨none, ⟨cells, false⟩, 1⟩
      ∧ cells.length = (List.replicate 13 (0 : Int)).length
      ∧ ∀ (k : Nat) (a : ConstArgs Int) (j : Nat),
          [(⟨[1, 2, 3, 4], 2, 2⟩ : ConstArgs Int), ⟨[5, 6, 7, 8], 2, 2⟩,
            ⟨[9, 10, 11, 12], 2, 2⟩][k]? = some a →
          (j : Int) < 2 * 2 →
          ∃ v, load a.in_values j = some v ∧ load cells (k * 2 * 2 + j) = some v :=
  constant_gather_concatenates (fun _ => true)
    [⟨[1, 2, 3, 4], 2, 2⟩, ⟨[5, 6, 7, 8], 2, 2⟩, ⟨[9, 10, 11, 12], 2, 2⟩] 2 2 1
    ⟨[5, 6, 7, 8], 2, 2⟩ (List.replicate 13 0) (by decide) (by decide) (by decide) (by decide)
    (by decide)

/-- C2: round trip of the constant-size gather. The slice of the gathered
result at offset `k*N*S` of length `N*S` is, item for item, the `N*S` items
rank `k` contributed. -/
theorem constant_gather_round_trip {T : Type} [Inhabited T] (heap : Heap)
    (calls : List (ConstArgs T)) (N S : Int) (rank : Nat) (c : ConstArgs T) (out : List T)
    (k : Nat) (a : ConstArgs T)
    (hS : 0 < S) (hN : 0 ≤ N)
    (hcalls : ∀ a ∈ calls, a.in_n = N ∧ a.stride = S ∧ N * S ≤ a.in_values.length)
    (hrank : calls[rank]? = some c)
    (hout : (calls.length : Int) * N * S ≤ out.length)
    (hk : calls[k]? = some a) :
    ∃ cells : List T,
      all_gather_const_raw heap (constant_round rank calls) c.in_values N (.buffer out) S
        = ⟨none, ⟨cells, false⟩, 1⟩
      ∧ (cells.drop (k * N * S).toNat).take (N * S).toNat = a.in_values.take (N * S).toNat := by
  obtain ⟨cells, hrun, -, hitems⟩ :=
    all_gather_const_raw_items heap calls N S rank c out hS hN hcalls hrank hout
  refine ⟨cells, hrun, ?_⟩
  have hNS : 0 ≤ N * S := mul_nonneg hN (le_of_lt hS)
  have hkn : (0 : Int) ≤ k * (N * S) := mul_nonneg (by omega) hNS
  apply List.ext_getElem?
  intro n
  rw [List.getElem?_take, List.getElem?_take]
  by_cases hn : n < (N * S).toNat
  · rw [if_pos hn, if_pos hn, List.getElem?_drop]
    obtain ⟨v, hv1, hv2⟩ := hitems k a n hk (by omega)
    rw [load_natCast] at hv1
    rw [load_of_nonneg _ _ (by rw [mul_assoc]; omega)] at hv2
    rw [hv1, ← hv2]
    congr 1
    rw [mul_assoc]
    omega
  · rw [if_neg hn, if_neg hn]

/-- C2 at a concrete input: the slice of rank 2 in a gather over three ranks. -/
theorem constant_gather_round_trip_witness :
    ∃ cells : List Int,
      all_gather_const_raw (fun _ => true)
          (constant_round 0 [⟨[1, 2, 3, 4], 2, 2⟩, ⟨[5, 6, 7, 8], 2, 2⟩, ⟨[9, 10, 11, 12], 2, 2⟩])
          [1, 2, 3, 4] 2 (.buffer (List.replicate 12 0)) 2
        = ⟨none, ⟨cells, false⟩, 1⟩
      ∧ (cells.drop (((2 : Nat) : Int) * 2 * 2).toNat).take ((2 : Int) * 2).toNat
          = ([9, 10, 11, 12] : List Int).take ((2 : Int) * 2).toNat :=
  constant_gather_round_trip (fun _ => true)
    [⟨[1, 2, 3, 4], 2, 2⟩, ⟨[5, 6, 7, 8], 2, 2⟩, ⟨[9, 10, 11, 12], 2, 2⟩] 2 2 0
    ⟨[1, 2, 3, 4], 2, 2⟩ (List.replicate 12 0) 2 ⟨[9, 10, 11, 12], 2, 2⟩
    (by decide) (by decide) (by decide) (by decide) (by decide) (by decide)

/-- The raw-pointer constant size all_gather entered with the null pointer:
the call allocates the output and proceeds as on a supplied block. -/
theorem all_gather_const_raw_null {T : Type} [Inhabited T] (heap : Heap)
    (comm : Communicator T) (in_values : List T) (in_n stride size : Int)
    (hsize : size = if stride * comm.nproc * in_n > 1 then stride * comm.nproc * in_n else 1)
    (hheap : heap size = true) :
    all_gather_const_raw heap comm in_values in_n .null stride
      = ⟨(all_gather_const_raw heap comm in_values in_n
            (.buffer (List.replicate size.toNat default)) stride).fault,
          ⟨(all_gather_const_raw heap comm in_values in_n
            (.buffer (List.replicate size.toNat default)) stride).state.cells, true⟩,
          (all_gather_const_raw heap comm in_values in_n
            (.buffer (List.replicate size.toNat default)) stride).rounds⟩ := by
  have hpos : 0 ≤ size := by
    rw [hsize]; split <;> omega
  simp only [all_gather_const_raw, ← hsize, alloc, hpos, hheap, and_self, if_true,
    Option.map_some']

/-- C3: the example of the specification. Four ranks, stride 3, one element
per rank, rank `k` contributing `[10k, 10k+1, 10k+2]`: on every rank the
gather yields `[0,1,2, 10,11,12, 20,21,22, 30,31,32]`, in a supplied block of
twelve items as well as in a block the call allocates. -/
theorem constant_gather_example (heap : Heap) (rank : Nat) (c : ConstArgs Int)
    (out : List Int)
    (hrank : [(⟨[0, 1, 2], 1, 3⟩ : ConstArgs Int), ⟨[10, 11, 12], 1, 3⟩, ⟨[20, 21, 22], 1, 3⟩,
      ⟨[30, 31, 32], 1, 3⟩][rank]? = some c)
    (hout : out.length = 12) (hheap : heap 12 = true) :
    all_gather_const_raw heap
        (constant_round rank [⟨[0, 1, 2], 1, 3⟩, ⟨[10, 11, 12], 1, 3⟩, ⟨[20, 21, 22], 1, 3⟩,
          ⟨[30, 31, 32], 1, 3⟩])
        c.in_values 1 (.buffer out) 3
      = ⟨none, ⟨[0, 1, 2, 10, 11, 12, 20, 21, 22, 30, 31, 32], false⟩, 1⟩
    ∧ all_gather_const_raw heap
        (constant_round rank [⟨[0, 1, 2], 1, 3⟩, ⟨[10, 11, 12], 1, 3⟩, ⟨[20, 21, 22], 1, 3⟩,
          ⟨[30, 31, 32], 1, 3⟩])
        c.in_values 1 .null 3
      = ⟨none, ⟨[0, 1, 2, 10, 11, 12, 20, 21, 22, 30, 31, 32], true⟩, 1⟩ := by
  have key : ∀ o : List Int, o.length = 12 →
      all_gather_const_raw heap
        (constant_round rank [⟨[0, 1, 2], 1, 3⟩, ⟨[10, 11, 12], 1, 3⟩, ⟨[20, 21, 22], 1, 3⟩,
          ⟨[30, 31, 32], 1, 3⟩])
        c.in_values 1 (.buffer o) 3
      = ⟨none, ⟨[0, 1, 2, 10, 11, 12, 20, 21, 22, 30, 31, 32], false⟩, 1⟩ := by
    intro o ho
    rw [all_gather_const_raw_buffer heap _ 1 3 rank c o (by decide) (by decide) (by decide)
      hrank (by rw [ho]; decide)]
    have hd : List.drop 12 o = [] := List.drop_eq_nil_of_le (by omega)
    simp [wire, hd]
  refine ⟨key out hout, ?_⟩
  rw [all_gather_const_raw_null heap _ c.in_values 1 3 12
      (by simp [constant_round, Communicator.nproc]) hheap,
    key _ (by simp)]

/-- C3 at rank 2 with a supplied block of twelve zeros. -/
theorem constant_gather_example_witness :
    all_gather_const_raw (fun _ => true)
        (constant_round 2 [(⟨[0, 1, 2], 1, 3⟩ : ConstArgs Int), ⟨[10, 11, 12], 1, 3⟩, ⟨[20, 21, 22], 1, 3⟩,
          ⟨[30, 31, 32], 1, 3⟩])
        [20, 21, 22] 1 (.buffer (List.replicate 12 0)) 3
      = ⟨none, ⟨[0, 1, 2, 10, 11, 12, 20, 21, 22, 30, 31, 32], false⟩, 1⟩
    ∧ all_gather_const_raw (fun _ => true)
        (constant_round 2 [(⟨[0, 1, 2], 1, 3⟩ : ConstArgs Int), ⟨[10, 11, 12], 1, 3⟩, ⟨[20, 21, 22], 1, 3⟩,
          ⟨[30, 31, 32], 1, 3⟩])
        [20, 21, 22] 1 .null 3
      = ⟨none, ⟨[0, 1, 2, 10, 11, 12, 20, 21, 22, 30, 31, 32], true⟩, 1⟩ :=
  constant_gather_example (fun _ => true) 2 ⟨[20, 21, 22], 1, 3⟩ (List.replicate 12 0)
    (by decide) (by decide) (by decide)

/-! ## Variable size gather: the count and displacement tables -/

theorem store_eq {α : Type} (buf : List α) (i : Nat) (v : α) (h : i < buf.length) :
    store buf (i : Int) v = some (buf.set i v) := by
  have : (0 : Int) ≤ i ∧ (i : Int) < buf.length := ⟨by omega, by omega⟩
  simp only [store, if_pos this, Int.toNat_ofNat]

theorem out_tables_step (nproc : Nat) (stride : Int) (out_n : List Int)
    (hlen : nproc ≤ out_n.length) (i : Nat) (t : List Int × List Int) (hi : i < nproc - 1)
    (h1 : t.1.length = nproc) (h2 : t.2.length = nproc)
    (h3 : ∀ (k : Nat) (x : Int), k < i → out_n[k]? = some x → t.1[k]? = some (stride * x))
    (h4 : ∀ k : Nat, k ≤ i → t.2[k]? = some (stride * (out_n.take k).sum)) :
    ∃ t' : List Int × List Int,
      ((load out_n i).bind fun n_i =>
        (store t.1 i (stride * n_i)).bind fun ns =>
        (load t.2 i).bind fun d_i =>
        (load ns i).bind fun ns_i =>
        (store t.2 (i + 1) (d_i + ns_i)).bind fun ds => some (ns, ds)) = some t'
      ∧ t'.1.length = nproc ∧ t'.2.length = nproc
      ∧ (∀ (k : Nat) (x : Int), k < i + 1 → out_n[k]? = some x → t'.1[k]? = some (stride * x))
      ∧ (∀ k : Nat, k ≤ i + 1 → t'.2[k]? = some (stride * (out_n.take k).sum)) := by
  have hio : i < out_n.length := by omega
  have hx : out_n[i]? = some out_n[i] := List.getElem?_eq_getElem hio
  have e : ((i : Int) + 1) = ((i + 1 : Nat) : Int) := by push_cast; rfl
  have hns : (t.1.set i (stride * out_n[i]))[i]? = some (stride * out_n[i]) := by
    rw [List.getElem?_set]; simp; omega
  refine ⟨(t.1.set i (stride * out_n[i]),
    t.2.set (i + 1) (stride * (out_n.take i).sum + stride * out_n[i])), ?_, ?_, ?_, ?_, ?_⟩
  · rw [load_natCast, hx, Option.some_bind, store_eq _ _ _ (by omega), Option.some_bind,
      load_natCast, h4 i (le_refl _), Option.some_bind, load_natCast, hns, Option.some_bind, e,
      store_eq _ _ _ (by omega), Option.some_bind]
  · simp [h1]
  · simp [h2]
  · intro k x hk hkx
    simp only
    rw [List.getElem?_set]
    by_cases hki : i = k
    · subst hki
      rw [hx] at hkx
      simp only [Option.some.injEq] at hkx
      subst hkx
      simp
      omega
    · rw [if_neg hki]
      exact h3 k x (by omega) hkx
  · intro k hk
    simp only
    rw [List.getElem?_set]
    by_cases hki : i + 1 = k
    · subst hki
      rw [if_pos rfl, if_pos (by omega), List.sum_take_succ _ _ hio, mul_add]
    · rw [if_neg hki]
      exact h4 k (by omega)

/-- The tables computed by `all_gathervm_impl`: the stride-multiplied counts
and their running sums. -/
theorem out_tables_spec (nproc : Nat) (stride : Int) (out_n : List Int) (hP : 0 < nproc)
    (hlen : nproc ≤ out_n.length) :
    ∃ ns ds : List Int, detail.out_tables nproc stride out_n = some (ns, ds)
      ∧ ns.length = nproc ∧ ds.length = nproc
      ∧ (∀ (k : Nat) (x : Int), k < nproc → out_n[k]? = some x → ns[k]? = some (stride * x))
      ∧ (∀ k : Nat, k < nproc → ds[k]? = some (stride * (out_n.take k).sum)) := by
  obtain ⟨t, ht, hI1, hI2, hI3, hI4⟩ := forLoop_inv
    (fun i (t : List Int × List Int) => t.1.length = nproc ∧ t.2.length = nproc
      ∧ (∀ (k : Nat) (x : Int), k < i → out_n[k]? = some x → t.1[k]? = some (stride * x))
      ∧ (∀ k : Nat, k ≤ i → t.2[k]? = some (stride * (out_n.take k).sum)))
    (nproc - 1)
    (fun i (t : List Int × List Int) =>
      (load out_n i).bind fun n_i =>
      (store t.1 i (stride * n_i)).bind fun ns =>
      (load t.2 i).bind fun d_i =>
      (load ns i).bind fun ns_i =>
      (store t.2 (i + 1) (d_i + ns_i)).bind fun ds => some (ns, ds))
    (List.replicate nproc 0, (List.replicate nproc (0 : Int)).set 0 0)
    (by
      refine ⟨by simp, by simp, fun k x hk => absurd hk (Nat.not_lt_zero k), ?_⟩
      intro k hk
      have hk0 : k = 0 := by omega
      subst hk0
      simp [hP])
    (fun i t hi hI =>
      out_tables_step nproc stride out_n hlen i t hi hI.1 hI.2.1 hI.2.2.1 hI.2.2.2)
  have hlo : nproc - 1 < out_n.length := by omega
  have hx : out_n[nproc - 1]? = some out_n[nproc - 1] := List.getElem?_eq_getElem hlo
  have e : ((nproc : Int) - 1) = ((nproc - 1 : Nat) : Int) := by omega
  refine ⟨t.1.set (nproc - 1) (out_n[nproc - 1] * stride), t.2, ?_, by simp [hI1], hI2, ?_, ?_⟩
  · unfold detail.out_tables
    have h0 : store (List.replicate nproc (0 : Int)) 0 0
        = some ((List.replicate nproc (0 : Int)).set 0 0) := by
      have := store_eq (List.replicate nproc (0 : Int)) 0 0 (by simpa using hP)
      simpa using this
    simp only [h0, Option.some_bind, ht]
    rw [e, load_natCast, hx]
    simp only [Option.some_bind,
      store_eq t.1 (nproc - 1) (out_n[nproc - 1] * stride) (by omega)]
  · intro k x hk hkx
    rw [List.getElem?_set]
    by_cases hki : nproc - 1 = k
    · subst hki
      rw [hx] at hkx
      simp only [Option.some.injEq] at hkx
      subst hkx
      rw [if_pos rfl, if_pos (by omega), mul_comm]
    · rw [if_neg hki]
      exact hI3 k x (by omega) hkx
  · intro k hk
    exact hI4 k (by omega)

/-! ## Variable size gather without a receive map -/

/-- With receive counts that match the send counts, the running sums of the
send counts are the stride-multiplied running sums of `out_n`. -/
theorem offset_eq_stride_mul {T : Type} (sends : List (List T × Int)) (stride : Int)
    (out_n : List Int)
    (hcount : ∀ (k : Nat) (p : List T × Int), sends[k]? = some p →
      ∃ x, out_n[k]? = some x ∧ p.2 = stride * x)
    (k : Nat) (hk : k ≤ sends.length) :
    offset sends k = stride * (out_n.take k).sum := by
  induction k with
  | zero => simp [offset]
  | succ m ih =>
    have hm : m < sends.length := by omega
    have hp : sends[m]? = some sends[m] := List.getElem?_eq_getElem hm
    obtain ⟨x, hx, hpx⟩ := hcount m _ hp
    have hmo := getElem?_lt_length out_n m x hx
    rw [List.getElem?_eq_getElem hmo] at hx
    simp only [Option.some.injEq] at hx
    rw [offset_succ sends m _ hp, ih (by omega), List.sum_take_succ _ _ hmo, hpx, hx, mul_add]

/-- The variable size implementation without a receive map, for any
`out_values` pointer: the wire-order content followed by the untouched rest of
the output storage. -/
theorem all_gathervm_impl_unmapped {T : Type} [Inhabited T] (heap : Heap)
    (comm : Communicator T) (in_values : List T) (in_n : Int) (in_map : Option (List Int))
    (out_values : Ptr T) (out_n : List Int) (stride : Int) (b : List T)
    (sends : List (List T × Int))
    (hb : detail.in_buf heap in_values in_n in_map stride = .ok b)
    (hs : comm.sends.set comm.rank (some (b, stride * in_n)) = sends.map some)
    (hS : 0 < stride) (hP : 0 < sends.length)
    (hcount : ∀ (k : Nat) (p : List T × Int), sends[k]? = some p →
      ∃ x, out_n[k]? = some x ∧ p.2 = stride * x)
    (hn : ∀ p ∈ sends, 0 ≤ p.2 ∧ p.2 ≤ p.1.length)
    (hout : offset sends sends.length ≤ (out_values.view in_values).length)
    (hheap : out_values.isAlias = true → heap (offset sends sends.length + 1) = true) :
    detail.all_gathervm_impl heap comm in_values in_n in_map out_values out_n none stride
      = ⟨none, wire sends ++ (out_values.view in_values).drop (wire sends).length, 1⟩ := by
  have hnp : comm.nproc = sends.length := by
    have := congrArg List.length hs
    simpa [Communicator.nproc] using this
  have hlast : sends[sends.length - 1]? = some sends[sends.length - 1] :=
    List.getElem?_eq_getElem (by omega)
  obtain ⟨x, hx, hpx⟩ := hcount _ _ hlast
  have hlen : sends.length ≤ out_n.length := by
    have := getElem?_lt_length out_n _ x hx
    omega
  obtain ⟨ns, ds, htab, hnsl, hdsl, hns, hds⟩ := out_tables_spec sends.length stride out_n hP hlen
  have hoff := offset_eq_stride_mul sends stride out_n hcount
  have e : ((sends.length : Int) - 1) = ((sends.length - 1 : Nat) : Int) := by omega
  have htot : offset sends sends.length
      = stride * (out_n.take (sends.length - 1)).sum + stride * x := by
    have h1 := offset_succ sends (sends.length - 1) _ hlast
    have h2 : sends.length - 1 + 1 = sends.length := by omega
    rw [h2] at h1
    rw [h1, hoff _ (by omega), hpx]
  have hsum : ((load ds ((sends.length : Int) - 1)).bind fun d =>
      (load out_n ((sends.length : Int) - 1)).map fun n => d + stride * n)
      = some (offset sends sends.length) := by
    rw [e, load_natCast, load_natCast, hds _ (by omega), hx, htot]
    rfl
  have hwl := wire_length sends hn
  rw [← offset_length] at hwl
  have htr : ∀ o : List T, offset sends sends.length ≤ o.length →
      MPI_Allgatherv comm b (stride * in_n) o ns ds
        = some (wire sends ++ o.drop (wire sends).length) := by
    intro o ho
    refine MPI_Allgatherv_wire comm b (stride * in_n) o ns ds sends hs ?_ ?_ hn ho
    · intro k p hk
      obtain ⟨y, hy, hpy⟩ := hcount k p hk
      rw [hns k y (getElem?_lt_length sends k p hk) hy, hpy]
    · intro k hk
      rw [hds k hk, hoff k (by omega)]
  have hnn := offset_nonneg sends hn sends.length
  unfold detail.all_gathervm_impl
  simp only [hnp, hS, gt_iff_lt, not_true_eq_false, if_false, htab, hsum, hb, Option.isSome_none,
    Bool.false_eq_true, false_or]
  cases out_values with
  | null =>
    simp only [Ptr.view] at hout
    simp only [Ptr.isAlias, Ptr.view, Bool.false_eq_true, if_false, htr _ hout]
  | buffer cells =>
    simp only [Ptr.view] at hout
    simp only [Ptr.isAlias, Ptr.view, Bool.false_eq_true, if_false, htr _ hout]
  | aliased =>
    have hh := hheap rfl
    have hal : (alloc heap (offset sends sends.length + 1) : Option (List T))
        = some (List.replicate (offset sends sends.length + 1).toNat default) := by
      simp only [alloc]
      rw [if_pos ⟨by omega, hh⟩]
    simp only [Ptr.isAlias, Ptr.view, if_true, hal]
    rw [htr _ (by rw [List.length_replicate]; omega)]
    simp only [Ptr.view] at hout
    have hcp := memcpy_eq in_values
      (wire sends ++ List.drop (wire sends).length
        (List.replicate (offset sends sends.length + 1).toNat (default : T)))
      0 0 (wire sends).length (by rw [List.length_append]; omega) (by omega)
    rw [show ((0 : Nat) : Int) = 0 from rfl, hwl] at hcp
    simp only [hcp, List.take_zero, List.drop_zero, List.nil_append, zero_add, List.take_left]

/-! ## The mapped raw-pointer interface -/

theorem int32_of_range (x : Int) (h : -2147483648 ≤ x ∧ x ≤ 2147483647) : int32 x = x := by
  unfold int32
  omega

theorem int32_add_int32 (a b : Int) : int32 (int32 a + b) = int32 (a + b) := by
  unfold int32
  omega

theorem sum_out_n_eq (nproc : Nat) (out_n : List Int) (h : nproc ≤ out_n.length) :
    sum_out_n nproc out_n = some (int32 (out_n.take nproc).sum) := by
  obtain ⟨t, ht, hI⟩ := forLoop_inv (fun i (s : Int) => s = int32 (out_n.take i).sum) nproc
    (fun i out_sum => (load out_n i).map fun n_i => int32 (out_sum + n_i)) 0
    (by simp [int32_of_range])
    (by
      intro i t hi hI
      have hio : i < out_n.length := by omega
      refine ⟨int32 (t + out_n[i]), ?_, ?_⟩
      · show Option.map (fun n_i => int32 (t + n_i)) (load out_n (i : Int))
          = some (int32 (t + out_n[i]))
        rw [load_natCast, List.getElem?_eq_getElem hio]; rfl
      · show int32 (t + out_n[i]) = int32 (List.take (i + 1) out_n).sum
        rw [List.sum_take_succ _ _ hio, hI, int32_add_int32])
  rw [sum_out_n, ht, hI]

/-- A table that is not recognised as the sentinel is used as supplied,
without any exchange. -/
theorem negotiate_supplied {T : Type} (heap : Heap) (g : Group T) (in_n : Int)
    (out_n : List Int) (out_map : Option (List Int)) (hlen : g.calls.length ≤ out_n.length)
    (hsum : int32 (out_n.take g.calls.length).sum ≠ int32 (-(g.calls.length : Int))) :
    negotiate heap g in_n out_n out_map
      = ⟨none, (out_n, int32 (out_n.take g.calls.length).sum), 0⟩ := by
  simp only [negotiate, sum_out_n_eq _ _ hlen, if_neg hsum]

/-- With a supplied output and a table that is not recognised as the sentinel,
the mapped raw-pointer all_gather is its implementation. -/
theorem all_gather_mapped_raw_supplied {T : Type} [Inhabited T] (heap : Heap) (g : Group T)
    (in_values : List T) (in_n : Int) (in_map : Option (List Int)) (out_values : Ptr T)
    (out_n : List Int) (out_map : Option (List Int)) (stride : Int)
    (hnull : out_values ≠ .null) (hlen : g.calls.length ≤ out_n.length)
    (hsum : int32 (out_n.take g.calls.length).sum ≠ int32 (-(g.calls.length : Int))) :
    all_gather_mapped_raw heap g in_values in_n in_map out_values out_n out_map stride
      = ⟨(detail.all_gathervm_impl heap (g.data_round heap) in_values in_n in_map out_values
            out_n out_map stride).fault,
          ⟨⟨(detail.all_gathervm_impl heap (g.data_round heap) in_values in_n in_map out_values
            out_n out_map stride).state, false⟩, out_n⟩,
          (detail.all_gathervm_impl heap (g.data_round heap) in_values in_n in_map out_values
            out_n out_map stride).rounds⟩ := by
  have ha : allocate_out heap out_values out_map (int32 (out_n.take g.calls.length).sum) stride
      = .ok (out_values, false) := by
    cases out_values with
    | null => exact absurd rfl hnull
    | aliased => rfl
    | buffer cells => rfl
  simp only [all_gather_mapped_raw, negotiate_supplied heap g in_n out_n out_map hlen hsum, ha,
    zero_add]

/-- The wire-order sends of the data round of a group. -/
theorem data_round_sends {T : Type} [Inhabited T] (heap : Heap) (rank : Nat)
    (calls : List (SendArgs T)) (c : SendArgs T) (b : List T)
    (hpeers : ∀ a ∈ calls, ∃ b, detail.in_buf heap a.in_values a.in_n a.in_map a.stride = .ok b) :
    ((group rank calls).data_round heap).sends.set ((group rank calls).data_round heap).rank
        (some (b, c.stride * c.in_n))
      = ((staged_sends heap calls).set rank (b, c.stride * c.in_n)).map some := by
  simp only [Group.data_round, group, staged_sends, List.map_set, List.map_map]
  congr 1
  apply List.map_congr_left
  intro a ha
  obtain ⟨b', hb'⟩ := hpeers a ha
  simp [staged, hb']

theorem staged_sends_getElem? {T : Type} [Inhabited T] (heap : Heap)
    (calls : List (SendArgs T)) (k : Nat) :
    (staged_sends heap calls)[k]?
      = (calls[k]?).map fun a => (staged heap a, a.stride * a.in_n) := by
  simp [staged_sends]

/-- What the hypotheses on a group give for its data round. -/
theorem staged_sends_facts {T : Type} [Inhabited T] (heap : Heap) (calls : List (SendArgs T))
    (out_n : List Int) (S : Int) (hS : 0 < S)
    (hpeers : ∀ a ∈ calls, a.stride = S ∧ 0 ≤ a.in_n ∧
      ∃ b, detail.in_buf heap a.in_values a.in_n a.in_map a.stride = .ok b
        ∧ S * a.in_n ≤ b.length)
    (htable : ∀ (k : Nat) (a : SendArgs T), calls[k]? = some a → out_n[k]? = some a.in_n) :
    (∀ (k : Nat) (p : List T × Int), (staged_sends heap calls)[k]? = some p →
        ∃ x, out_n[k]? = some x ∧ p.2 = S * x)
    ∧ (∀ p ∈ staged_sends heap calls, 0 ≤ p.2 ∧ p.2 ≤ p.1.length)
    ∧ calls.length ≤ out_n.length
    ∧ 0 ≤ (out_n.take calls.length).sum
    ∧ offset (staged_sends heap calls) (staged_sends heap calls).length
        = S * (out_n.take calls.length).sum := by
  have h1 : ∀ (k : Nat) (p : List T × Int), (staged_sends heap calls)[k]? = some p →
      ∃ x, out_n[k]? = some x ∧ p.2 = S * x := by
    intro k p hk
    rw [staged_sends_getElem?] at hk
    cases ha : calls[k]? with
    | none => rw [ha] at hk; cases hk
    | some a =>
      rw [ha] at hk
      simp only [Option.map_some', Option.some.injEq] at hk
      subst hk
      exact ⟨a.in_n, htable k a ha, by rw [(hpeers a (mem_of_getElem?_eq calls k a ha)).1]⟩
  have h2 : ∀ p ∈ staged_sends heap calls, 0 ≤ p.2 ∧ p.2 ≤ p.1.length := by
    intro p hp
    obtain ⟨a, ha, rfl⟩ := List.mem_map.1 hp
    obtain ⟨e1, e2, b, hb, hbl⟩ := hpeers a ha
    simp only [staged, hb]
    rw [e1]
    exact ⟨mul_nonneg (le_of_lt hS) e2, hbl⟩
  have h3 : calls.length ≤ out_n.length := by
    by_contra hc
    have hlt : out_n.length < calls.length := by omega
    have := htable out_n.length _ (List.getElem?_eq_getElem hlt)
    have := getElem?_lt_length _ _ _ this
    omega
  have hl : (staged_sends heap calls).length = calls.length := by simp [staged_sends]
  have h5 := offset_eq_stride_mul (staged_sends heap calls) S out_n h1
    (staged_sends heap calls).length (le_refl _)
  rw [hl] at h5
  have h4 : 0 ≤ (out_n.take calls.length).sum := by
    have := offset_nonneg (staged_sends heap calls) h2 calls.length
    rw [h5] at this
    exact le_of_mul_le_mul_left (by simpa using this) hS
  exact ⟨h1, h2, h3, h4, by rw [hl]; exact h5⟩

/-- The implementation of the variable size gather without a receive map,
in the data round of a group and with the receive counts every rank really
sends: the wire-order content followed by the untouched rest of the output
storage. -/
theorem all_gathervm_impl_wire {T : Type} [Inhabited T] (heap : Heap)
    (calls : List (SendArgs T)) (rank : Nat) (c : SendArgs T) (out_values : Ptr T)
    (out_n : List Int) (S : Int) (hS : 0 < S)
    (hrank : calls[rank]? = some c)
    (hpeers : ∀ a ∈ calls, a.stride = S ∧ 0 ≤ a.in_n ∧
      ∃ b, detail.in_buf heap a.in_values a.in_n a.in_map a.stride = .ok b
        ∧ S * a.in_n ≤ b.length)
    (htable : ∀ (k : Nat) (a : SendArgs T), calls[k]? = some a → out_n[k]? = some a.in_n)
    (hout : S * (out_n.take calls.length).sum ≤ (out_values.view c.in_values).length)
    (hheap : out_values.isAlias = true → heap (S * (out_n.take calls.length).sum + 1) = true) :
    detail.all_gathervm_impl heap ((group rank calls).data_round heap) c.in_values c.in_n
        c.in_map out_values out_n none S
      = ⟨none, wire (staged_sends heap calls)
          ++ (out_values.view c.in_values).drop (wire (staged_sends heap calls)).length, 1⟩ := by
  obtain ⟨h1, h2, h3, h4, h5⟩ := staged_sends_facts heap calls out_n S hS hpeers htable
  have hP : 0 < calls.length := by
    have := getElem?_lt_length calls rank c hrank
    omega
  have hl : (staged_sends heap calls).length = calls.length := by simp [staged_sends]
  obtain ⟨e1, -, b, hb, -⟩ := hpeers c (mem_of_getElem?_eq calls rank c hrank)
  have hs := data_round_sends heap rank calls c b
    (fun a ha => (hpeers a ha).2.2.imp fun _ h => h.1)
  rw [set_eq_self (staged_sends heap calls) rank (b, c.stride * c.in_n)
    (by rw [staged_sends_getElem?, hrank]; simp [staged, hb]), e1] at hs
  rw [e1] at hb
  exact all_gathervm_impl_unmapped heap ((group rank calls).data_round heap) c.in_values
    c.in_n c.in_map out_values out_n S b (staged_sends heap calls) hb hs hS (by omega) h1 h2
    (by rw [h5]; exact hout) (by rw [h5]; exact hheap)

theorem in_buf_unmapped {T : Type} [Inhabited T] (heap : Heap) (in_values : List T)
    (in_n stride : Int) : detail.in_buf heap in_values in_n none stride = .ok in_values := rfl

theorem wire_counts {T : Type} (calls : List (SendArgs T)) :
    wire (calls.map fun a => ([a.in_n], (1 : Int) * 1)) = calls.map fun a => a.in_n := by
  induction calls with
  | nil => rfl
  | cons a as ih =>
    simp only [List.map_cons, wire, ih]
    rfl

/-- The pre communication: when the sum of the first `nproc` entries of
`out_n` is `-nproc` and no receive map is given, one constant size exchange
overwrites them with the `in_n` of every rank. -/
theorem negotiate_exchanges {T : Type} (heap : Heap) (g : Group T) (c : SendArgs T)
    (out_n : List Int) (hrank : g.calls[g.rank]? = some c)
    (hlen : g.calls.length ≤ out_n.length)
    (hsum : int32 (out_n.take g.calls.length).sum = int32 (-(g.calls.length : Int))) :
    negotiate heap g c.in_n out_n none
      = ⟨none, ((g.calls.map fun a => a.in_n) ++ out_n.drop g.calls.length,
          int32 (g.calls.map fun a => a.in_n).sum), 1⟩ := by
  have hs : g.count_round.sends.set g.count_round.rank (some ([c.in_n], (1 : Int) * 1))
      = (g.calls.map fun a => ([a.in_n], (1 : Int) * 1)).map some := by
    simp only [Group.count_round, List.map_map]
    apply set_eq_self
    rw [List.getElem?_map, hrank]
    rfl
  have himpl := all_gatherc_impl_buffer heap g.count_round [c.in_n] 1 out_n 1
    (g.calls.map fun a => ([a.in_n], (1 : Int) * 1)) hs
    (by
      intro p hp
      obtain ⟨a, -, rfl⟩ := List.mem_map.1 hp
      simp)
    (by decide) (by decide) (by simpa using hlen)
  rw [wire_counts] at himpl
  simp only [List.length_map] at himpl
  have hsum' : sum_out_n g.calls.length ((g.calls.map fun a => a.in_n) ++ out_n.drop g.calls.length)
      = some (int32 (g.calls.map fun a => a.in_n).sum) := by
    rw [sum_out_n_eq _ _ (by simp)]
    congr 3
    rw [List.take_append_of_le_length (by simp)]
    simp
  simp only [negotiate, sum_out_n_eq _ _ hlen, hsum, if_true, Option.isSome_none,
    Bool.false_eq_true, if_false, himpl, hsum']

/-- Whatever happens after the pre communication, the mapped raw-pointer
all_gather leaves in `out_n` what the pre communication put there. -/
theorem all_gather_mapped_raw_out_n {T : Type} [Inhabited T] (heap : Heap) (g : Group T)
    (in_values : List T) (in_n : Int) (in_map : Option (List Int)) (out_values : Ptr T)
    (out_n : List Int) (out_map : Option (List Int)) (stride : Int) :
    (all_gather_mapped_raw heap g in_values in_n in_map out_values out_n out_map stride).state.out_n
      = (negotiate heap g in_n out_n out_map).state.1 := by
  unfold all_gather_mapped_raw
  simp only
  split
  · rfl
  · split <;> rfl

theorem sum_sentinel (n : Nat) : (List.replicate n (-1 : Int)).sum = -(n : Int) := by
  simp

theorem foldl_int32 (l : List Int) (s : Int) :
    l.foldl (fun out_sum i => int32 (out_sum + i)) (int32 s) = int32 (s + l.sum) := by
  induction l generalizing s with
  | nil => simp
  | cons a as ih => simp only [List.foldl_cons, List.sum_cons, int32_add_int32, ih, add_assoc]

theorem foldl_add_eq_sum (l : List Int) :
    l.foldl (fun out_sum i => int32 (out_sum + i)) 0 = int32 l.sum := by
  have h := foldl_int32 l 0
  rw [int32_of_range 0 (by omega), zero_add] at h
  exact h

/-- Whatever happens after the pre communication, the mapped std::vector
all_gather leaves in `out_n` what the pre communication put there. -/
theorem all_gather_mapped_vector_out_n {T : Type} [Inhabited T] (heap : Heap) (g : Group T)
    (c : SendArgs T) (in_values : List T) (in_map : List Int) (out_values : OutVec T)
    (out_n : List Int) (stride : Int) (hrank : g.calls[g.rank]? = some c)
    (hlen : g.calls.length ≤ out_n.length)
    (hsum : int32 out_n.sum = int32 (-(g.calls.length : Int))) :
    (all_gather_mapped_vector heap g in_values c.in_n in_map out_values out_n [] stride).state.out_n
      = (g.calls.map fun a => a.in_n) ++ out_n.drop g.calls.length := by
  have hs : g.count_round.sends.set g.count_round.rank (some ([c.in_n], (1 : Int) * 1))
      = (g.calls.map fun a => ([a.in_n], (1 : Int) * 1)).map some := by
    simp only [Group.count_round, List.map_map]
    apply set_eq_self
    rw [List.getElem?_map, hrank]
    rfl
  have himpl := all_gatherc_impl_buffer heap g.count_round [c.in_n] 1 out_n 1
    (g.calls.map fun a => ([a.in_n], (1 : Int) * 1)) hs
    (by
      intro p hp
      obtain ⟨a, -, rfl⟩ := List.mem_map.1 hp
      simp)
    (by decide) (by decide) (by simpa using hlen)
  rw [wire_counts] at himpl
  simp only [List.length_map] at himpl
  unfold all_gather_mapped_vector
  simp only [foldl_add_eq_sum, hsum, if_true, List.length_nil, ne_eq, not_true_eq_false,
    if_false, himpl]
  split
  · rfl
  · split <;> rfl

/-! ## The sentinel -/

/-- C7: negotiation fills the count table. When every entry of `out_n` is -1
on entry and no receive map is given, the variable size all_gather (raw
pointers or std::vector, with or without a send map) leaves in `out_n[k]` the
`in_n` supplied by rank `k`, for every rank `k`. -/
theorem negotiation_fills_counts {T : Type} [Inhabited T] (heap : Heap)
    (calls : List (SendArgs T)) (rank : Nat) (c : SendArgs T) (in_values : List T)
    (in_map : Option (List Int)) (in_map_vector : List Int) (out_values : Ptr T)
    (out_vector : OutVec T) (stride : Int)
    (hrank : calls[rank]? = some c) :
    (all_gather_mapped_raw heap (group rank calls) in_values c.in_n in_map out_values
        (List.replicate calls.length (-1)) none stride).state.out_n
      = calls.map (fun a => a.in_n)
    ∧ (all_gather_var_raw heap (group rank calls) in_values c.in_n out_values
        (List.replicate calls.length (-1)) stride).state.out_n
      = calls.map (fun a => a.in_n)
    ∧ (all_gather_mapped_vector heap (group rank calls) in_values c.in_n in_map_vector out_vector
        (List.replicate calls.length (-1)) [] stride).state.out_n
      = calls.map (fun a => a.in_n)
    ∧ (all_gather_var_vector heap (group rank calls) in_values c.in_n out_vector
        (List.replicate calls.length (-1)) stride).state.out_n
      = calls.map (fun a => a.in_n) := by
  have hraw : ∀ im : Option (List Int),
      (all_gather_mapped_raw heap (group rank calls) in_values c.in_n im out_values
        (List.replicate calls.length (-1)) none stride).state.out_n
      = calls.map (fun a => a.in_n) := by
    intro im
    rw [all_gather_mapped_raw_out_n,
      negotiate_exchanges heap (group rank calls) c _ hrank (by simp [group])
        (by simp [group])]
    simp [group]
  have hvec : ∀ im : List Int,
      (all_gather_mapped_vector heap (group rank calls) in_values c.in_n im out_vector
        (List.replicate calls.length (-1)) [] stride).state.out_n
      = calls.map (fun a => a.in_n) := by
    intro im
    rw [all_gather_mapped_vector_out_n heap (group rank calls) c in_values im out_vector _ stride
      hrank (by simp [group]) (by simp [group])]
    simp [group]
  exact ⟨hraw in_map, hraw none, hvec in_map_vector, hvec []⟩

/-- C7 at a concrete input: two ranks sending 2 and 1 items. -/
theorem negotiation_fills_counts_witness :
    (all_gather_mapped_raw (fun _ => true)
        (group 1 [(⟨[5, 6], 2, none, 1⟩ : SendArgs Int), ⟨[9], 1, none, 1⟩]) [9] 1 none
        (.buffer [0, 0, 0]) (List.replicate 2 (-1)) none 1).state.out_n
      = [(⟨[5, 6], 2, none, 1⟩ : SendArgs Int), ⟨[9], 1, none, 1⟩].map (fun a => a.in_n)
    ∧ (all_gather_var_raw (fun _ => true)
        (group 1 [(⟨[5, 6], 2, none, 1⟩ : SendArgs Int), ⟨[9], 1, none, 1⟩]) [9] 1
        (.buffer [0, 0, 0]) (List.replicate 2 (-1)) 1).state.out_n
      = [(⟨[5, 6], 2, none, 1⟩ : SendArgs Int), ⟨[9], 1, none, 1⟩].map (fun a => a.in_n)
    ∧ (all_gather_mapped_vector (fun _ => true)
        (group 1 [(⟨[5, 6], 2, none, 1⟩ : SendArgs Int), ⟨[9], 1, none, 1⟩]) [9] 1 []
        (.vec []) (List.replicate 2 (-1)) [] 1).state.out_n
      = [(⟨[5, 6], 2, none, 1⟩ : SendArgs Int), ⟨[9], 1, none, 1⟩].map (fun a => a.in_n)
    ∧ (all_gather_var_vector (fun _ => true)
        (group 1 [(⟨[5, 6], 2, none, 1⟩ : SendArgs Int), ⟨[9], 1, none, 1⟩]) [9] 1
        (.vec []) (List.replicate 2 (-1)) 1).state.out_n
      = [(⟨[5, 6], 2, none, 1⟩ : SendArgs Int), ⟨[9], 1, none, 1⟩].map (fun a => a.in_n) :=
  negotiation_fills_counts (fun _ => true) [⟨[5, 6], 2, none, 1⟩, ⟨[9], 1, none, 1⟩] 1
    ⟨[9], 1, none, 1⟩ [9] none [] (.buffer [0, 0, 0]) (.vec []) 1 (by decide)

/-- C8: negotiation with a receive map is rejected atomically. Entered with
every entry of `out_n` equal to -1 and a receive map (non-null pointer, or
vector of non-zero size), both mapped shapes raise `ParallelError` without
invoking the exchange, and leave `out_values` and `out_n` as they were. -/
theorem negotiation_with_receive_map_rejected {T : Type} [Inhabited T] (heap : Heap)
    (g : Group T) (in_values : List T) (in_n : Int) (in_map : Option (List Int))
    (in_map_vector : List Int) (out_values : Ptr T) (out_vector : OutVec T)
    (out_map : List Int) (m : Int) (out_map_vector : List Int) (stride : Int) :
    all_gather_mapped_raw heap g in_values in_n in_map out_values
        (List.replicate g.calls.length (-1)) (some out_map) stride
      = ⟨some .ParallelError,
          ⟨⟨out_values.view in_values, false⟩, List.replicate g.calls.length (-1)⟩, 0⟩
    ∧ all_gather_mapped_vector heap g in_values in_n in_map_vector out_vector
        (List.replicate g.calls.length (-1)) (m :: out_map_vector) stride
      = ⟨some .ParallelError,
          ⟨out_vector.view in_values, List.replicate g.calls.length (-1)⟩, 0⟩ := by
  constructor
  · simp only [all_gather_mapped_raw, negotiate, sum_out_n_eq _ _ (by simp : g.calls.length
      ≤ (List.replicate g.calls.length (-1 : Int)).length), List.take_replicate, min_self,
      sum_sentinel, if_true, Option.isSome_some]
  · simp only [all_gather_mapped_vector, foldl_add_eq_sum, sum_sentinel, if_true,
      List.length_cons, ne_eq, Nat.add_one_ne_zero, not_false_eq_true]

theorem sum_ge_neg_length (l : List Int) (h : ∀ x ∈ l, -1 ≤ x) :
    -(l.length : Int) ≤ l.sum ∧ (l.sum = -(l.length : Int) → ∀ x ∈ l, x = -1) := by
  induction l with
  | nil => simp
  | cons a as ih =>
    have ha := h a (List.mem_cons_self _ _)
    obtain ⟨h1, h2⟩ := ih (fun x hx => h x (List.mem_cons_of_mem _ hx))
    simp only [List.length_cons, List.sum_cons, Nat.cast_add, Nat.cast_one, List.mem_cons,
      forall_eq_or_imp]
    refine ⟨by omega, fun hs => ⟨by omega, h2 (by omega)⟩⟩

/-- The implementation of the variable size gather invokes the exchange at
most once and never raises the usage error. -/
theorem all_gathervm_impl_bounds {T : Type} [Inhabited T] (heap : Heap) (comm : Communicator T)
    (in_values : List T) (in_n : Int) (in_map : Option (List Int)) (out_values : Ptr T)
    (out_n : List Int) (out_map : Option (List Int)) (stride : Int) :
    (detail.all_gathervm_impl heap comm in_values in_n in_map out_values out_n out_map
        stride).fault ≠ some .ParallelError
    ∧ (detail.all_gathervm_impl heap comm in_values in_n in_map out_values out_n out_map
        stride).rounds ≤ 1 := by
  have hin : ∀ f, detail.in_buf heap in_values in_n in_map stride = .error f →
      f ≠ .ParallelError := by
    intro f hf
    unfold detail.in_buf at hf
    simp only at hf
    split at hf
    · cases hf
    · split at hf
      · cases hf; simp
      · split at hf
        · cases hf; simp
        · cases hf
  unfold detail.all_gathervm_impl
  simp only
  split
  · simp
  · split
    · simp
    · split
      · simp
      · split
        · rename_i f hf
          exact ⟨by simpa using hin f hf, by simp⟩
        · split
          · simp
          · split
            · simp
            · split
              · split <;> simp
              · split
                · split <;> simp
                · simp

theorem allocate_out_error {T : Type} [Inhabited T] (heap : Heap) (out_values : Ptr T)
    (out_map : Option (List Int)) (out_sum stride : Int) (f : Fault)
    (h : allocate_out heap out_values out_map out_sum stride = .error f) :
    f ≠ .ParallelError := by
  unfold allocate_out at h
  split at h
  · simp only at h
    split at h
    · cases h; simp
    · split at h
      · cases h; simp
      · cases h
  · cases h

/-- A table of `P` entries, none below -1 and not all -1, whose sum is a value
of type `int`, is not taken for the sentinel, and its `int` sum is exact. -/
theorem not_sentinel_of_entries (P : Nat) (out_n : List Int) (hlen : out_n.length = P)
    (hge : ∀ x ∈ out_n, -1 ≤ x) (hne : ∃ x ∈ out_n, x ≠ -1)
    (hint : (P : Int) ≤ 2147483647 ∧ out_n.sum ≤ 2147483647) :
    int32 out_n.sum ≠ int32 (-(P : Int)) ∧ int32 out_n.sum = out_n.sum := by
  obtain ⟨h1, h2⟩ := sum_ge_neg_length out_n hge
  have h3 : out_n.sum ≠ -(P : Int) := by
    intro hs
    obtain ⟨x, hx, hx1⟩ := hne
    exact hx1 (h2 (by rw [hs, hlen]) x hx)
  rw [hlen] at h1
  unfold int32
  omega

/-- C9, as the specification states it, fails, in two ways. Two ranks enter
with the table `[0, -2]`, which is not the all-(-1) table but sums to `-nproc`;
the call performs the pre communication (two exchanges in all) and overwrites
the table with `[1, 1]`. And two ranks enter with the table
`[2147483647, 2147483647]`, no entry of which is negative: the `int` sum of
line 336 is `-2 = -nproc`, and the same happens. -/
theorem sentinel_test_counterexample :
    (([0, -2] : List Int) ≠ List.replicate 2 (-1)
      ∧ all_gather_var_raw (fun _ => true)
          (group 0 [(⟨[7], 1, none, 1⟩ : SendArgs Int), ⟨[8], 1, none, 1⟩]) [7] 1
          (.buffer [0, 0]) [0, -2] 1
        = ⟨none, ⟨⟨[7, 8], false⟩, [1, 1]⟩, 2⟩)
    ∧ (([2147483647, 2147483647] : List Int) ≠ List.replicate 2 (-1)
      ∧ sum_out_n 2 [2147483647, 2147483647] = some (-2)
      ∧ all_gather_var_raw (fun _ => true)
          (group 0 [(⟨[7], 1, none, 1⟩ : SendArgs Int), ⟨[8], 1, none, 1⟩]) [7] 1
          (.buffer [0, 0]) [2147483647, 2147483647] 1
        = ⟨none, ⟨⟨[7, 8], false⟩, [1, 1]⟩, 2⟩
      ∧ (all_gather_var_vector (fun _ => true)
          (group 0 [(⟨[7], 1, none, 1⟩ : SendArgs Int), ⟨[8], 1, none, 1⟩]) [7] 1
          (.vec [0, 0]) [2147483647, 2147483647] 1).state.out_n = [1, 1]) := by decide

/-- C9, amended: a receive-count table of length `nproc` whose entries are all
at least -1 and not all equal to -1, and whose sum does not exceed `INT_MAX`
(nor does `nproc`), is used as supplied. Neither shape of the mapped variable
size all_gather performs the pre communication or raises the usage error, with
or without a receive map, and `out_n` is after the call what it was on
entry. -/
theorem supplied_table_is_used {T : Type} [Inhabited T] (heap : Heap) (g : Group T)
    (in_values : List T) (in_n : Int) (in_map : Option (List Int)) (in_map_vector : List Int)
    (out_values : Ptr T) (out_vector : OutVec T) (out_n : List Int)
    (out_map : Option (List Int)) (out_map_vector : List Int) (stride : Int)
    (hlen : out_n.length = g.calls.length) (hge : ∀ x ∈ out_n, -1 ≤ x)
    (hne : ∃ x ∈ out_n, x ≠ -1)
    (hint : (g.calls.length : Int) ≤ 2147483647 ∧ out_n.sum ≤ 2147483647) :
    negotiate heap g in_n out_n out_map = ⟨none, (out_n, out_n.sum), 0⟩
    ∧ (all_gather_mapped_raw heap g in_values in_n in_map out_values out_n out_map
        stride).state.out_n = out_n
    ∧ (all_gather_mapped_raw heap g in_values in_n in_map out_values out_n out_map
        stride).fault ≠ some .ParallelError
    ∧ (all_gather_mapped_raw heap g in_values in_n in_map out_values out_n out_map
        stride).rounds ≤ 1
    ∧ (all_gather_mapped_vector heap g in_values in_n in_map_vector out_vector out_n
        out_map_vector stride).state.out_n = out_n
    ∧ (all_gather_mapped_vector heap g in_values in_n in_map_vector out_vector out_n
        out_map_vector stride).fault ≠ some .ParallelError
    ∧ (all_gather_mapped_vector heap g in_values in_n in_map_vector out_vector out_n
        out_map_vector stride).rounds ≤ 1 := by
  obtain ⟨hsum, hex⟩ := not_sentinel_of_entries g.calls.length out_n hlen hge hne hint
  have htake : out_n.take g.calls.length = out_n := by
    rw [← hlen, List.take_length]
  have hneg := negotiate_supplied heap g in_n out_n out_map (by omega) (by rw [htake]; exact hsum)
  rw [htake, hex] at hneg
  refine ⟨hneg, ?_, ?_, ?_, ?_, ?_, ?_⟩
  · rw [all_gather_mapped_raw_out_n, hneg]
  · simp only [all_gather_mapped_raw, hneg]
    split
    · rename_i f hf
      simpa using allocate_out_error heap out_values out_map _ stride f hf
    · exact (all_gathervm_impl_bounds heap _ in_values in_n in_map _ out_n out_map stride).1
  · simp only [all_gather_mapped_raw, hneg]
    split
    · simp
    · simp only [zero_add]
      exact (all_gathervm_impl_bounds heap _ in_values in_n in_map _ out_n out_map stride).2
  · simp only [all_gather_mapped_vector, foldl_add_eq_sum, if_neg hsum]
    split
    · rfl
    · split <;> rfl
  · simp only [all_gather_mapped_vector, foldl_add_eq_sum, if_neg hsum]
    split
    · simp
    · split
      · exact (all_gathervm_impl_bounds heap _ _ in_n _ _ out_n _ stride).1
      · exact (all_gathervm_impl_bounds heap _ _ in_n _ _ out_n _ stride).1
  · simp only [all_gather_mapped_vector, foldl_add_eq_sum, if_neg hsum]
    split
    · simp
    · simp only [zero_add]
      split
      · exact (all_gathervm_impl_bounds heap _ _ in_n _ _ out_n _ stride).2
      · exact (all_gathervm_impl_bounds heap _ _ in_n _ _ out_n _ stride).2

/-- C9, amended, at a concrete input: the stale table `[3, -1]` with a receive
map present. -/
theorem supplied_table_is_used_witness :
    negotiate (fun _ => true) (group 0 [(⟨[7], 1, none, 1⟩ : SendArgs Int), ⟨[8], 1, none, 1⟩])
        1 [3, -1] (some [0, 1]) = ⟨none, ([3, -1], ([3, -1] : List Int).sum), 0⟩
    ∧ (all_gather_mapped_raw (fun _ => true)
        (group 0 [(⟨[7], 1, none, 1⟩ : SendArgs Int), ⟨[8], 1, none, 1⟩]) [7] 1 none
        (.buffer [0, 0]) [3, -1] (some [0, 1]) 1).state.out_n = [3, -1]
    ∧ (all_gather_mapped_raw (fun _ => true)
        (group 0 [(⟨[7], 1, none, 1⟩ : SendArgs Int), ⟨[8], 1, none, 1⟩]) [7] 1 none
        (.buffer [0, 0]) [3, -1] (some [0, 1]) 1).fault ≠ some .ParallelError
    ∧ (all_gather_mapped_raw (fun _ => true)
        (group 0 [(⟨[7], 1, none, 1⟩ : SendArgs Int), ⟨[8], 1, none, 1⟩]) [7] 1 none
        (.buffer [0, 0]) [3, -1] (some [0, 1]) 1).rounds ≤ 1
    ∧ (all_gather_mapped_vector (fun _ => true)
        (group 0 [(⟨[7], 1, none, 1⟩ : SendArgs Int), ⟨[8], 1, none, 1⟩]) [7] 1 []
        (.vec [0, 0]) [3, -1] [0, 1] 1).state.out_n = [3, -1]
    ∧ (all_gather_mapped_vector (fun _ => true)
        (group 0 [(⟨[7], 1, none, 1⟩ : SendArgs Int), ⟨[8], 1, none, 1⟩]) [7] 1 []
        (.vec [0, 0]) [3, -1] [0, 1] 1).fault ≠ some .ParallelError
    ∧ (all_gather_mapped_vector (fun _ => true)
        (group 0 [(⟨[7], 1, none, 1⟩ : SendArgs Int), ⟨[8], 1, none, 1⟩]) [7] 1 []
        (.vec [0, 0]) [3, -1] [0, 1] 1).rounds ≤ 1 :=
  supplied_table_is_used (fun _ => true)
    (group 0 [(⟨[7], 1, none, 1⟩ : SendArgs Int), ⟨[8], 1, none, 1⟩]) [7] 1 none []
    (.buffer [0, 0]) (.vec [0, 0]) [3, -1] (some [0, 1]) [0, 1] 1 (by decide) (by decide)
    (by decide) (by decide)

/-- One block copy, read item by item. -/
theorem block_getElem? {T : Type} (dst src : List T) (d s n x : Nat)
    (hs : s + n ≤ src.length) (hd : d + n ≤ dst.length) :
    (dst.take d ++ (src.drop s).take n ++ dst.drop (d + n))[x]?
      = if d ≤ x ∧ x < d + n then src[s + (x - d)]? else dst[x]? := by
  have hl1 : (dst.take d).length = d := by rw [List.length_take]; omega
  have hl2 : ((src.drop s).take n).length = n := by
    rw [List.length_take, List.length_drop]; omega
  by_cases h1 : x < d
  · rw [if_neg (by omega), List.append_assoc, List.getElem?_append_left (by omega),
      List.getElem?_take_of_lt h1]
  · by_cases h2 : x < d + n
    · rw [if_pos ⟨by omega, h2⟩, List.getElem?_append_left
        (by rw [List.length_append]; omega), List.getElem?_append_right (by omega), hl1,
        List.getElem?_take_of_lt (by omega), List.getElem?_drop]
    · rw [if_neg (by omega), List.getElem?_append_right (by rw [List.length_append]; omega),
        List.length_append, hl1, hl2, List.getElem?_drop]
      congr 1
      omega

/-- Assigning one item is copying a block of one item. -/
theorem load_store_eq_memcpy {T : Type} (dst src : List T) (d s : Int) :
    ((load src s).bind fun v => store dst d v) = memcpy dst (1 * d) src (1 * s) 1 := by
  rw [one_mul, one_mul]
  by_cases hs : 0 ≤ s ∧ s < src.length
  · obtain ⟨hs0, hs1⟩ := hs
    have hsl : s.toNat < src.length := by omega
    rw [load_of_nonneg _ _ hs0, List.getElem?_eq_getElem hsl, Option.some_bind]
    by_cases hd : 0 ≤ d ∧ d < dst.length
    · obtain ⟨hd0, hd1⟩ := hd
      have hdl : d.toNat < dst.length := by omega
      have h := memcpy_eq dst src d.toNat s.toNat 1 (by omega) (by omega)
      rw [Int.toNat_of_nonneg hd0, Int.toNat_of_nonneg hs0] at h
      rw [show ((1 : Nat) : Int) = 1 from rfl] at h
      rw [h, store, if_pos ⟨hd0, hd1⟩]
      congr 1
      apply List.ext_getElem?
      intro x
      rw [block_getElem? dst src d.toNat s.toNat 1 x (by omega) (by omega), List.getElem?_set]
      by_cases hx : d.toNat = x
      · subst hx
        rw [if_pos rfl, if_pos hdl, if_pos ⟨le_refl _, by omega⟩]
        simp [List.getElem?_eq_getElem hsl]
      · rw [if_neg hx, if_neg (by omega)]
    · have hnd : ¬ (0 ≤ d ∧ d < (dst.length : Int)) := hd
      rw [store, if_neg hnd, memcpy, if_neg (by omega)]
  · have : load src s = none := by
      unfold load
      split
      · exact List.getElem?_eq_none (by omega)
      · rfl
    rw [this, Option.none_bind, memcpy, if_neg (by omega)]

/-- Blocks of `S` items that start at `S*a` and `S*b` do not meet unless
`a = b`. -/
theorem block_disjoint (S a b j : Nat) (hab : a ≠ b) (hj : j < S) :
    ¬ (S * b ≤ S * a + j ∧ S * a + j < S * b + S) := by
  rcases Nat.lt_or_gt_of_ne hab with h | h
  · have := Nat.mul_le_mul_left S (Nat.succ_le_of_lt h)
    rw [Nat.mul_succ] at this
    omega
  · have := Nat.mul_le_mul_left S (Nat.succ_le_of_lt h)
    rw [Nat.mul_succ] at this
    omega

theorem memcpy_block {T : Type} (dst src : List T) (S d s : Nat)
    (hs : S * s + S ≤ src.length) (hd : S * d + S ≤ dst.length) :
    memcpy dst ((S : Int) * (d : Int)) src ((S : Int) * (s : Int)) (S : Int)
      = some (dst.take (S * d) ++ (src.drop (S * s)).take S ++ dst.drop (S * d + S)) := by
  have h := memcpy_eq dst src (S * d) (S * s) S hs hd
  rw [Nat.cast_mul, Nat.cast_mul] at h
  exact h

/-- The send-side loop: stride-sized groups are copied from the positions the
map names into consecutive positions. -/
theorem gather_loop {T : Type} (src : List T) (m : List Int) (S N : Nat) (E : Nat → Nat)
    (b0 : List T) (hm : ∀ i, i < N → m[i]? = some (E i : Int))
    (hsrc : ∀ i, i < N → S * E i + S ≤ src.length) (hb : S * N ≤ b0.length) :
    ∃ b, forLoop N
        (fun i b => (load m i).bind fun m_i => memcpy b ((S : Int) * i) src ((S : Int) * m_i) S)
        b0 = some b
      ∧ b.length = b0.length
      ∧ (∀ i j, i < N → j < S → b[S * i + j]? = src[S * E i + j]?)
      ∧ (∀ x, S * N ≤ x → b[x]? = b0[x]?) := by
  have hmono : ∀ i, i < N → S * i + S ≤ S * N := by
    intro i hi
    have := Nat.mul_le_mul_left S (Nat.succ_le_of_lt hi)
    rw [Nat.mul_succ] at this
    exact this
  refine forLoop_inv
    (fun t b => b.length = b0.length
      ∧ (∀ i j, i < t → j < S → b[S * i + j]? = src[S * E i + j]?)
      ∧ (∀ x, S * t ≤ x → b[x]? = b0[x]?))
    N _ b0 ⟨rfl, fun i j hi => absurd hi (Nat.not_lt_zero i), fun x _ => rfl⟩ ?_ |>.imp
      fun b hb' => ⟨hb'.1, hb'.2.1, hb'.2.2.1, hb'.2.2.2⟩
  intro t b ht ⟨hI1, hI2, hI3⟩
  have h1 := hmono t ht
  have hcopy := memcpy_block b src S t (E t) (hsrc t ht) (by omega)
  refine ⟨_, by rw [load_natCast, hm t ht, Option.some_bind]; exact hcopy, ?_, ?_, ?_⟩
  · simp only [List.length_append, List.length_take, List.length_drop]
    have := hsrc t ht
    omega
  · intro i j hi hj
    rw [block_getElem? b src (S * t) (S * E t) S _ (hsrc t ht) (by omega)]
    by_cases hit : i = t
    · subst hit
      rw [if_pos ⟨by omega, by omega⟩]
      congr 1
      omega
    · have hlt : i < t := by omega
      have := Nat.mul_le_mul_left S (Nat.succ_le_of_lt hlt)
      rw [Nat.mul_succ] at this
      rw [if_neg (by omega)]
      exact hI2 i j hlt hj
  · intro x hx
    rw [Nat.mul_succ] at hx
    rw [block_getElem? b src (S * t) (S * E t) S _ (hsrc t ht) (by omega), if_neg (by omega)]
    exact hI3 x (by omega)

/-- The receive-side loop: stride-sized groups are copied from consecutive
positions to the positions the map names; a later group overwrites an earlier
one, and no other position changes. -/
theorem scatter_loop {T : Type} (src : List T) (m : List Int) (S N : Nat) (E : Nat → Nat)
    (o0 : List T) (hm : ∀ i, i < N → m[i]? = some (E i : Int))
    (hsrc : S * N ≤ src.length) (ho : ∀ i, i < N → S * E i + S ≤ o0.length) :
    ∃ o, forLoop N
        (fun i o => (load m i).bind fun m_i => memcpy o ((S : Int) * m_i) src ((S : Int) * i) S)
        o0 = some o
      ∧ o.length = o0.length
      ∧ (∀ g j, g < N → (∀ g', g < g' → g' < N → E g' ≠ E g) → j < S →
          o[S * E g + j]? = src[S * g + j]?)
      ∧ (∀ x, (∀ g, g < N → ¬ (S * E g ≤ x ∧ x < S * E g + S)) → o[x]? = o0[x]?) := by
  have hmono : ∀ i, i < N → S * i + S ≤ S * N := by
    intro i hi
    have := Nat.mul_le_mul_left S (Nat.succ_le_of_lt hi)
    rw [Nat.mul_succ] at this
    exact this
  refine forLoop_inv
    (fun t o => o.length = o0.length
      ∧ (∀ g j, g < t → (∀ g', g < g' → g' < t → E g' ≠ E g) → j < S →
          o[S * E g + j]? = src[S * g + j]?)
      ∧ (∀ x, (∀ g, g < t → ¬ (S * E g ≤ x ∧ x < S * E g + S)) → o[x]? = o0[x]?))
    N _ o0 ⟨rfl, fun g j hg => absurd hg (Nat.not_lt_zero g), fun x _ => rfl⟩ ?_ |>.imp
      fun o ho' => ⟨ho'.1, ho'.2.1, ho'.2.2.1, ho'.2.2.2⟩
  intro t o ht ⟨hI1, hI2, hI3⟩
  have h1 := hmono t ht
  have hcopy := memcpy_block o src S (E t) t (by omega) (by rw [hI1]; exact ho t ht)
  refine ⟨_, by rw [load_natCast, hm t ht, Option.some_bind]; exact hcopy, ?_, ?_, ?_⟩
  · simp only [List.length_append, List.length_take, List.length_drop]
    have := ho t ht
    omega
  · intro g j hg hlast hj
    rw [block_getElem? o src (S * E t) (S * t) S _ (by omega) (by rw [hI1]; exact ho t ht)]
    by_cases hgt : g = t
    · subst hgt
      rw [if_pos ⟨by omega, by omega⟩]
      congr 1
      omega
    · have hlt : g < t := by omega
      have hne : E g ≠ E t := fun h => hlast t hlt (Nat.lt_succ_self t) h.symm
      rw [if_neg (block_disjoint S (E g) (E t) j hne hj)]
      exact hI2 g j hlt (fun g' h1 h2 => hlast g' h1 (by omega)) hj
  · intro x hx
    rw [block_getElem? o src (S * E t) (S * t) S _ (by omega) (by rw [hI1]; exact ho t ht),
      if_neg (hx t (Nat.lt_succ_self t))]
    exact hI3 x (fun g hg => hx g (by omega))

/-- The staging buffer filled through a send map, whatever branch of the code
fills it. -/
theorem in_buf_mapped {T : Type} [Inhabited T] (heap : Heap) (in_values : List T)
    (m : List Int) (S N : Nat) (E : Nat → Nat) (hS : 0 < S)
    (hheap : heap ((S : Int) * (N : Int) + 1) = true)
    (hm : ∀ i, i < N → m[i]? = some (E i : Int))
    (hsrc : ∀ i, i < N → S * E i + S ≤ in_values.length) :
    ∃ b, detail.in_buf heap in_values (N : Int) (some m) (S : Int) = .ok b
      ∧ b.length = S * N + 1
      ∧ (∀ i j, i < N → j < S → b[S * i + j]? = in_values[S * E i + j]?) := by
  have hal : (alloc heap ((S : Int) * (N : Int) + 1) : Option (List T))
      = some (List.replicate (S * N + 1) default) := by
    have h0 : (0 : Int) ≤ (S : Int) * (N : Int) + 1 := by positivity
    have e : ((S : Int) * (N : Int) + 1).toNat = S * N + 1 := by
      rw [← Nat.cast_mul]; omega
    simp only [alloc, h0, hheap, and_self, if_true, e]
  obtain ⟨b, hb, hbl, hbi, -⟩ := gather_loop in_values m S N E
    (List.replicate (S * N + 1) (default : T)) hm hsrc (by simp)
  have hloop : (if (S : Int) = 1 then
        forLoop ((S : Int) * (N : Int)).toNat
          (fun i b => (load m i).bind fun m_i => (load in_values m_i).bind fun v => store b i v)
          (List.replicate (S * N + 1) (default : T))
      else
        forLoop (((S : Int) * (N : Int)).tdiv (S : Int)).toNat
          (fun i b => (load m i).bind fun m_i =>
            memcpy b ((S : Int) * i) in_values ((S : Int) * m_i) (S : Int))
          (List.replicate (S * N + 1) (default : T))) = some b := by
    split
    · rename_i h1
      have hS1 : S = 1 := by exact_mod_cast h1
      subst hS1
      rw [← hb]
      have e : ((1 : Nat) : Int) * (N : Int) = N := by simp
      rw [e, Int.toNat_ofNat]
      apply forLoop_congr
      intro i t _
      simp only [load_store_eq_memcpy, Nat.cast_one]
    · have e : ((S : Int) * (N : Int)).tdiv (S : Int) = N :=
        Int.mul_tdiv_cancel_left _ (by omega)
      rw [e, Int.toNat_ofNat, hb]
  refine ⟨b, ?_, by rw [hbl]; simp, hbi⟩
  unfold detail.in_buf
  simp only [hal, hloop]

/-- The re-population of the output through a receive map, whatever branch of
the code performs it. -/
theorem repopulate_spec {T : Type} (out0 out_buf : List T) (m : List Int) (S G : Nat)
    (E : Nat → Nat) (hS : 0 < S) (hm : ∀ i, i < G → m[i]? = some (E i : Int))
    (hsrc : S * G ≤ out_buf.length) (ho : ∀ i, i < G → S * E i + S ≤ out0.length) :
    ∃ o, detail.repopulate out0 out_buf m ((S : Int) * (G : Int)) (S : Int) = some o
      ∧ o.length = out0.length
      ∧ (∀ g j, g < G → (∀ g', g < g' → g' < G → E g' ≠ E g) → j < S →
          o[S * E g + j]? = out_buf[S * g + j]?)
      ∧ (∀ x, (∀ g, g < G → ¬ (S * E g ≤ x ∧ x < S * E g + S)) → o[x]? = out0[x]?) := by
  obtain ⟨o, ho', hrest⟩ := scatter_loop out_buf m S G E out0 hm hsrc ho
  refine ⟨o, ?_, hrest⟩
  unfold detail.repopulate
  split
  · rename_i h1
    have hS1 : S = 1 := by exact_mod_cast h1
    subst hS1
    rw [← ho']
    have e : ((1 : Nat) : Int) * (G : Int) = G := by simp
    rw [e, Int.toNat_ofNat]
    apply forLoop_congr
    intro i t _
    simp only [load_store_eq_memcpy, Nat.cast_one]
  · have e : ((S : Int) * (G : Int)).tdiv (S : Int) = G :=
      Int.mul_tdiv_cancel_left _ (by omega)
    rw [e, Int.toNat_ofNat, ho']

/-! ## Variable size gather with a receive map -/

/-- The implementation of the variable size gather with a receive map: every
element the map names holds the wire-order group of the last position that
names it, and no other item of the output storage changes. -/
theorem all_gathervm_impl_mapped {T : Type} [Inhabited T] (heap : Heap)
    (comm : Communicator T) (in_values : List T) (in_n : Int) (in_map : Option (List Int))
    (out_values : Ptr T) (out_n : List Int) (m : List Int) (b : List T)
    (sends : List (List T × Int)) (S G : Nat) (E : Nat → Nat)
    (hb : detail.in_buf heap in_values in_n in_map (S : Int) = .ok b)
    (hs : comm.sends.set comm.rank (some (b, (S : Int) * in_n)) = sends.map some)
    (hS : 0 < S) (hP : 0 < sends.length)
    (hcount : ∀ (k : Nat) (p : List T × Int), sends[k]? = some p →
      ∃ x, out_n[k]? = some x ∧ p.2 = (S : Int) * x)
    (hn : ∀ p ∈ sends, 0 ≤ p.2 ∧ p.2 ≤ p.1.length)
    (hG : offset sends sends.length = (S : Int) * (G : Int))
    (hheap : heap (offset sends sends.length + 1) = true)
    (hm : ∀ g, g < G → m[g]? = some (E g : Int))
    (ho : ∀ g, g < G → S * E g + S ≤ (out_values.view in_values).length) :
    ∃ cells, detail.all_gathervm_impl heap comm in_values in_n in_map out_values out_n (some m)
        (S : Int) = ⟨none, cells, 1⟩
      ∧ cells.length = (out_values.view in_values).length
      ∧ (∀ g j, g < G → (∀ g', g < g' → g' < G → E g' ≠ E g) → j < S →
          cells[S * E g + j]? = (wire sends)[S * g + j]?)
      ∧ (∀ x, (∀ g, g < G → ¬ (S * E g ≤ x ∧ x < S * E g + S)) →
          cells[x]? = (out_values.view in_values)[x]?) := by
  have hSi : (0 : Int) < (S : Int) := by omega
  have hnp : comm.nproc = sends.length := by
    have := congrArg List.length hs
    simpa [Communicator.nproc] using this
  have hlast : sends[sends.length - 1]? = some sends[sends.length - 1] :=
    List.getElem?_eq_getElem (by omega)
  obtain ⟨x, hx, hpx⟩ := hcount _ _ hlast
  have hlen : sends.length ≤ out_n.length := by
    have := getElem?_lt_length out_n _ x hx
    omega
  obtain ⟨ns, ds, htab, hnsl, hdsl, hns, hds⟩ :=
    out_tables_spec sends.length (S : Int) out_n hP hlen
  have hoff := offset_eq_stride_mul sends (S : Int) out_n hcount
  have e : ((sends.length : Int) - 1) = ((sends.length - 1 : Nat) : Int) := by omega
  have htot : offset sends sends.length
      = (S : Int) * (out_n.take (sends.length - 1)).sum + (S : Int) * x := by
    have h1 := offset_succ sends (sends.length - 1) _ hlast
    have h2 : sends.length - 1 + 1 = sends.length := by omega
    rw [h2] at h1
    rw [h1, hoff _ (by omega), hpx]
  have hsum : ((load ds ((sends.length : Int) - 1)).bind fun d =>
      (load out_n ((sends.length : Int) - 1)).map fun n => d + (S : Int) * n)
      = some (offset sends sends.length) := by
    rw [e, load_natCast, load_natCast, hds _ (by omega), hx, htot]
    rfl
  have hwl := wire_length sends hn
  rw [← offset_length, hG, ← Nat.cast_mul, Nat.cast_inj] at hwl
  have hnn := offset_nonneg sends hn sends.length
  have hal : (alloc heap (offset sends sends.length + 1) : Option (List T))
      = some (List.replicate (S * G + 1) default) := by
    have e2 : (offset sends sends.length + 1).toNat = S * G + 1 := by
      rw [hG, ← Nat.cast_mul]; omega
    simp only [alloc]
    rw [if_pos ⟨by omega, hheap⟩, e2]
  have htr := MPI_Allgatherv_wire comm b ((S : Int) * in_n)
    (List.replicate (S * G + 1) (default : T)) ns ds sends hs
    (by
      intro k p hk
      obtain ⟨y, hy, hpy⟩ := hcount k p hk
      rw [hns k y (getElem?_lt_length sends k p hk) hy, hpy])
    (by
      intro k hk
      rw [hds k hk, hoff k (by omega)])
    hn (by rw [hG, List.length_replicate, ← Nat.cast_mul]; omega)
  obtain ⟨o, hrep, hol, hlastw, hframe⟩ := repopulate_spec (out_values.view in_values)
    (wire sends ++ List.drop (wire sends).length (List.replicate (S * G + 1) (default : T)))
    m S G E hS hm (by rw [List.length_append]; omega) ho
  refine ⟨o, ?_, hol, ?_, hframe⟩
  · unfold detail.all_gathervm_impl
    rw [hG] at hal
    simp only [hnp, hSi, gt_iff_lt, not_true_eq_false, if_false, htab, hsum, hb,
      Option.isSome_some, true_or, if_true, hal, htr, hG, hrep]
  · intro g j hg hlw hj
    rw [hlastw g j hg hlw hj]
    have : S * g + S ≤ S * G := by
      have := Nat.mul_le_mul_left S (Nat.succ_le_of_lt hg)
      rw [Nat.mul_succ] at this
      exact this
    rw [List.getElem?_append_left (by omega)]

/-- The implementation of the variable size gather with a receive map, in
the data round of a group and with the receive counts every rank really
sends. -/
theorem all_gathervm_impl_mapped_group {T : Type} [Inhabited T] (heap : Heap)
    (calls : List (SendArgs T)) (rank : Nat) (c : SendArgs T) (out_values : Ptr T)
    (out_n : List Int) (m : List Int) (S G : Nat) (E : Nat → Nat) (hS : 0 < S)
    (hrank : calls[rank]? = some c)
    (hpeers : ∀ a ∈ calls, a.stride = (S : Int) ∧ 0 ≤ a.in_n ∧
      ∃ b, detail.in_buf heap a.in_values a.in_n a.in_map a.stride = .ok b
        ∧ (S : Int) * a.in_n ≤ b.length)
    (htable : ∀ (k : Nat) (a : SendArgs T), calls[k]? = some a → out_n[k]? = some a.in_n)
    (hG : (out_n.take calls.length).sum = (G : Int))
    (hheap : heap ((S : Int) * (G : Int) + 1) = true)
    (hm : ∀ g, g < G → m[g]? = some (E g : Int))
    (ho : ∀ g, g < G → S * E g + S ≤ (out_values.view c.in_values).length) :
    ∃ cells, detail.all_gathervm_impl heap ((group rank calls).data_round heap) c.in_values
        c.in_n c.in_map out_values out_n (some m) (S : Int) = ⟨none, cells, 1⟩
      ∧ cells.length = (out_values.view c.in_values).length
      ∧ (∀ g j, g < G → (∀ g', g < g' → g' < G → E g' ≠ E g) → j < S →
          cells[S * E g + j]? = (wire (staged_sends heap calls))[S * g + j]?)
      ∧ (∀ x, (∀ g, g < G → ¬ (S * E g ≤ x ∧ x < S * E g + S)) →
          cells[x]? = (out_values.view c.in_values)[x]?) := by
  have hSi : (0 : Int) < (S : Int) := by omega
  obtain ⟨h1, h2, h3, h4, h5⟩ := staged_sends_facts heap calls out_n (S : Int) hSi hpeers htable
  have hP : 0 < calls.length := by
    have := getElem?_lt_length calls rank c hrank
    omega
  have hl : (staged_sends heap calls).length = calls.length := by simp [staged_sends]
  obtain ⟨e1, -, b, hb, -⟩ := hpeers c (mem_of_getElem?_eq calls rank c hrank)
  have hs := data_round_sends heap rank calls c b
    (fun a ha => (hpeers a ha).2.2.imp fun _ h => h.1)
  rw [set_eq_self (staged_sends heap calls) rank (b, c.stride * c.in_n)
    (by rw [staged_sends_getElem?, hrank]; simp [staged, hb]), e1] at hs
  rw [e1] at hb
  rw [hG] at h5
  exact all_gathervm_impl_mapped heap ((group rank calls).data_round heap) c.in_values c.in_n
    c.in_map out_values out_n m b (staged_sends heap calls) S G E hb hs hS (by omega) h1 h2 h5
    (by rw [h5]; exact hheap) hm ho

/-- The staging of a process that sends through a map whose entries are in
range. -/
theorem staged_mapped {T : Type} [Inhabited T] (heap : Heap) (a : SendArgs T) (S : Int)
    (m : List Int) (hS : 0 < S) (hstride : a.stride = S) (hn : 0 ≤ a.in_n)
    (hheap : heap (S * a.in_n + 1) = true) (hmap : a.in_map = some m)
    (hm : ∀ i : Nat, (i : Int) < a.in_n →
      ∃ e, m[i]? = some e ∧ 0 ≤ e ∧ S * e + S ≤ a.in_values.length) :
    ∃ b, detail.in_buf heap a.in_values a.in_n a.in_map a.stride = .ok b
      ∧ S * a.in_n ≤ b.length
      ∧ ∀ (i j : Nat) (e : Int), (i : Int) < a.in_n → (j : Int) < S → m[i]? = some e →
          ∃ v, load a.in_values (S * e + j) = some v ∧ b[S.toNat * i + j]? = some v := by
  have hSn : S = ((S.toNat : Nat) : Int) := by omega
  have hNn : a.in_n = ((a.in_n.toNat : Nat) : Int) := by omega
  have hE : ∀ i, i < a.in_n.toNat → m[i]? = some (((m.getD i 0).toNat : Nat) : Int)
      ∧ S.toNat * (m.getD i 0).toNat + S.toNat ≤ a.in_values.length := by
    intro i hi
    obtain ⟨e, he1, he2, he3⟩ := hm i (by omega)
    have hgd : m.getD i 0 = e := by simp [List.getD, he1]
    rw [hgd, he1, Int.toNat_of_nonneg he2]
    refine ⟨rfl, ?_⟩
    have : (((S.toNat * e.toNat + S.toNat : Nat)) : Int) = S * e + S := by
      rw [Nat.cast_add, Nat.cast_mul, Int.toNat_of_nonneg he2, ← hSn]
    omega
  obtain ⟨b, hb, hbl, hbi⟩ := in_buf_mapped heap a.in_values m S.toNat a.in_n.toNat
    (fun i => (m.getD i 0).toNat) (by omega) (by rw [← hSn, ← hNn]; exact hheap)
    (fun i hi => (hE i hi).1) (fun i hi => (hE i hi).2)
  rw [← hSn, ← hNn] at hb
  refine ⟨b, by rw [hstride, hmap]; exact hb, ?_, ?_⟩
  · have : ((b.length : Nat) : Int) = S * a.in_n + 1 := by
      rw [hbl, Nat.cast_add, Nat.cast_mul, ← hSn, ← hNn]; rfl
    omega
  · intro i j e hi hj he
    obtain ⟨e', he1, he2, he3⟩ := hm i hi
    rw [he] at he1
    simp only [Option.some.injEq] at he1
    subst he1
    have hgd : m.getD i 0 = e := by simp [List.getD, he]
    have hidx := hbi i j (by omega) (by omega)
    simp only [hgd] at hidx
    have hpos : (0 : Int) ≤ S * e + j := by positivity
    have hcast : (S * e + j).toNat = S.toNat * e.toNat + j := by
      have : (((S.toNat * e.toNat + j : Nat)) : Int) = S * e + j := by
        rw [Nat.cast_add, Nat.cast_mul, Int.toNat_of_nonneg he2, ← hSn]
      omega
    have hlt : S.toNat * e.toNat + j < a.in_values.length := by
      have : (((S.toNat * e.toNat + j : Nat)) : Int) = S * e + j := by
        rw [Nat.cast_add, Nat.cast_mul, Int.toNat_of_nonneg he2, ← hSn]
      omega
    refine ⟨a.in_values[S.toNat * e.toNat + j], ?_, ?_⟩
    · rw [load_of_nonneg _ _ hpos, hcast, List.getElem?_eq_getElem hlt]
    · rw [hidx, List.getElem?_eq_getElem hlt]

/-- The mapped gather, item by item: stated with the stride as a natural
number. -/
theorem all_gathervm_impl_mapped_items {T : Type} [Inhabited T] (heap : Heap)
    (calls : List (SendArgs T)) (rank : Nat) (c : SendArgs T) (out_values : Ptr T)
    (out_n out_map : List Int) (S : Nat) (hS : 0 < S)
    (hrank : calls[rank]? = some c)
    (hcalls : ∀ a ∈ calls, a.stride = (S : Int) ∧ 0 ≤ a.in_n
      ∧ heap ((S : Int) * a.in_n + 1) = true
      ∧ ∃ m, a.in_map = some m ∧ ∀ i : Nat, (i : Int) < a.in_n →
          ∃ e, m[i]? = some e ∧ 0 ≤ e ∧ (S : Int) * e + S ≤ a.in_values.length)
    (htable : ∀ (k : Nat) (a : SendArgs T), calls[k]? = some a → out_n[k]? = some a.in_n)
    (hheap : heap ((S : Int) * (out_n.take calls.length).sum + 1) = true)
    (hmap : ∀ g : Nat, (g : Int) < (out_n.take calls.length).sum →
      ∃ e, out_map[g]? = some e ∧ 0 ≤ e
        ∧ (S : Int) * e + S ≤ (out_values.view c.in_values).length) :
    ∃ cells : List T,
      detail.all_gathervm_impl heap ((group rank calls).data_round heap) c.in_values c.in_n
        c.in_map out_values out_n (some out_map) (S : Int) = ⟨none, cells, 1⟩
      ∧ ∀ (k : Nat) (a : SendArgs T) (m : List Int) (i j : Nat) (e_in e_out : Int),
          calls[k]? = some a → a.in_map = some m → (i : Int) < a.in_n → j < S →
          m[i]? = some e_in →
          out_map[((out_n.take k).sum + i).toNat]? = some e_out →
          (∀ g' : Nat, (out_n.take k).sum + i < g' → (g' : Int) < (out_n.take calls.length).sum →
            out_map[g']? ≠ some e_out) →
          ∃ v, load a.in_values ((S : Int) * e_in + j) = some v
            ∧ load cells ((S : Int) * e_out + j) = some v := by
  have hSi : (0 : Int) < (S : Int) := by omega
  have hst : ∀ a ∈ calls, ∀ m, a.in_map = some m →
      ∃ b, detail.in_buf heap a.in_values a.in_n a.in_map a.stride = .ok b
      ∧ (S : Int) * a.in_n ≤ b.length
      ∧ ∀ (i j : Nat) (e : Int), (i : Int) < a.in_n → (j : Int) < (S : Int) → m[i]? = some e →
          ∃ v, load a.in_values ((S : Int) * e + j) = some v ∧ b[S * i + j]? = some v := by
    intro a ha m hm
    obtain ⟨e1, e2, e3, m', hm', hmi⟩ := hcalls a ha
    rw [hm] at hm'
    simp only [Option.some.injEq] at hm'
    subst hm'
    have := staged_mapped heap a (S : Int) m hSi e1 e2 e3 hm hmi
    simpa only [Int.toNat_ofNat] using this
  have hpeers : ∀ a ∈ calls, a.stride = (S : Int) ∧ 0 ≤ a.in_n ∧
      ∃ b, detail.in_buf heap a.in_values a.in_n a.in_map a.stride = .ok b
        ∧ (S : Int) * a.in_n ≤ b.length := by
    intro a ha
    obtain ⟨e1, e2, -, m, hm, -⟩ := hcalls a ha
    obtain ⟨b, hb1, hb2, -⟩ := hst a ha m hm
    exact ⟨e1, e2, b, hb1, hb2⟩
  obtain ⟨h1, h2, h3, h4, h5⟩ := staged_sends_facts heap calls out_n (S : Int) hSi hpeers htable
  have hl : (staged_sends heap calls).length = calls.length := by simp [staged_sends]
  obtain ⟨G, hG⟩ : ∃ G : Nat, (out_n.take calls.length).sum = (G : Int) :=
    ⟨(out_n.take calls.length).sum.toNat, by omega⟩
  have hE : ∀ g, g < G → out_map[g]? = some (((out_map.getD g 0).toNat : Nat) : Int)
      ∧ S * (out_map.getD g 0).toNat + S ≤ (out_values.view c.in_values).length := by
    intro g hg
    obtain ⟨e, he1, he2, he3⟩ := hmap g (by omega)
    have hgd : out_map.getD g 0 = e := by simp [List.getD, he1]
    rw [hgd, he1, Int.toNat_of_nonneg he2]
    refine ⟨rfl, ?_⟩
    have : (((S * e.toNat + S : Nat)) : Int) = (S : Int) * e + S := by
      rw [Nat.cast_add, Nat.cast_mul, Int.toNat_of_nonneg he2]
    omega
  obtain ⟨cells, hrun, hcl, hlastw, -⟩ := all_gathervm_impl_mapped_group heap calls rank c
    out_values out_n out_map S G (fun g => (out_map.getD g 0).toNat) hS hrank hpeers htable hG
    (by rw [← hG]; exact hheap) (fun g hg => (hE g hg).1) (fun g hg => (hE g hg).2)
  refine ⟨cells, hrun, ?_⟩
  intro k a m i j e_in e_out hk hma hi hj hein heout hlater
  have hklt := getElem?_lt_length calls k a hk
  have hamem := mem_of_getElem?_eq calls k a hk
  obtain ⟨b, hb1, hb2, hb3⟩ := hst a hamem m hma
  obtain ⟨e1, e2, -⟩ := hcalls a hamem
  have hstaged : staged heap a = b := by simp [staged, hb1]
  have hka : (staged_sends heap calls)[k]? = some (b, (S : Int) * a.in_n) := by
    rw [staged_sends_getElem?, hk, Option.map_some', hstaged, e1]
  -- position of the element in wire order
  have hoffk := offset_eq_stride_mul (staged_sends heap calls) (S : Int) out_n h1 k
    (by rw [hl]; omega)
  have hoffk1 := offset_eq_stride_mul (staged_sends heap calls) (S : Int) out_n h1 (k + 1)
    (by rw [hl]; omega)
  have hsucc := offset_succ (staged_sends heap calls) k _ hka
  have hnnk := offset_nonneg (staged_sends heap calls) h2 k
  have hlek := offset_le_total (staged_sends heap calls) h2 (k + 1)
  rw [h5, hoffk1] at hlek
  have hsk : 0 ≤ (out_n.take k).sum := by
    rw [hoffk] at hnnk
    exact le_of_mul_le_mul_left (by simpa using hnnk) hSi
  have hsk1 : (out_n.take (k + 1)).sum ≤ (out_n.take calls.length).sum :=
    le_of_mul_le_mul_left hlek hSi
  have hsk2 : (out_n.take (k + 1)).sum = (out_n.take k).sum + a.in_n := by
    have : (S : Int) * (out_n.take (k + 1)).sum = (S : Int) * ((out_n.take k).sum + a.in_n) := by
      rw [← hoffk1, hsucc, hoffk, mul_add]
    exact mul_left_cancel₀ (by omega) this
  obtain ⟨g, hg⟩ : ∃ g : Nat, (out_n.take k).sum + i = (g : Int) :=
    ⟨((out_n.take k).sum + i).toNat, by omega⟩
  have hgG : g < G := by omega
  rw [hg, Int.toNat_ofNat] at heout
  obtain ⟨e, he1, he2, he3⟩ := hmap g (by omega)
  rw [heout] at he1
  simp only [Option.some.injEq] at he1
  subst he1
  have hgd : out_map.getD g 0 = e_out := by simp [List.getD, heout]
  have hw := hlastw g j hgG (by
    intro g' hgg' hg'G
    obtain ⟨e', he'1, he'2, -⟩ := hmap g' (by omega)
    have hgd' : out_map.getD g' 0 = e' := by simp [List.getD, he'1]
    simp only [hgd, hgd']
    have hne : e' ≠ e_out := by
      intro h
      exact hlater g' (by omega) (by omega) (by rw [he'1, h])
    omega) hj
  simp only [hgd] at hw
  -- the wire-order content at that position
  obtain ⟨v, hv1, hv2⟩ := hb3 i j e_in hi (by omega) hein
  have hj' : ((S * i + j : Nat) : Int) < (S : Int) * a.in_n := by
    have : (S : Int) * (i + 1) ≤ (S : Int) * a.in_n :=
      mul_le_mul_of_nonneg_left (by omega) (le_of_lt hSi)
    rw [Nat.cast_add, Nat.cast_mul]
    rw [mul_add, mul_one] at this
    omega
  have hwire := wire_getElem? (staged_sends heap calls) h2 k _ hka (S * i + j) hj'
  have hidx : (offset (staged_sends heap calls) k).toNat + (S * i + j) = S * g + j := by
    have : ((S * g : Nat) : Int) = offset (staged_sends heap calls) k + ((S * i : Nat) : Int) := by
      rw [Nat.cast_mul, ← hg, hoffk, mul_add, Nat.cast_mul]
    omega
  rw [hidx] at hwire
  refine ⟨v, hv1, ?_⟩
  have hpos : (0 : Int) ≤ (S : Int) * e_out + j := by positivity
  have hcast : ((S : Int) * e_out + j).toNat = S * e_out.toNat + j := by
    have : (((S * e_out.toNat + j : Nat)) : Int) = (S : Int) * e_out + j := by
      rw [Nat.cast_add, Nat.cast_mul, Int.toNat_of_nonneg he2]
    omega
  rw [load_of_nonneg _ _ hpos, hcast, hw, hwire]
  exact hv2

/-- C5: mapped variable-size gather. With a send map on every rank and a
receive map, receive counts equal to what every rank sends and all map entries
read non-negative and in range, `all_gathervm_impl` returns normally after one
exchange, and for every rank `k`, every `i < in_n_k` and every `j < S` the
output holds at `S*out_map[g] + j` the item `S*in_map_k[i] + j` of the input
of rank `k`, where `g = out_n[0]+...+out_n[k-1] + i`, provided no later wire
position names the same output element. -/
theorem mapped_gather_places_items {T : Type} [Inhabited T] (heap : Heap)
    (calls : List (SendArgs T)) (rank : Nat) (c : SendArgs T) (out_values : Ptr T)
    (out_n out_map : List Int) (S : Int) (hS : 0 < S)
    (hrank : calls[rank]? = some c)
    (hcalls : ∀ a ∈ calls, a.stride = S ∧ 0 ≤ a.in_n ∧ heap (S * a.in_n + 1) = true
      ∧ ∃ m, a.in_map = some m ∧ ∀ i : Nat, (i : Int) < a.in_n →
          ∃ e, m[i]? = some e ∧ 0 ≤ e ∧ S * e + S ≤ a.in_values.length)
    (htable : ∀ (k : Nat) (a : SendArgs T), calls[k]? = some a → out_n[k]? = some a.in_n)
    (hheap : heap (S * (out_n.take calls.length).sum + 1) = true)
    (hmap : ∀ g : Nat, (g : Int) < (out_n.take calls.length).sum →
      ∃ e, out_map[g]? = some e ∧ 0 ≤ e ∧ S * e + S ≤ (out_values.view c.in_values).length) :
    ∃ cells : List T,
      detail.all_gathervm_impl heap ((group rank calls).data_round heap) c.in_values c.in_n
        c.in_map out_values out_n (some out_map) S = ⟨none, cells, 1⟩
      ∧ ∀ (k : Nat) (a : SendArgs T) (m : List Int) (i j : Nat) (e_in e_out : Int),
          calls[k]? = some a → a.in_map = some m → (i : Int) < a.in_n → (j : Int) < S →
          m[i]? = some e_in →
          out_map[((out_n.take k).sum + i).toNat]? = some e_out →
          (∀ g' : Nat, (out_n.take k).sum + i < g' → (g' : Int) < (out_n.take calls.length).sum →
            out_map[g']? ≠ some e_out) →
          ∃ v, load a.in_values (S * e_in + j) = some v
            ∧ load cells (S * e_out + j) = some v := by
  obtain ⟨Sn, rfl⟩ : ∃ Sn : Nat, S = (Sn : Int) := ⟨S.toNat, by omega⟩
  obtain ⟨cells, hrun, hitems⟩ := all_gathervm_impl_mapped_items heap calls rank c out_values
    out_n out_map Sn (by omega) hrank hcalls htable hheap hmap
  exact ⟨cells, hrun, fun k a m i j e_in e_out hk hma hi hj hein heout hlater =>
    hitems k a m i j e_in e_out hk hma hi (by omega) hein heout hlater⟩

/-- C5 at a concrete input: two ranks, stride 2, rank 0 sending its two
elements in reverse order, the receive map placing the three elements at
positions 3, 1 and 2 of a block of eight items. -/
theorem mapped_gather_places_items_witness :
    ∃ cells : List Int,
      detail.all_gathervm_impl (fun _ => true)
        ((group 0 [(⟨[1, 2, 3, 4], 2, some [1, 0], 2⟩ : SendArgs Int),
          ⟨[5, 6], 1, some [0], 2⟩]).data_round (fun _ => true))
        [1, 2, 3, 4] 2 (some [1, 0]) (.buffer [0, 0, 0, 0, 0, 0, 0, 0]) [2, 1]
        (some [3, 1, 2]) 2 = ⟨none, cells, 1⟩
      ∧ ∀ (k : Nat) (a : SendArgs Int) (m : List Int) (i j : Nat) (e_in e_out : Int),
          [(⟨[1, 2, 3, 4], 2, some [1, 0], 2⟩ : SendArgs Int), ⟨[5, 6], 1, some [0], 2⟩][k]?
            = some a →
          a.in_map = some m → (i : Int) < a.in_n → (j : Int) < 2 →
          m[i]? = some e_in →
          ([3, 1, 2] : List Int)[((([2, 1] : List Int).take k).sum + i).toNat]? = some e_out →
          (∀ g' : Nat, (([2, 1] : List Int).take k).sum + i < g' →
            (g' : Int) < (([2, 1] : List Int).take
              [(⟨[1, 2, 3, 4], 2, some [1, 0], 2⟩ : SendArgs Int),
                ⟨[5, 6], 1, some [0], 2⟩].length).sum →
            ([3, 1, 2] : List Int)[g']? ≠ some e_out) →
          ∃ v, load a.in_values (2 * e_in + j) = some v
            ∧ load cells (2 * e_out + j) = some v :=
  mapped_gather_places_items (fun _ => true)
    [⟨[1, 2, 3, 4], 2, some [1, 0], 2⟩, ⟨[5, 6], 1, some [0], 2⟩] 0
    ⟨[1, 2, 3, 4], 2, some [1, 0], 2⟩ (.buffer [0, 0, 0, 0, 0, 0, 0, 0]) [2, 1] [3, 1, 2] 2
    (by decide) (by decide)
    (by
      intro a ha
      simp only [List.mem_cons, List.mem_singleton, List.not_mem_nil, or_false] at ha
      rcases ha with rfl | rfl
      · refine ⟨rfl, by decide, rfl, [1, 0], rfl, ?_⟩
        intro i hi
        have hi' : i = 0 ∨ i = 1 := by simp only at hi; omega
        rcases hi' with rfl | rfl
        · exact ⟨1, rfl, by decide, by decide⟩
        · exact ⟨0, rfl, by decide, by decide⟩
      · refine ⟨rfl, by decide, rfl, [0], rfl, ?_⟩
        intro i hi
        have hi' : i = 0 := by simp only at hi; omega
        subst hi'
        exact ⟨0, rfl, by decide, by decide⟩)
    (by
      intro k a hk
      match k, hk with
      | 0, hk => cases hk; rfl
      | 1, hk => cases hk; rfl
      | n + 2, hk => cases hk)
    rfl
    (by
      intro g hg
      have hg' : g = 0 ∨ g = 1 ∨ g = 2 := by
        simp only [List.length_cons, List.length_nil, List.take, List.sum_cons, List.sum_nil]
          at hg
        omega
      rcases hg' with rfl | rfl | rfl
      · exact ⟨3, rfl, by decide, by decide⟩
      · exact ⟨1, rfl, by decide, by decide⟩
      · exact ⟨2, rfl, by decide, by decide⟩)

/-! ## Identity maps -/

theorem forLoop_succ_some {σ : Type} (n : Nat) (body : Nat → σ → Option σ) (s t : σ)
    (h : forLoop (n + 1) body s = some t) :
    ∃ u, forLoop n body s = some u ∧ body n u = some t := by
  simp only [forLoop] at h
  cases hu : forLoop n body s with
  | none => rw [hu] at h; cases h
  | some u => rw [hu] at h; exact ⟨u, rfl, h⟩

/-- A loop whose every iteration leaves untouched what it does not name leaves
untouched what no iteration names. -/
theorem forLoop_frame {T : Type} (n : Nat) (body : Nat → List T → Option (List T))
    (touched : Nat → Nat → Prop)
    (hbody : ∀ i s s', i < n → body i s = some s' → ∀ x, ¬ touched i x → s'[x]? = s[x]?)
    (s t : List T) (h : forLoop n body s = some t) (x : Nat)
    (hx : ∀ i, i < n → ¬ touched i x) : t[x]? = s[x]? := by
  induction n generalizing t with
  | zero =>
    simp only [forLoop, Option.some.injEq] at h
    rw [h]
  | succ m ih =>
    obtain ⟨u, hu, hb⟩ := forLoop_succ_some m body s t h
    rw [hbody m u t (Nat.lt_succ_self m) hb x (hx m (Nat.lt_succ_self m))]
    exact ih (fun i s s' hi => hbody i s s' (Nat.lt_succ_of_lt hi)) u hu
      (fun i hi => hx i (Nat.lt_succ_of_lt hi))

theorem forLoop_length {T : Type} (n : Nat) (body : Nat → List T → Option (List T))
    (hbody : ∀ i s s', i < n → body i s = some s' → s'.length = s.length)
    (s t : List T) (h : forLoop n body s = some t) : t.length = s.length := by
  induction n generalizing t with
  | zero =>
    simp only [forLoop, Option.some.injEq] at h
    rw [h]
  | succ m ih =>
    obtain ⟨u, hu, hb⟩ := forLoop_succ_some m body s t h
    rw [hbody m u t (Nat.lt_succ_self m) hb]
    exact ih (fun i s s' hi => hbody i s s' (Nat.lt_succ_of_lt hi)) u hu

/-- A block copy leaves untouched what lies outside the block. -/
theorem memcpy_frame {T : Type} (dst src : List T) (d s n : Int) (o : List T)
    (h : memcpy dst d src s n = some o) (x : Nat)
    (hx : ¬ (d ≤ (x : Int) ∧ (x : Int) < d + n)) : o[x]? = dst[x]? := by
  unfold memcpy at h
  split at h
  · rename_i hc
    obtain ⟨h1, h2, h3, h4, h5⟩ := hc
    simp only [Option.some.injEq] at h
    subst h
    have e : (d + n).toNat = d.toNat + n.toNat := by omega
    rw [e, block_getElem? dst src d.toNat s.toNat n.toNat x (by omega) (by omega),
      if_neg (by omega)]
  · cases h

/-- The re-population of the output is one loop of block copies, whatever
branch of the code performs it. -/
theorem repopulate_eq_loop {T : Type} (out0 out_buf : List T) (m : List Int)
    (out_sum stride : Int) :
    detail.repopulate out0 out_buf m out_sum stride
      = forLoop (out_sum.tdiv stride).toNat
          (fun i o => (load m i).bind fun m_i =>
            memcpy o (stride * m_i) out_buf (stride * i) stride) out0 := by
  unfold detail.repopulate
  split
  · rename_i h1
    subst h1
    rw [Int.tdiv_one]
    apply forLoop_congr
    intro i t _
    simp only [load_store_eq_memcpy]
  · rfl

theorem scatter_body_frame {T : Type} (src : List T) (m : List Int) (stride : Int) (i : Nat)
    (o o' : List T)
    (h : ((load m i).bind fun m_i => memcpy o (stride * m_i) src (stride * i) stride) = some o')
    (x : Nat)
    (hx : ¬ ∃ e, m[i]? = some e ∧ stride * e ≤ (x : Int) ∧ (x : Int) < stride * e + stride) :
    o'[x]? = o[x]? := by
  rw [load_natCast] at h
  cases he : m[i]? with
  | none => rw [he] at h; cases h
  | some e =>
    rw [he, Option.some_bind] at h
    exact memcpy_frame o src _ _ _ o' h x (fun hc => hx ⟨e, he, hc.1, hc.2⟩)

/-- Frame of the re-population: an item whose index is not `stride*out_map[i] + j`
for a position `i` the loop visits and a `j < stride` keeps its value. -/
theorem repopulate_frame {T : Type} (out0 out_buf : List T) (m : List Int)
    (total stride : Int) (hS : 0 < stride) (o : List T)
    (h : detail.repopulate out0 out_buf m (stride * total) stride = some o) (x : Nat)
    (hx : ∀ (i j : Nat) (e : Int), (i : Int) < total → (j : Int) < stride → m[i]? = some e →
      (x : Int) ≠ stride * e + j) : o[x]? = out0[x]? := by
  rw [repopulate_eq_loop, Int.mul_tdiv_cancel_left _ (by omega)] at h
  refine forLoop_frame total.toNat _
    (fun i x => ∃ e, m[i]? = some e ∧ stride * e ≤ (x : Int) ∧ (x : Int) < stride * e + stride)
    (fun i s s' _ hb x hx => scatter_body_frame out_buf m stride i s s' hb x hx) out0 o h x ?_
  intro i hi ⟨e, he, h1, h2⟩
  exact hx i ((x : Int) - stride * e).toNat e (by omega) (by omega) he (by omega)

theorem MPI_Allgatherv_length {T : Type} (comm : Communicator T) (in_buf : List T)
    (in_sum : Int) (out : List T) (counts displs : List Int) (o : List T)
    (h : MPI_Allgatherv comm in_buf in_sum out counts displs = some o) :
    o.length = out.length := by
  unfold MPI_Allgatherv at h
  refine forLoop_length _ _ ?_ out o h
  intro i s s' _ hb
  simp only at hb
  split at hb
  · split at hb
    · exact memcpy_length _ _ _ _ _ _ hb
    · cases hb
  · cases hb

theorem out_tables_some (nproc : Nat) (stride : Int) (out_n : List Int)
    (t : List Int × List Int) (h : detail.out_tables nproc stride out_n = some t) :
    0 < nproc ∧ nproc ≤ out_n.length := by
  unfold detail.out_tables at h
  simp only at h
  have hP : 0 < nproc := by
    by_contra hc
    have h0 : nproc = 0 := by omega
    subst h0
    simp [store] at h
  refine ⟨hP, ?_⟩
  by_contra hc
  have hl : load out_n ((nproc : Int) - 1) = none := by
    rw [load_of_nonneg _ _ (by omega)]
    exact List.getElem?_eq_none (by omega)
  rw [hl] at h
  cases h1 : store (List.replicate nproc (0 : Int)) 0 0 with
  | none => rw [h1] at h; cases h
  | some d =>
    rw [h1, Option.some_bind] at h
    revert h
    generalize forLoop (nproc - 1) _ _ = X
    intro h
    cases X with
    | none => cases h
    | some v => cases h

/-- The total `out_sum` of `all_gathervm_impl`, once its tables exist. -/
theorem out_sum_eq (nproc : Nat) (stride : Int) (out_n : List Int) (ns ds : List Int)
    (h : detail.out_tables nproc stride out_n = some (ns, ds)) :
    ((load ds ((nproc : Int) - 1)).bind fun d =>
      (load out_n ((nproc : Int) - 1)).map fun n => d + stride * n)
      = some (stride * (out_n.take nproc).sum) := by
  obtain ⟨hP, hlen⟩ := out_tables_some nproc stride out_n _ h
  obtain ⟨ns', ds', htab, -, -, -, hds⟩ := out_tables_spec nproc stride out_n hP hlen
  rw [h] at htab
  simp only [Option.some.injEq, Prod.mk.injEq] at htab
  obtain ⟨rfl, rfl⟩ := htab
  have e : ((nproc : Int) - 1) = ((nproc - 1 : Nat) : Int) := by omega
  have hlo : nproc - 1 < out_n.length := by omega
  rw [e, load_natCast, load_natCast, hds _ (by omega), List.getElem?_eq_getElem hlo]
  have h2 : nproc - 1 + 1 = nproc := by omega
  have := List.sum_take_succ out_n (nproc - 1) hlo
  rw [h2] at this
  rw [this, mul_add]
  rfl

/-- Frame of the implementation with a receive map: whatever the outcome of
the call, an item of the output storage whose index is not
`stride*out_map[i] + j` with `i` below the sum of the receive counts and
`j < stride` keeps its value. -/
theorem all_gathervm_impl_frame {T : Type} [Inhabited T] (heap : Heap) (comm : Communicator T)
    (in_values : List T) (in_n : Int) (in_map : Option (List Int)) (out_values : Ptr T)
    (out_n : List Int) (m : List Int) (stride : Int) (x : Nat)
    (hx : ∀ (i j : Nat) (e : Int), (i : Int) < (out_n.take comm.nproc).sum → (j : Int) < stride →
      m[i]? = some e → (x : Int) ≠ stride * e + j) :
    (detail.all_gathervm_impl heap comm in_values in_n in_map out_values out_n (some m)
        stride).state[x]? = (out_values.view in_values)[x]? := by
  unfold detail.all_gathervm_impl
  simp only
  split
  · rfl
  · rename_i hS
    split
    · rfl
    · rename_i ns ds htab
      rw [out_sum_eq _ _ _ _ _ htab]
      simp only
      split
      · rfl
      · split
        · rfl
        · split
          · rfl
          · split
            · rfl
            · rename_i cells hrep
              exact repopulate_frame _ _ _ _ _ (by omega) _ hrep x hx

/-! ## The receive map: example and frame -/

/-- C11: the mapped example of the specification. Two ranks, stride 1, rank 0
sending `{5,6}` and rank 1 sending `{9}` without send map, `out_n = [2,1]` and
the receive map `[7,2,0]` into a supplied block of at least eight items: on
every rank the call returns normally after one exchange, position 7 holds 5,
position 2 holds 6, position 0 holds 9, and every other position holds what it
held before. -/
theorem mapped_example (heap : Heap) (rank : Nat) (c : SendArgs Int) (out : List Int)
    (hrank : [(⟨[5, 6], 2, none, 1⟩ : SendArgs Int), ⟨[9], 1, none, 1⟩][rank]? = some c)
    (hout : 8 ≤ out.length) (hheap : heap 4 = true) :
    all_gather_mapped_raw heap
        (group rank [(⟨[5, 6], 2, none, 1⟩ : SendArgs Int), ⟨[9], 1, none, 1⟩])
        c.in_values c.in_n c.in_map (.buffer out) [2, 1] (some [7, 2, 0]) 1
      = ⟨none, ⟨⟨((out.set 7 5).set 2 6).set 0 9, false⟩, [2, 1]⟩, 1⟩ := by
  have hpeers : ∀ a ∈ [(⟨[5, 6], 2, none, 1⟩ : SendArgs Int), ⟨[9], 1, none, 1⟩],
      a.stride = ((1 : Nat) : Int) ∧ 0 ≤ a.in_n ∧
      ∃ b, detail.in_buf heap a.in_values a.in_n a.in_map a.stride = .ok b
        ∧ ((1 : Nat) : Int) * a.in_n ≤ b.length := by
    intro a ha
    simp only [List.mem_cons, List.mem_singleton, List.not_mem_nil, or_false] at ha
    rcases ha with rfl | rfl
    · exact ⟨rfl, by decide, _, rfl, by decide⟩
    · exact ⟨rfl, by decide, _, rfl, by decide⟩
  have htable : ∀ (k : Nat) (a : SendArgs Int),
      [(⟨[5, 6], 2, none, 1⟩ : SendArgs Int), ⟨[9], 1, none, 1⟩][k]? = some a →
      ([2, 1] : List Int)[k]? = some a.in_n := by
    intro k a hk
    match k, hk with
    | 0, hk => cases hk; rfl
    | 1, hk => cases hk; rfl
    | n + 2, hk => cases hk
  obtain ⟨cells, hrun, hcl, hlastw, hframe⟩ := all_gathervm_impl_mapped_group heap
    [(⟨[5, 6], 2, none, 1⟩ : SendArgs Int), ⟨[9], 1, none, 1⟩] rank c (.buffer out) [2, 1]
    [7, 2, 0] 1 3 (fun g => ([7, 2, 0] : List Nat).getD g 0) (by decide) hrank hpeers htable
    (by decide) (by simpa using hheap)
    (by
      intro g hg
      have hg' : g = 0 ∨ g = 1 ∨ g = 2 := by omega
      rcases hg' with rfl | rfl | rfl <;> rfl)
    (by
      intro g hg
      have hg' : g = 0 ∨ g = 1 ∨ g = 2 := by omega
      simp only [Ptr.view]
      rcases hg' with rfl | rfl | rfl <;> simp <;> omega)
  have hW : wire (staged_sends heap [(⟨[5, 6], 2, none, 1⟩ : SendArgs Int), ⟨[9], 1, none, 1⟩])
      = [5, 6, 9] := by
    simp [staged_sends, staged, in_buf_unmapped, wire]
  rw [hW] at hlastw
  simp only [Ptr.view] at hcl hframe
  have h7 := hlastw 0 0 (by decide) (by
    intro g' h1 h2
    have : g' = 1 ∨ g' = 2 := by omega
    rcases this with rfl | rfl <;> decide) (by decide)
  have h2 := hlastw 1 0 (by decide) (by
    intro g' h1 h2
    have : g' = 2 := by omega
    subst this
    decide) (by decide)
  have h0 := hlastw 2 0 (by decide) (by
    intro g' h1 h2
    omega) (by decide)
  simp only [List.getD_cons_zero, List.getD_cons_succ, mul_zero, add_zero, mul_one,
    List.getElem?_cons_zero, List.getElem?_cons_succ] at h7 h2 h0
  have hcells : cells = ((out.set 7 5).set 2 6).set 0 9 := by
    apply List.ext_getElem?
    intro x
    simp only [List.getElem?_set, List.length_set]
    by_cases hx0 : x = 0
    · subst hx0
      rw [if_pos rfl, if_pos (by omega)]
      simpa using h0
    · rw [if_neg (by omega)]
      by_cases hx2 : x = 2
      · subst hx2
        rw [if_pos rfl, if_pos (by omega)]
        simpa using h2
      · rw [if_neg (by omega)]
        by_cases hx7 : x = 7
        · subst hx7
          rw [if_pos rfl, if_pos (by omega)]
          simpa using h7
        · rw [if_neg (by omega)]
          apply hframe
          intro g hg
          have hg' : g = 0 ∨ g = 1 ∨ g = 2 := by omega
          rcases hg' with rfl | rfl | rfl <;> simp <;> omega
  have hsup := all_gather_mapped_raw_supplied heap
    (group rank [(⟨[5, 6], 2, none, 1⟩ : SendArgs Int), ⟨[9], 1, none, 1⟩]) c.in_values c.in_n
    c.in_map (.buffer out) [2, 1] (some [7, 2, 0]) 1 (by simp) (by simp [group])
    (by simp only [group]; decide)
  rw [hsup]
  have hrun' : detail.all_gathervm_impl heap
      ((group rank [(⟨[5, 6], 2, none, 1⟩ : SendArgs Int), ⟨[9], 1, none, 1⟩]).data_round heap)
      c.in_values c.in_n c.in_map (.buffer out) [2, 1] (some [7, 2, 0]) 1
      = ⟨none, cells, 1⟩ := by
    simpa using hrun
  rw [hrun', hcells]

/-- C11 at rank 1 with a block of nine items. -/
theorem mapped_example_witness :
    all_gather_mapped_raw (fun _ => true)
        (group 1 [(⟨[5, 6], 2, none, 1⟩ : SendArgs Int), ⟨[9], 1, none, 1⟩])
        (⟨[9], 1, none, 1⟩ : SendArgs Int).in_values (⟨[9], 1, none, 1⟩ : SendArgs Int).in_n
        (⟨[9], 1, none, 1⟩ : SendArgs Int).in_map
        (.buffer [10, 11, 12, 13, 14, 15, 16, 17, 18]) [2, 1] (some [7, 2, 0]) 1
      = ⟨none, ⟨⟨((([10, 11, 12, 13, 14, 15, 16, 17, 18] : List Int).set 7 5).set 2 6).set 0 9,
          false⟩, [2, 1]⟩, 1⟩ :=
  mapped_example (fun _ => true) 1 ⟨[9], 1, none, 1⟩ [10, 11, 12, 13, 14, 15, 16, 17, 18]
    (by decide) (by decide) rfl


theorem data_round_nproc {T : Type} [Inhabited T] (heap : Heap) (g : Group T) :
    (g.data_round heap).nproc = g.calls.length := by
  simp [Group.data_round, Communicator.nproc]

theorem negotiate_mapped_table {T : Type} (heap : Heap) (g : Group T) (in_n : Int)
    (out_n m : List Int) : (negotiate heap g in_n out_n (some m)).state.1 = out_n := by
  unfold negotiate
  simp only
  split
  · rfl
  · split
    · rfl
    · rfl

theorem allocate_out_supplied {T : Type} [Inhabited T] (heap : Heap) (out_values : Ptr T)
    (out_map : Option (List Int)) (out_sum stride : Int) (hnull : out_values ≠ .null) :
    allocate_out heap out_values out_map out_sum stride = .ok (out_values, false) := by
  cases out_values with
  | null => exact absurd rfl hnull
  | aliased => rfl
  | buffer c => rfl

theorem all_gather_mapped_raw_frame {T : Type} [Inhabited T] (heap : Heap) (g : Group T)
    (in_values : List T) (in_n : Int) (in_map : Option (List Int)) (out_values : Ptr T)
    (out_n m : List Int) (stride : Int) (x : Nat) (hnull : out_values ≠ .null)
    (hx : ∀ (i j : Nat) (e : Int), (i : Int) < (out_n.take g.calls.length).sum →
      (j : Int) < stride → m[i]? = some e → (x : Int) ≠ stride * e + j) :
    (all_gather_mapped_raw heap g in_values in_n in_map out_values out_n (some m)
        stride).state.out.cells[x]? = (out_values.view in_values)[x]? := by
  unfold all_gather_mapped_raw
  simp only [allocate_out_supplied heap out_values _ _ _ hnull, negotiate_mapped_table]
  split
  · rfl
  · exact all_gathervm_impl_frame heap (g.data_round heap) in_values in_n in_map out_values
      out_n m stride x (by rw [data_round_nproc]; exact hx)

theorem all_gather_mapped_vector_frame {T : Type} [Inhabited T] (heap : Heap) (g : Group T)
    (in_values : List T) (in_n : Int) (in_map : List Int) (out_values : OutVec T)
    (out_n m : List Int) (stride : Int) (x : Nat) (hm : m ≠ [])
    (hout : out_values.view in_values ≠ [])
    (hx : ∀ (i j : Nat) (e : Int), (i : Int) < (out_n.take g.calls.length).sum →
      (j : Int) < stride → m[i]? = some e → (x : Int) ≠ stride * e + j) :
    (all_gather_mapped_vector heap g in_values in_n in_map out_values out_n m
        stride).state.out_values[x]? = (out_values.view in_values)[x]? := by
  have hml : m.length ≠ 0 := fun h => hm (List.length_eq_zero.mp h)
  have hol : (out_values.view in_values).length ≠ 0 :=
    fun h => hout (List.length_eq_zero.mp h)
  have hmp : map_pointer m = some m := by simp only [map_pointer, if_neg hml]
  have hx' : ∀ (i j : Nat) (e : Int),
      (i : Int) < (out_n.take (g.data_round heap).nproc).sum →
      (j : Int) < stride → m[i]? = some e → (x : Int) ≠ stride * e + j := by
    rw [data_round_nproc]; exact hx
  unfold all_gather_mapped_vector
  by_cases hs : List.foldl (fun out_sum i => int32 (out_sum + i)) 0 out_n
      = int32 (-(g.calls.length : Int))
  · simp only [ne_eq, hml, not_false_eq_true, if_true, if_pos hs]
  · simp only [ne_eq, hml, not_false_eq_true, if_true, if_neg hol, hmp, if_neg hs]
    cases out_values with
    | self =>
      exact all_gathervm_impl_frame heap (g.data_round heap) in_values in_n _ .aliased
        out_n m stride x hx'
    | vec c =>
      exact all_gathervm_impl_frame heap (g.data_round heap) in_values in_n _ (.buffer c)
        out_n m stride x hx'

/-- C12: frame of the receive-side scatter. In a mapped variable size
all_gather with a receive map `m` and a supplied output (a block of its own or
the send block itself for the raw-pointer shape, a non-empty vector for the
std::vector shape), an output position `x` that is not of the form
`stride*m[i] + j` with `i` below the sum of `out_n` and `j < stride` holds
after the call, however the call ends, what it held before. -/
theorem receive_scatter_frame {T : Type} [Inhabited T] (heap : Heap) (g : Group T)
    (in_values : List T) (in_n : Int) (in_map : Option (List Int)) (in_map_vector : List Int)
    (out_values : Ptr T) (out_vector : OutVec T) (out_n m : List Int) (stride : Int) (x : Nat)
    (hnull : out_values ≠ .null) (hm : m ≠ []) (hout : out_vector.view in_values ≠ [])
    (hx : ∀ (i j : Nat) (e : Int), (i : Int) < (out_n.take g.calls.length).sum →
      (j : Int) < stride → m[i]? = some e → (x : Int) ≠ stride * e + j) :
    (detail.all_gathervm_impl heap (g.data_round heap) in_values in_n in_map out_values out_n
        (some m) stride).state[x]? = (out_values.view in_values)[x]?
    ∧ (all_gather_mapped_raw heap g in_values in_n in_map out_values out_n (some m)
        stride).state.out.cells[x]? = (out_values.view in_values)[x]?
    ∧ (all_gather_mapped_vector heap g in_values in_n in_map_vector out_vector out_n m
        stride).state.out_values[x]? = (out_vector.view in_values)[x]? :=
  ⟨all_gathervm_impl_frame heap (g.data_round heap) in_values in_n in_map out_values out_n m
      stride x (by rw [data_round_nproc]; exact hx),
    all_gather_mapped_raw_frame heap g in_values in_n in_map out_values out_n m stride x hnull hx,
    all_gather_mapped_vector_frame heap g in_values in_n in_map_vector out_vector out_n m stride
      x hm hout hx⟩

/-- C12 at position 3 of the example: two ranks, receive map `[7,2,0]`. -/
theorem receive_scatter_frame_witness :
    (detail.all_gathervm_impl (fun _ => true)
        ((group 0 [(⟨[5, 6], 2, none, 1⟩ : SendArgs Int), ⟨[9], 1, none, 1⟩]).data_round
          (fun _ => true))
        [5, 6] 2 none (.buffer [10, 11, 12, 13, 14, 15, 16, 17, 18]) [2, 1]
        (some [7, 2, 0]) 1).state[3]?
      = (Ptr.view [5, 6] (.buffer ([10, 11, 12, 13, 14, 15, 16, 17, 18] : List Int)))[3]?
    ∧ (all_gather_mapped_raw (fun _ => true)
        (group 0 [(⟨[5, 6], 2, none, 1⟩ : SendArgs Int), ⟨[9], 1, none, 1⟩])
        [5, 6] 2 none (.buffer [10, 11, 12, 13, 14, 15, 16, 17, 18]) [2, 1]
        (some [7, 2, 0]) 1).state.out.cells[3]?
      = (Ptr.view [5, 6] (.buffer ([10, 11, 12, 13, 14, 15, 16, 17, 18] : List Int)))[3]?
    ∧ (all_gather_mapped_vector (fun _ => true)
        (group 0 [(⟨[5, 6], 2, none, 1⟩ : SendArgs Int), ⟨[9], 1, none, 1⟩])
        [5, 6] 2 [] (.vec [10, 11, 12, 13, 14, 15, 16, 17, 18]) [2, 1] [7, 2, 0]
        1).state.out_values[3]?
      = (OutVec.view [5, 6] (.vec ([10, 11, 12, 13, 14, 15, 16, 17, 18] : List Int)))[3]? :=
  receive_scatter_frame (fun _ => true)
    (group 0 [(⟨[5, 6], 2, none, 1⟩ : SendArgs Int), ⟨[9], 1, none, 1⟩])
    [5, 6] 2 none [] (.buffer [10, 11, 12, 13, 14, 15, 16, 17, 18])
    (.vec [10, 11, 12, 13, 14, 15, 16, 17, 18]) [2, 1] [7, 2, 0] 1 3
    (by simp) (by simp) (by simp [OutVec.view])
    (by
      intro i j e hi hj he
      have hi' : i < 3 := by
        have : (([2, 1] : List Int).take
          (group 0 [(⟨[5, 6], 2, none, 1⟩ : SendArgs Int), ⟨[9], 1, none, 1⟩]).calls.length).sum
            = 3 := by decide
        omega
      have hi'' : i = 0 ∨ i = 1 ∨ i = 2 := by omega
      rcases hi'' with rfl | rfl | rfl <;> simp at he <;> omega)

theorem sum_take_succ_getElem? (l : List Int) (k : Nat) (n : Int) (h : l[k]? = some n) :
    (l.take (k + 1)).sum = (l.take k).sum + n := by
  induction l generalizing k with
  | nil => simp at h
  | cons a as ih =>
    cases k with
    | zero =>
      simp only [List.getElem?_cons_zero, Option.some.injEq] at h
      simp [h]
    | succ j =>
      simp only [List.getElem?_cons_succ] at h
      simp only [List.take_succ_cons, List.sum_cons, ih j h]
      omega

/-- C13: the displacement plan of `all_gathervm_impl`. For at least one process
and a table `out_n` with an entry for every process, the tables are computed
and satisfy `out_disp[0] = 0`,
`out_disp[k] = out_disp[k-1] + stride*out_n[k-1]` for `1 ≤ k < P`,
`out_nstride[k] = stride*out_n[k]` for `k < P`, and the total
`out_sum = out_disp[P-1] + stride*out_n[P-1]` is `stride` times the sum of the
first `P` entries of `out_n`. -/
theorem displacement_plan (nproc : Nat) (stride : Int) (out_n : List Int) (hP : 1 ≤ nproc)
    (hlen : nproc ≤ out_n.length) :
    ∃ out_nstride out_disp : List Int,
      detail.out_tables nproc stride out_n = some (out_nstride, out_disp)
      ∧ out_nstride.length = nproc ∧ out_disp.length = nproc
      ∧ out_disp[0]? = some 0
      ∧ (∀ k : Nat, 1 ≤ k → k < nproc → ∃ d n : Int, out_disp[k - 1]? = some d
          ∧ out_n[k - 1]? = some n ∧ out_disp[k]? = some (d + stride * n))
      ∧ (∀ k : Nat, k < nproc → ∃ n : Int, out_n[k]? = some n
          ∧ out_nstride[k]? = some (stride * n))
      ∧ ∃ d n : Int, out_disp[nproc - 1]? = some d ∧ out_n[nproc - 1]? = some n
          ∧ ((load out_disp ((nproc : Int) - 1)).bind fun d =>
              (load out_n ((nproc : Int) - 1)).map fun n => d + stride * n)
            = some (d + stride * n)
          ∧ d + stride * n = stride * (out_n.take nproc).sum := by
  obtain ⟨ns, ds, htab, hnl, hdl, hns, hds⟩ := out_tables_spec nproc stride out_n hP hlen
  have hget : ∀ k : Nat, k < nproc → ∃ n : Int, out_n[k]? = some n := by
    intro k hk
    exact ⟨out_n[k], List.getElem?_eq_getElem (by omega)⟩
  refine ⟨ns, ds, htab, hnl, hdl, ?_, ?_, ?_, ?_⟩
  · rw [hds 0 (by omega)]
    simp
  · intro k hk1 hk
    obtain ⟨n, hn⟩ := hget (k - 1) (by omega)
    refine ⟨_, n, hds (k - 1) (by omega), hn, ?_⟩
    rw [hds k hk]
    have e := sum_take_succ_getElem? out_n (k - 1) n hn
    rw [Nat.sub_add_cancel hk1] at e
    rw [e, mul_add]
  · intro k hk
    obtain ⟨n, hn⟩ := hget k hk
    exact ⟨n, hn, hns k n hk hn⟩
  · obtain ⟨n, hn⟩ := hget (nproc - 1) (by omega)
    have hd := hds (nproc - 1) (by omega)
    have e := sum_take_succ_getElem? out_n (nproc - 1) n hn
    rw [Nat.sub_add_cancel hP] at e
    refine ⟨_, n, hd, hn, ?_, by rw [e, mul_add]⟩
    rw [out_sum_eq nproc stride out_n ns ds htab, e, mul_add]

/-- C13 for three processes, stride 2 and the table `[3, 0, 4]`. -/
theorem displacement_plan_witness :
    ∃ out_nstride out_disp : List Int,
      detail.out_tables 3 2 [3, 0, 4] = some (out_nstride, out_disp)
      ∧ out_nstride.length = 3 ∧ out_disp.length = 3
      ∧ out_disp[0]? = some 0
      ∧ (∀ k : Nat, 1 ≤ k → k < 3 → ∃ d n : Int, out_disp[k - 1]? = some d
          ∧ ([3, 0, 4] : List Int)[k - 1]? = some n ∧ out_disp[k]? = some (d + 2 * n))
      ∧ (∀ k : Nat, k < 3 → ∃ n : Int, ([3, 0, 4] : List Int)[k]? = some n
          ∧ out_nstride[k]? = some (2 * n))
      ∧ ∃ d n : Int, out_disp[3 - 1]? = some d ∧ ([3, 0, 4] : List Int)[3 - 1]? = some n
          ∧ ((load out_disp (((3 : Nat) : Int) - 1)).bind fun d =>
              (load [3, 0, 4] (((3 : Nat) : Int) - 1)).map fun n => d + 2 * n)
            = some (d + 2 * n)
          ∧ d + 2 * n = 2 * (([3, 0, 4] : List Int).take 3).sum :=
  displacement_plan 3 2 [3, 0, 4] (by decide) (by decide)


/-! ## Size checks and the null receiver -/

/-- C14: the std::vector variable size all_gather entered with an `out_n` of
three entries in a group of two processes. No error is raised: the call
performs the exchange and returns normally (line 384 constructs the `BadValue`
object without throwing it). -/
theorem out_n_size_mismatch_returns :
    all_gather_var_vector (fun _ => true)
        (group 0 [(⟨[5], 1, none, 1⟩ : SendArgs Int), ⟨[6], 1, none, 1⟩])
        [5] 1 (.vec [0, 0]) [1, 1, 5] 1
      = ⟨none, ⟨[5, 6], [1, 1, 5]⟩, 1⟩
    ∧ all_gather_mapped_vector (fun _ => true)
        (group 0 [(⟨[5], 1, none, 1⟩ : SendArgs Int), ⟨[6], 1, none, 1⟩])
        [5] 1 [] (.vec [0, 0]) [1, 1, 5] [] 1
      = ⟨none, ⟨[5, 6], [1, 1, 5]⟩, 1⟩ := by
  decide

/-- C15, as stated, fails when nothing is gathered: two processes contributing
no element get from the null pointer a block of one item, not of
`P * stride * in_n = 0` items. -/
theorem null_receiver_constant_counterexample :
    all_gather_const_raw (fun _ => true)
        (constant_round 0 [(⟨[7], 0, 1⟩ : ConstArgs Int), ⟨[8], 0, 1⟩]) [7] 0 .null 1
      = ⟨none, ⟨[0], true⟩, 1⟩
    ∧ (all_gather_const_raw (fun _ => true)
        (constant_round 0 [(⟨[7], 0, 1⟩ : ConstArgs Int), ⟨[8], 0, 1⟩]) [7] 0 .null
        1).state.cells.length ≠ 2 * 1 * 0 := by
  decide

/-- C15, amended: the raw-pointer constant size all_gather entered with a
non-null `out_values` hands back `out_values` itself, holding what the
implementation left in it; entered with the null pointer it hands back a block
it allocated, of `P * stride * in_n` items or of one item if that is less than
one, holding at `k*N*S + j` the item `j` of the input of rank `k`. -/
theorem null_receiver_constant {T : Type} [Inhabited T] (heap : Heap)
    (calls : List (ConstArgs T)) (N S : Int) (rank : Nat) (c : ConstArgs T) (p : Ptr T)
    (hp : p ≠ .null) (hS : 0 < S) (hN : 0 ≤ N)
    (hcalls : ∀ a ∈ calls, a.in_n = N ∧ a.stride = S ∧ N * S ≤ a.in_values.length)
    (hrank : calls[rank]? = some c)
    (hheap : heap (if S * calls.length * N > 1 then S * calls.length * N else 1) = true) :
    (all_gather_const_raw heap (constant_round rank calls) c.in_values N p S).state
      = ⟨(detail.all_gatherc_impl heap (constant_round rank calls) c.in_values N p S).state,
          false⟩
    ∧ ∃ cells : List T,
        all_gather_const_raw heap (constant_round rank calls) c.in_values N .null S
          = ⟨none, ⟨cells, true⟩, 1⟩
        ∧ (cells.length : Int)
          = (if S * calls.length * N > 1 then S * calls.length * N else 1)
        ∧ ∀ (k : Nat) (a : ConstArgs T) (j : Nat), calls[k]? = some a → (j : Int) < N * S →
            ∃ v, load a.in_values j = some v ∧ load cells (k * N * S + j) = some v := by
  have hnp : (constant_round rank calls).nproc = calls.length := by
    simp [constant_round, Communicator.nproc]
  constructor
  · cases p with
    | null => exact absurd rfl hp
    | aliased => rfl
    | buffer b => rfl
  · have hnn : 0 ≤ (calls.length : Int) * N * S :=
      mul_nonneg (mul_nonneg (by omega) hN) (le_of_lt hS)
    have hcomm : S * (calls.length : Int) * N = (calls.length : Int) * N * S := by
      rw [mul_comm S, mul_assoc, mul_comm S N, ← mul_assoc]
    have hsz : (0 : Int) ≤ (if S * calls.length * N > 1 then S * calls.length * N else 1) := by
      split <;> omega
    have hfit : (calls.length : Int) * N * S
        ≤ ((List.replicate
            (if S * calls.length * N > 1 then S * calls.length * N else 1).toNat
            (default : T)).length : Int) := by
      rw [List.length_replicate, Int.toNat_of_nonneg hsz]
      split <;> omega
    obtain ⟨cells, hrun, hlen, hitems⟩ := all_gather_const_raw_items heap calls N S rank c
      (List.replicate (if S * calls.length * N > 1 then S * calls.length * N else 1).toNat
        default) hS hN hcalls hrank hfit
    refine ⟨cells, ?_, ?_, hitems⟩
    · rw [all_gather_const_raw_null heap (constant_round rank calls) c.in_values N S
        (if S * calls.length * N > 1 then S * calls.length * N else 1) (by rw [hnp]) hheap,
        hrun]
    · rw [hlen, List.length_replicate, Int.toNat_of_nonneg hsz]

/-- C15 (amended) for three ranks, two elements of stride two each. -/
theorem null_receiver_constant_witness :
    (all_gather_const_raw (fun _ => true)
        (constant_round 1 [⟨[1, 2, 3, 4], 2, 2⟩, ⟨[5, 6, 7, 8], 2, 2⟩, ⟨[9, 10, 11, 12], 2, 2⟩])
        (⟨[5, 6, 7, 8], 2, 2⟩ : ConstArgs Int).in_values 2 (.buffer (List.replicate 13 0))
        2).state
      = ⟨(detail.all_gatherc_impl (fun _ => true)
          (constant_round 1 [⟨[1, 2, 3, 4], 2, 2⟩, ⟨[5, 6, 7, 8], 2, 2⟩, ⟨[9, 10, 11, 12], 2, 2⟩])
          (⟨[5, 6, 7, 8], 2, 2⟩ : ConstArgs Int).in_values 2 (.buffer (List.replicate 13 0))
          2).state, false⟩
    ∧ ∃ cells : List Int,
        all_gather_const_raw (fun _ => true)
          (constant_round 1 [⟨[1, 2, 3, 4], 2, 2⟩, ⟨[5, 6, 7, 8], 2, 2⟩, ⟨[9, 10, 11, 12], 2, 2⟩])
          (⟨[5, 6, 7, 8], 2, 2⟩ : ConstArgs Int).in_values 2 .null 2
          = ⟨none, ⟨cells, true⟩, 1⟩
        ∧ (cells.length : Int)
          = (if (2 : Int) * ([(⟨[1, 2, 3, 4], 2, 2⟩ : ConstArgs Int), ⟨[5, 6, 7, 8], 2, 2⟩,
                ⟨[9, 10, 11, 12], 2, 2⟩].length : Nat) * 2 > 1
              then (2 : Int) * ([(⟨[1, 2, 3, 4], 2, 2⟩ : ConstArgs Int), ⟨[5, 6, 7, 8], 2, 2⟩,
                ⟨[9, 10, 11, 12], 2, 2⟩].length : Nat) * 2
              else 1)
        ∧ ∀ (k : Nat) (a : ConstArgs Int) (j : Nat),
            [(⟨[1, 2, 3, 4], 2, 2⟩ : ConstArgs Int), ⟨[5, 6, 7, 8], 2, 2⟩,
              ⟨[9, 10, 11, 12], 2, 2⟩][k]? = some a →
            (j : Int) < 2 * 2 →
            ∃ v, load a.in_values j = some v ∧ load cells (k * 2 * 2 + j) = some v :=
  null_receiver_constant (fun _ => true)
    [⟨[1, 2, 3, 4], 2, 2⟩, ⟨[5, 6, 7, 8], 2, 2⟩, ⟨[9, 10, 11, 12], 2, 2⟩] 2 2 1
    ⟨[5, 6, 7, 8], 2, 2⟩ (.buffer (List.replicate 13 0)) (by simp) (by decide) (by decide)
    (by decide) (by decide) rfl


/-- The null receiver with a receive map at a concrete input: two processes,
stride 2, receive map `[3, 1, 0]`; the call allocates eight items and returns
normally with every element placed. -/
theorem mapped_null_receiver_example :
    all_gather_mapped_raw (fun _ => true)
        (group 0 [(⟨[5, 6, 7, 8], 2, none, 2⟩ : SendArgs Int), ⟨[9, 10], 1, none, 2⟩])
        [5, 6, 7, 8] 2 none .null [2, 1] (some [3, 1, 0]) 2
      = ⟨none, ⟨⟨[9, 10, 7, 8, 0, 0, 5, 6], true⟩, [2, 1]⟩, 1⟩ := by
  decide


/-! ## The std::vector shapes -/

/-- C17: the auto-resize of the std::vector shape with a receive map whose
largest entry is 0. One process sends `[5]` with the receive map `[0]` into an
empty `out_values`: the vector is resized to no item at all (line 405 adds one
to the maximum only when the maximum is not 0) and the scatter then writes
outside it, while the raw-pointer shape entered with the null pointer
allocates one item and delivers `[5]`. -/
theorem auto_resize_zero_map :
    all_gather_mapped_vector (fun _ => true) (group 0 [(⟨[5], 1, none, 1⟩ : SendArgs Int)])
        [5] 1 [] (.vec []) [1] [0] 1
      = ⟨some .MemoryFault, ⟨[], [1]⟩, 1⟩
    ∧ all_gather_mapped_raw (fun _ => true) (group 0 [(⟨[5], 1, none, 1⟩ : SendArgs Int)])
        [5] 1 none .null [1] (some [0]) 1
      = ⟨none, ⟨⟨[5], true⟩, [1]⟩, 1⟩ := by
  decide

theorem resize_length {T : Type} [Inhabited T] (heap : Heap) (v : List T) (n : Nat)
    (hheap : heap (n : Int) = true) :
    ∃ cells : List T, resize heap v (n : Int) = some cells ∧ cells.length = n := by
  unfold resize
  rw [if_neg (by omega)]
  split
  · rename_i h
    exact ⟨_, rfl, by simp only [List.length_take, Int.toNat_ofNat]; omega⟩
  · rename_i h
    exact ⟨_, rfl, by simp only [List.length_append, List.length_replicate, Int.toNat_ofNat]; omega⟩

theorem wire_singletons {T : Type} (vals : List T) :
    wire (vals.map fun v => ([v], (1 : Int) * 1)) = vals := by
  induction vals with
  | nil => rfl
  | cons a as ih =>
    simp only [List.map_cons, wire, ih]
    rfl

theorem wire_whole {T : Type} (ins : List (List T)) (L : Nat) (c : Int) (hc : c = L)
    (hins : ∀ a ∈ ins, a.length = L) :
    wire (ins.map fun a => (a, c)) = ins.flatten := by
  induction ins with
  | nil => rfl
  | cons a as ih =>
    have ha := hins a (List.mem_cons_self _ _)
    simp only [List.map_cons, wire, List.flatten_cons,
      ih (fun b hb => hins b (List.mem_cons_of_mem _ hb))]
    rw [hc, Int.toNat_ofNat, ← ha, List.take_length]

/-- C19: gather of scalars. In a group of `P ≥ 1` processes, rank `k`
supplying the value `vals[k]`, the call of every rank returns normally after
one exchange with `out_values` holding exactly the `P` values in rank order,
whatever `out_values` held on entry. -/
theorem scalar_gather {T : Type} [Inhabited T] (heap : Heap) (vals : List T) (rank : Nat)
    (in_value : T) (out_values : List T) (hrank : vals[rank]? = some in_value)
    (hheap : heap (vals.length : Int) = true) :
    all_gather_scalar heap (constant_round rank (vals.map fun v => ⟨[v], 1, 1⟩)) in_value
        out_values
      = ⟨none, vals, 1⟩
    ∧ (∀ k : Nat, k < vals.length →
        (all_gather_scalar heap (constant_round rank (vals.map fun v => ⟨[v], 1, 1⟩)) in_value
          out_values).state[k]? = vals[k]?)
    ∧ (all_gather_scalar heap (constant_round rank (vals.map fun v => ⟨[v], 1, 1⟩)) in_value
          out_values).state.length = vals.length := by
  have hnp : (constant_round rank (vals.map fun v => (⟨[v], 1, 1⟩ : ConstArgs T))).nproc
      = vals.length := by
    simp [constant_round, Communicator.nproc]
  obtain ⟨cells, hres, hcl⟩ := resize_length heap out_values vals.length hheap
  have hs := constant_round_sends rank (vals.map fun v => (⟨[v], 1, 1⟩ : ConstArgs T))
    ⟨[in_value], 1, 1⟩ (by rw [List.getElem?_map, hrank]; rfl)
  simp only [List.map_map] at hs
  have himpl := all_gatherc_impl_buffer heap
    (constant_round rank (vals.map fun v => (⟨[v], 1, 1⟩ : ConstArgs T))) [in_value] 1 cells 1
    (vals.map fun v => ([v], (1 : Int) * 1)) (by rw [hs, List.map_map]; rfl)
    (by
      intro p hp
      obtain ⟨a, -, rfl⟩ := List.mem_map.1 hp
      simp)
    (by decide) (by decide) (by simp only [List.length_map]; omega)
  rw [wire_singletons, List.drop_of_length_le (by omega), List.append_nil] at himpl
  have hrun : all_gather_scalar heap
      (constant_round rank (vals.map fun v => (⟨[v], 1, 1⟩ : ConstArgs T))) in_value out_values
      = ⟨none, vals, 1⟩ := by
    simp only [all_gather_scalar, hnp, hres, himpl]
  rw [hrun]
  exact ⟨rfl, fun _ _ => rfl, rfl⟩

/-- C19 for three processes and an `out_values` of five items on entry. -/
theorem scalar_gather_witness :
    all_gather_scalar (fun _ => true)
        (constant_round 1 (([7, 8, 9] : List Int).map fun v => ⟨[v], 1, 1⟩)) 8 [1, 2, 3, 4, 5]
      = ⟨none, [7, 8, 9], 1⟩
    ∧ (∀ k : Nat, k < ([7, 8, 9] : List Int).length →
        (all_gather_scalar (fun _ => true)
          (constant_round 1 (([7, 8, 9] : List Int).map fun v => ⟨[v], 1, 1⟩)) 8
          [1, 2, 3, 4, 5]).state[k]? = ([7, 8, 9] : List Int)[k]?)
    ∧ (all_gather_scalar (fun _ => true)
          (constant_round 1 (([7, 8, 9] : List Int).map fun v => ⟨[v], 1, 1⟩)) 8
          [1, 2, 3, 4, 5]).state.length = ([7, 8, 9] : List Int).length :=
  scalar_gather (fun _ => true) [7, 8, 9] 1 8 [1, 2, 3, 4, 5] (by decide) rfl

/-- C20: the std::vector constant size gather. In a group of `P ≥ 1`
processes whose `in_values` all have the same size `L > 0`, a multiple of the
stride `S > 0`, the call of every rank returns normally after one exchange,
`out_values` has `L * P` items whatever its size on entry, and it is the
rank-ordered concatenation of the inputs: `out_values[k*L + j]` is item `j` of
the `in_values` of rank `k`. -/
theorem vector_constant_gather {T : Type} [Inhabited T] (heap : Heap) (ins : List (List T))
    (L : Nat) (S : Int) (rank : Nat) (in_values out_values : List T)
    (hS : 0 < S) (hL : 0 < L) (hdiv : (L : Int) % S = 0)
    (hins : ∀ a ∈ ins, a.length = L) (hrank : ins[rank]? = some in_values)
    (hheap : heap ((L : Int) * (ins.length : Int)) = true) :
    all_gather_const_vector heap
        (constant_round rank (ins.map fun a => ⟨a, (L : Int).tdiv S, S⟩)) in_values
        (.vec out_values) S
      = ⟨none, ins.flatten, 1⟩
    ∧ ins.flatten.length = L * ins.length
    ∧ ∀ (k : Nat) (a : List T) (j : Nat), ins[k]? = some a → j < L →
        ins.flatten[k * L + j]? = a[j]? := by
  have hnp : (constant_round rank (ins.map fun a => (⟨a, (L : Int).tdiv S, S⟩ : ConstArgs T))).nproc
      = ins.length := by
    simp [constant_round, Communicator.nproc]
  have hil : in_values.length = L := hins _ (mem_of_getElem?_eq ins rank _ hrank)
  have hcnt : (L : Int).tdiv S * S = L := Int.tdiv_mul_cancel (Int.dvd_of_emod_eq_zero hdiv)
  have hheap' : heap (((L * ins.length : Nat)) : Int) = true := by
    rw [Nat.cast_mul]; exact hheap
  obtain ⟨cells, hres, hcl⟩ := resize_length heap out_values (L * ins.length) hheap'
  rw [Nat.cast_mul] at hres
  have hs := constant_round_sends rank
    (ins.map fun a => (⟨a, (L : Int).tdiv S, S⟩ : ConstArgs T))
    ⟨in_values, (L : Int).tdiv S, S⟩ (by rw [List.getElem?_map, hrank]; rfl)
  simp only [List.map_map] at hs
  have hn : ∀ p ∈ ins.map (fun a => (a, (L : Int).tdiv S * S)),
      0 ≤ p.2 ∧ p.2 ≤ (p.1.length : Int) := by
    intro p hp
    obtain ⟨a, ha, rfl⟩ := List.mem_map.1 hp
    have := hins a ha
    simp only [hcnt]
    omega
  have himpl := all_gatherc_impl_buffer heap
    (constant_round rank (ins.map fun a => (⟨a, (L : Int).tdiv S, S⟩ : ConstArgs T)))
    in_values ((L : Int).tdiv S) cells S
    (ins.map fun a => (a, (L : Int).tdiv S * S)) (by rw [hs, List.map_map]; rfl)
    (by
      intro p hp
      obtain ⟨a, ha, rfl⟩ := List.mem_map.1 hp
      have := hins a ha
      simp only [hcnt, true_and]
      omega)
    hS (by rw [hcnt]; omega)
    (by
      rw [List.length_map, hcnt, hcl]
      push_cast
      rw [mul_comm])
  have hfl : (ins.flatten.length : Int) = (ins.length : Int) * L := by
    rw [← wire_whole ins L _ hcnt hins, wire_length _ hn]
    simp only [List.map_map]
    have : ∀ l : List (List T), (List.map ((fun p : List T × Int => p.2) ∘
        fun a => (a, (L : Int).tdiv S * S)) l).sum = (l.length : Int) * L := by
      intro l
      induction l with
      | nil => simp
      | cons b bs ih =>
        rw [List.map_cons, List.sum_cons, ih]
        simp only [Function.comp, hcnt, List.length_cons]
        push_cast
        rw [add_mul, one_mul, add_comm]
    exact this ins
  have hfl' : ins.flatten.length = L * ins.length := by
    have : ((L * ins.length : Nat) : Int) = (ins.length : Int) * L := by
      push_cast; rw [mul_comm]
    omega
  rw [wire_whole ins L _ hcnt hins, List.drop_of_length_le (by omega), List.append_nil]
    at himpl
  refine ⟨?_, hfl', ?_⟩
  · simp only [all_gather_const_vector, hnp, hil, hdiv, not_true_eq_false, if_false,
      OutVec.view, hres, himpl]
  · intro k a j hk hj
    have h := wire_getElem? (ins.map fun a => (a, (L : Int).tdiv S * S)) hn k
      (a, (L : Int).tdiv S * S) (by rw [List.getElem?_map, hk]; rfl) j
      (by simp only [hcnt]; omega)
    rw [wire_whole ins L _ hcnt hins,
      offset_const _ ((L : Int).tdiv S * S)
        (by
          intro p hp
          obtain ⟨b, -, rfl⟩ := List.mem_map.1 hp
          rfl)
        k (by
          have := getElem?_lt_length ins k a hk
          rw [List.length_map]; omega),
      hcnt] at h
    have e : ((k : Int) * (L : Int)).toNat = k * L := by
      rw [← Nat.cast_mul, Int.toNat_ofNat]
    rw [e] at h
    exact h

/-- C20 for three processes, vectors of four items, stride 2, and an
`out_values` of one item on entry. -/
theorem vector_constant_gather_witness :
    all_gather_const_vector (fun _ => true)
        (constant_round 1 (([[1, 2, 3, 4], [5, 6, 7, 8], [9, 10, 11, 12]] : List (List Int)).map
          fun a => ⟨a, ((4 : Nat) : Int).tdiv 2, 2⟩)) [5, 6, 7, 8] (.vec [0]) 2
      = ⟨none, ([[1, 2, 3, 4], [5, 6, 7, 8], [9, 10, 11, 12]] : List (List Int)).flatten, 1⟩
    ∧ ([[1, 2, 3, 4], [5, 6, 7, 8], [9, 10, 11, 12]] : List (List Int)).flatten.length
      = 4 * ([[1, 2, 3, 4], [5, 6, 7, 8], [9, 10, 11, 12]] : List (List Int)).length
    ∧ ∀ (k : Nat) (a : List Int) (j : Nat),
        ([[1, 2, 3, 4], [5, 6, 7, 8], [9, 10, 11, 12]] : List (List Int))[k]? = some a → j < 4 →
        ([[1, 2, 3, 4], [5, 6, 7, 8], [9, 10, 11, 12]] : List (List Int)).flatten[k * 4 + j]?
          = a[j]? :=
  vector_constant_gather (fun _ => true) [[1, 2, 3, 4], [5, 6, 7, 8], [9, 10, 11, 12]] 4 2 1
    [5, 6, 7, 8] [0] (by decide) (by decide) (by decide) (by decide) (by decide) rfl


/-! ## In-place calls -/

/-- The constant size implementation called in place: the wire-order content
followed by the untouched rest of the block. -/
theorem all_gatherc_impl_aliased {T : Type} [Inhabited T] (heap : Heap) (comm : Communicator T)
    (in_values : List T) (in_n : Int) (stride : Int)
    (sends : List (List T × Int))
    (hs : comm.sends.set comm.rank (some (in_values, in_n * stride)) = sends.map some)
    (hsend : ∀ p ∈ sends, p.2 = in_n * stride ∧ in_n * stride ≤ p.1.length)
    (hS : 0 < stride) (h0 : 0 ≤ in_n * stride)
    (hin : (sends.length : Int) * (in_n * stride) ≤ in_values.length)
    (hheap : heap ((sends.length : Int) * in_n * stride + 1) = true) :
    detail.all_gatherc_impl heap comm in_values in_n .aliased stride
      = ⟨none, wire sends ++ in_values.drop (wire sends).length, 1⟩ := by
  have hlen : comm.nproc = sends.length := by
    have := congrArg List.length hs
    simpa [Communicator.nproc] using this
  have hn : ∀ p ∈ sends, 0 ≤ p.2 ∧ p.2 ≤ p.1.length := by
    intro p hp
    obtain ⟨h1, h2⟩ := hsend p hp
    omega
  have hoff := offset_const sends (in_n * stride) (fun p hp => (hsend p hp).1)
  have hwl := wire_length sends hn
  rw [← offset_length, hoff _ (le_refl _)] at hwl
  have htot : (0 : Int) ≤ (sends.length : Int) * (in_n * stride) :=
    mul_nonneg (by omega) h0
  have hal : (alloc heap ((sends.length : Int) * in_n * stride + 1) : Option (List T))
      = some (List.replicate ((sends.length : Int) * in_n * stride + 1).toNat default) := by
    simp only [alloc]
    rw [if_pos ⟨by rw [mul_assoc]; omega, hheap⟩]
  have hx := MPI_Allgatherv_wire comm in_values (in_n * stride)
    (List.replicate ((sends.length : Int) * in_n * stride + 1).toNat (default : T))
    (List.map (fun (_ : Nat) => in_n * stride) (List.range sends.length))
    (List.map (fun (i : Nat) => (i : Int) * in_n * stride) (List.range sends.length)) sends hs
    (by
      intro k p hk
      have hlt : k < sends.length := getElem?_lt_length sends k p hk
      rw [List.getElem?_map, List.getElem?_range hlt]
      have hp : p ∈ sends := mem_of_getElem?_eq sends k p hk
      simp [(hsend p hp).1])
    (by
      intro k hk
      rw [List.getElem?_map, List.getElem?_range hk, hoff k (by omega)]
      simp [mul_assoc])
    hn (by
      rw [hoff _ (le_refl _), List.length_replicate, mul_assoc]
      omega)
  have hcp := memcpy_eq in_values
    (wire sends ++ List.drop (wire sends).length
      (List.replicate ((sends.length : Int) * in_n * stride + 1).toNat (default : T)))
    0 0 (wire sends).length (by rw [List.length_append]; omega) (by omega)
  rw [show ((0 : Nat) : Int) = 0 from rfl, hwl, ← mul_assoc] at hcp
  unfold detail.all_gatherc_impl
  simp only [hlen, Ptr.isAlias, Ptr.view, hS, gt_iff_lt, not_true_eq_false, if_false,
    if_true, hal, hx, hcp, List.take_zero, List.drop_zero, List.nil_append, zero_add,
    List.take_left]

/-- C21: the in-place constant size gather. When the input storage is the
output storage, a block of at least `P*N*S` items whose first `N*S` items are
the contribution of the rank, `all_gatherc_impl` returns normally after one
exchange, and the first `P*N*S` items of the block are then those the call
with a separate output block writes there: the rank-ordered concatenation of
the original contributions. The rest of the block is unchanged. -/
theorem in_place_constant_gather {T : Type} [Inhabited T] (heap : Heap)
    (calls : List (ConstArgs T)) (N S : Int) (rank : Nat) (c : ConstArgs T) (out : List T)
    (hS : 0 < S) (hN : 0 ≤ N)
    (hcalls : ∀ a ∈ calls, a.in_n = N ∧ a.stride = S ∧ N * S ≤ a.in_values.length)
    (hrank : calls[rank]? = some c)
    (hin : (calls.length : Int) * N * S ≤ c.in_values.length)
    (hout : (calls.length : Int) * N * S ≤ out.length)
    (hheap : heap ((calls.length : Int) * N * S + 1) = true) :
    ∃ cells : List T,
      detail.all_gatherc_impl heap (constant_round rank calls) c.in_values N .aliased S
        = ⟨none, cells, 1⟩
      ∧ cells.length = c.in_values.length
      ∧ cells.take ((calls.length : Int) * N * S).toNat
        = (detail.all_gatherc_impl heap (constant_round rank calls) c.in_values N (.buffer out)
            S).state.take ((calls.length : Int) * N * S).toNat
      ∧ cells.take ((calls.length : Int) * N * S).toNat
        = wire (calls.map fun a => (a.in_values, a.in_n * a.stride))
      ∧ cells.drop ((calls.length : Int) * N * S).toNat
        = c.in_values.drop ((calls.length : Int) * N * S).toNat := by
  obtain ⟨hcN, hcS, -⟩ := hcalls c (mem_of_getElem?_eq calls rank c hrank)
  have hs := constant_round_sends rank calls c hrank
  rw [hcN, hcS] at hs
  have hNS : 0 ≤ N * S := mul_nonneg hN (le_of_lt hS)
  have hsend : ∀ p ∈ calls.map (fun a => (a.in_values, a.in_n * a.stride)),
      p.2 = N * S ∧ N * S ≤ (p.1.length : Int) := by
    intro p hp
    obtain ⟨a, ha, rfl⟩ := List.mem_map.1 hp
    obtain ⟨h1, h2, h3⟩ := hcalls a ha
    simp only [h1, h2]
    exact ⟨trivial, h3⟩
  have hn : ∀ p ∈ calls.map (fun a => (a.in_values, a.in_n * a.stride)),
      0 ≤ p.2 ∧ p.2 ≤ (p.1.length : Int) := by
    intro p hp
    obtain ⟨h1, h2⟩ := hsend p hp
    omega
  have hwl := wire_length _ hn
  rw [← offset_length, offset_const _ (N * S) (fun p hp => (hsend p hp).1) _ (le_refl _),
    List.length_map, ← mul_assoc] at hwl
  have ha := all_gatherc_impl_aliased heap (constant_round rank calls) c.in_values N S
    (calls.map fun a => (a.in_values, a.in_n * a.stride)) hs hsend hS hNS
    (by rw [List.length_map, ← mul_assoc]; exact hin)
    (by rw [List.length_map]; exact hheap)
  have hb := all_gatherc_impl_buffer heap (constant_round rank calls) c.in_values N out S
    (calls.map fun a => (a.in_values, a.in_n * a.stride)) hs hsend hS hNS
    (by rw [List.length_map, ← mul_assoc]; exact hout)
  have htn : ((calls.length : Int) * N * S).toNat
      = (wire (calls.map fun a => (a.in_values, a.in_n * a.stride))).length := by
    omega
  refine ⟨_, ha, ?_, ?_, ?_, ?_⟩
  · simp only [List.length_append, List.length_drop]
    omega
  · rw [hb, htn, List.take_left, List.take_left]
  · rw [htn, List.take_left]
  · rw [htn, List.drop_left]

/-- C21 for three ranks, two elements of stride two each, in a block of
thirteen items. -/
theorem in_place_constant_gather_witness :
    ∃ cells : List Int,
      detail.all_gatherc_impl (fun _ => true)
          (constant_round 1 [⟨[1, 2, 3, 4], 2, 2⟩, ⟨[5, 6, 7, 8, 0, 0, 0, 0, 0, 0, 0, 0, 77], 2, 2⟩,
            ⟨[9, 10, 11, 12], 2, 2⟩])
          (⟨[5, 6, 7, 8, 0, 0, 0, 0, 0, 0, 0, 0, 77], 2, 2⟩ : ConstArgs Int).in_values 2 .aliased 2
        = ⟨none, cells, 1⟩
      ∧ cells.length
        = (⟨[5, 6, 7, 8, 0, 0, 0, 0, 0, 0, 0, 0, 77], 2, 2⟩ : ConstArgs Int).in_values.length
      ∧ cells.take (([(⟨[1, 2, 3, 4], 2, 2⟩ : ConstArgs Int),
            ⟨[5, 6, 7, 8, 0, 0, 0, 0, 0, 0, 0, 0, 77], 2, 2⟩,
            ⟨[9, 10, 11, 12], 2, 2⟩].length : Int) * 2 * 2).toNat
        = (detail.all_gatherc_impl (fun _ => true)
            (constant_round 1 [⟨[1, 2, 3, 4], 2, 2⟩,
              ⟨[5, 6, 7, 8, 0, 0, 0, 0, 0, 0, 0, 0, 77], 2, 2⟩, ⟨[9, 10, 11, 12], 2, 2⟩])
            (⟨[5, 6, 7, 8, 0, 0, 0, 0, 0, 0, 0, 0, 77], 2, 2⟩ : ConstArgs Int).in_values 2
            (.buffer (List.replicate 12 0)) 2).state.take
              (([(⟨[1, 2, 3, 4], 2, 2⟩ : ConstArgs Int),
                ⟨[5, 6, 7, 8, 0, 0, 0, 0, 0, 0, 0, 0, 77], 2, 2⟩,
                ⟨[9, 10, 11, 12], 2, 2⟩].length : Int) * 2 * 2).toNat
      ∧ cells.take (([(⟨[1, 2, 3, 4], 2, 2⟩ : ConstArgs Int),
            ⟨[5, 6, 7, 8, 0, 0, 0, 0, 0, 0, 0, 0, 77], 2, 2⟩,
            ⟨[9, 10, 11, 12], 2, 2⟩].length : Int) * 2 * 2).toNat
        = wire ([(⟨[1, 2, 3, 4], 2, 2⟩ : ConstArgs Int),
            ⟨[5, 6, 7, 8, 0, 0, 0, 0, 0, 0, 0, 0, 77], 2, 2⟩,
            ⟨[9, 10, 11, 12], 2, 2⟩].map fun a => (a.in_values, a.in_n * a.stride))
      ∧ cells.drop (([(⟨[1, 2, 3, 4], 2, 2⟩ : ConstArgs Int),
            ⟨[5, 6, 7, 8, 0, 0, 0, 0, 0, 0, 0, 0, 77], 2, 2⟩,
            ⟨[9, 10, 11, 12], 2, 2⟩].length : Int) * 2 * 2).toNat
        = (⟨[5, 6, 7, 8, 0, 0, 0, 0, 0, 0, 0, 0, 77], 2, 2⟩ : ConstArgs Int).in_values.drop
            (([(⟨[1, 2, 3, 4], 2, 2⟩ : ConstArgs Int),
              ⟨[5, 6, 7, 8, 0, 0, 0, 0, 0, 0, 0, 0, 77], 2, 2⟩,
              ⟨[9, 10, 11, 12], 2, 2⟩].length : Int) * 2 * 2).toNat :=
  in_place_constant_gather (fun _ => true)
    [⟨[1, 2, 3, 4], 2, 2⟩, ⟨[5, 6, 7, 8, 0, 0, 0, 0, 0, 0, 0, 0, 77], 2, 2⟩,
      ⟨[9, 10, 11, 12], 2, 2⟩] 2 2 1
    ⟨[5, 6, 7, 8, 0, 0, 0, 0, 0, 0, 0, 0, 77], 2, 2⟩ (List.replicate 12 0)
    (by decide) (by decide) (by decide) (by decide) (by decide) (by decide) rfl

/-- The in-place constant size gather at a concrete input. -/
theorem in_place_constant_example :
    detail.all_gatherc_impl (fun _ => true)
        (constant_round 1 [⟨[1, 2, 3, 4], 2, 2⟩, ⟨[5, 6, 7, 8, 0, 0, 0, 0, 0, 0, 0, 0, 77], 2, 2⟩,
          ⟨[9, 10, 11, 12], 2, 2⟩])
        [5, 6, 7, 8, 0, 0, 0, 0, 0, 0, 0, 0, 77] 2 .aliased 2
      = ⟨none, [1, 2, 3, 4, 5, 6, 7, 8, 9, 10, 11, 12, 77], 1⟩ := by
  decide

theorem staged_wire_length {T : Type} [Inhabited T] (heap : Heap) (calls : List (SendArgs T))
    (out_n : List Int) (S : Int) (hS : 0 < S)
    (hpeers : ∀ a ∈ calls, a.stride = S ∧ 0 ≤ a.in_n ∧
      ∃ b, detail.in_buf heap a.in_values a.in_n a.in_map a.stride = .ok b
        ∧ S * a.in_n ≤ b.length)
    (htable : ∀ (k : Nat) (a : SendArgs T), calls[k]? = some a → out_n[k]? = some a.in_n) :
    ((wire (staged_sends heap calls)).length : Int) = S * (out_n.take calls.length).sum
    ∧ 0 ≤ (out_n.take calls.length).sum := by
  obtain ⟨-, h2, -, h4, h5⟩ := staged_sends_facts heap calls out_n S hS hpeers htable
  refine ⟨?_, h4⟩
  rw [wire_length _ h2, ← h5]
  simp only [offset, List.take_length]

/-- C22: the in-place variable size gather. With or without a send map, no
receive map, and receive counts equal to what the ranks send: when the input
storage is the output storage, `all_gathervm_impl` returns normally after one
exchange, and the first `S * sum(out_n)` items of the block are those the call
with the same input and a separate output block produces: the wire-order
content built from the original inputs. The rest of the block is unchanged. -/
theorem in_place_variable_gather {T : Type} [Inhabited T] (heap : Heap)
    (calls : List (SendArgs T)) (rank : Nat) (c : SendArgs T) (out_n : List Int) (S : Int)
    (out : List T) (hS : 0 < S) (hrank : calls[rank]? = some c)
    (hpeers : ∀ a ∈ calls, a.stride = S ∧ 0 ≤ a.in_n ∧
      ∃ b, detail.in_buf heap a.in_values a.in_n a.in_map a.stride = .ok b
        ∧ S * a.in_n ≤ b.length)
    (htable : ∀ (k : Nat) (a : SendArgs T), calls[k]? = some a → out_n[k]? = some a.in_n)
    (hin : S * (out_n.take calls.length).sum ≤ c.in_values.length)
    (hout : S * (out_n.take calls.length).sum ≤ out.length)
    (hheap : heap (S * (out_n.take calls.length).sum + 1) = true) :
    ∃ cells : List T,
      detail.all_gathervm_impl heap ((group rank calls).data_round heap) c.in_values c.in_n
          c.in_map .aliased out_n none S = ⟨none, cells, 1⟩
      ∧ cells.length = c.in_values.length
      ∧ cells.take (S * (out_n.take calls.length).sum).toNat
        = (detail.all_gathervm_impl heap ((group rank calls).data_round heap) c.in_values c.in_n
            c.in_map (.buffer out) out_n none S).state.take
              (S * (out_n.take calls.length).sum).toNat
      ∧ cells.take (S * (out_n.take calls.length).sum).toNat = wire (staged_sends heap calls)
      ∧ cells.drop (S * (out_n.take calls.length).sum).toNat
        = c.in_values.drop (S * (out_n.take calls.length).sum).toNat := by
  obtain ⟨hwl, hnn⟩ := staged_wire_length heap calls out_n S hS hpeers htable
  have ha := all_gathervm_impl_wire heap calls rank c .aliased out_n S hS hrank hpeers htable
    hin (fun _ => hheap)
  have hb := all_gathervm_impl_wire heap calls rank c (.buffer out) out_n S hS hrank hpeers
    htable hout (by intro h; cases h)
  simp only [Ptr.view] at ha hb
  have htn : (S * (out_n.take calls.length).sum).toNat
      = (wire (staged_sends heap calls)).length := by
    omega
  refine ⟨_, ha, ?_, ?_, ?_, ?_⟩
  · simp only [List.length_append, List.length_drop]
    omega
  · rw [hb, htn, List.take_left, List.take_left]
  · rw [htn, List.take_left]
  · rw [htn, List.drop_left]

/-- C22 for two ranks of stride 1, rank 0 sending through the send map
`[1, 0]` from the block it receives into. -/
theorem in_place_variable_gather_witness :
    ∃ cells : List Int,
      detail.all_gathervm_impl (fun _ => true)
          ((group 0 [(⟨[5, 6, 0, 77], 2, some [1, 0], 1⟩ : SendArgs Int),
            ⟨[9], 1, none, 1⟩]).data_round (fun _ => true))
          (⟨[5, 6, 0, 77], 2, some [1, 0], 1⟩ : SendArgs Int).in_values
          (⟨[5, 6, 0, 77], 2, some [1, 0], 1⟩ : SendArgs Int).in_n
          (⟨[5, 6, 0, 77], 2, some [1, 0], 1⟩ : SendArgs Int).in_map .aliased [2, 1] none 1
        = ⟨none, cells, 1⟩
      ∧ cells.length = (⟨[5, 6, 0, 77], 2, some [1, 0], 1⟩ : SendArgs Int).in_values.length
      ∧ cells.take ((1 : Int) * (([2, 1] : List Int).take
            [(⟨[5, 6, 0, 77], 2, some [1, 0], 1⟩ : SendArgs Int),
              ⟨[9], 1, none, 1⟩].length).sum).toNat
        = (detail.all_gathervm_impl (fun _ => true)
            ((group 0 [(⟨[5, 6, 0, 77], 2, some [1, 0], 1⟩ : SendArgs Int),
              ⟨[9], 1, none, 1⟩]).data_round (fun _ => true))
            (⟨[5, 6, 0, 77], 2, some [1, 0], 1⟩ : SendArgs Int).in_values
            (⟨[5, 6, 0, 77], 2, some [1, 0], 1⟩ : SendArgs Int).in_n
            (⟨[5, 6, 0, 77], 2, some [1, 0], 1⟩ : SendArgs Int).in_map
            (.buffer [0, 0, 0]) [2, 1] none 1).state.take
              ((1 : Int) * (([2, 1] : List Int).take
                [(⟨[5, 6, 0, 77], 2, some [1, 0], 1⟩ : SendArgs Int),
                  ⟨[9], 1, none, 1⟩].length).sum).toNat
      ∧ cells.take ((1 : Int) * (([2, 1] : List Int).take
            [(⟨[5, 6, 0, 77], 2, some [1, 0], 1⟩ : SendArgs Int),
              ⟨[9], 1, none, 1⟩].length).sum).toNat
        = wire (staged_sends (fun _ => true)
            [(⟨[5, 6, 0, 77], 2, some [1, 0], 1⟩ : SendArgs Int), ⟨[9], 1, none, 1⟩])
      ∧ cells.drop ((1 : Int) * (([2, 1] : List Int).take
            [(⟨[5, 6, 0, 77], 2, some [1, 0], 1⟩ : SendArgs Int),
              ⟨[9], 1, none, 1⟩].length).sum).toNat
        = (⟨[5, 6, 0, 77], 2, some [1, 0], 1⟩ : SendArgs Int).in_values.drop
            ((1 : Int) * (([2, 1] : List Int).take
              [(⟨[5, 6, 0, 77], 2, some [1, 0], 1⟩ : SendArgs Int),
                ⟨[9], 1, none, 1⟩].length).sum).toNat :=
  in_place_variable_gather (fun _ => true)
    [(⟨[5, 6, 0, 77], 2, some [1, 0], 1⟩ : SendArgs Int), ⟨[9], 1, none, 1⟩] 0
    ⟨[5, 6, 0, 77], 2, some [1, 0], 1⟩ [2, 1] 1 [0, 0, 0] (by decide) (by decide)
    (by
      intro a ha
      simp only [List.mem_cons, List.mem_singleton, List.not_mem_nil, or_false] at ha
      rcases ha with rfl | rfl
      · exact ⟨rfl, by decide, [6, 5, 0], rfl, by decide⟩
      · exact ⟨rfl, by decide, _, rfl, by decide⟩)
    (by
      intro k a hk
      match k, hk with
      | 0, hk => cases hk; rfl
      | 1, hk => cases hk; rfl
      | n + 2, hk => cases hk)
    (by decide) (by decide) rfl

/-- The in-place variable size gather through a send map at a concrete
input. -/
theorem in_place_variable_example :
    detail.all_gathervm_impl (fun _ => true)
        ((group 0 [(⟨[5, 6, 0, 77], 2, some [1, 0], 1⟩ : SendArgs Int),
          ⟨[9], 1, none, 1⟩]).data_round (fun _ => true))
        [5, 6, 0, 77] 2 (some [1, 0]) .aliased [2, 1] none 1
      = ⟨none, [6, 5, 9, 77], 1⟩ := by
  decide


/-! ## Allocation failures and the number of rounds -/

/-- The constant size implementation invokes the exchange once when it
returns normally and not at all when an allocation fails. -/
theorem all_gatherc_impl_rounds {T : Type} [Inhabited T] (heap : Heap)
    (comm : Communicator T) (in_values : List T) (in_n : Int) (out_values : Ptr T)
    (stride : Int) :
    ((detail.all_gatherc_impl heap comm in_values in_n out_values stride).fault
        = some .NotEnoughMemory →
      (detail.all_gatherc_impl heap comm in_values in_n out_values stride).rounds = 0)
    ∧ ((detail.all_gatherc_impl heap comm in_values in_n out_values stride).fault = none →
      (detail.all_gatherc_impl heap comm in_values in_n out_values stride).rounds = 1)
    ∧ (detail.all_gatherc_impl heap comm in_values in_n out_values stride).rounds ≤ 1 := by
  unfold detail.all_gatherc_impl
  simp only
  split
  · simp
  · split
    · simp
    · split
      · simp
      · split
        · split <;> simp
        · simp

theorem all_gatherc_impl_buffer_fault {T : Type} [Inhabited T] (heap : Heap)
    (comm : Communicator T) (in_values : List T) (in_n : Int) (out : List T) (stride : Int) :
    (detail.all_gatherc_impl heap comm in_values in_n (.buffer out) stride).fault
      ≠ some .NotEnoughMemory := by
  unfold detail.all_gatherc_impl
  simp only [Ptr.isAlias, Bool.false_eq_true, if_false, Ptr.view]
  split
  · simp
  · split <;> simp

/-- The variable size implementation invokes the exchange once when it returns
normally and not at all when an allocation fails. -/
theorem all_gathervm_impl_rounds {T : Type} [Inhabited T] (heap : Heap) (comm : Communicator T)
    (in_values : List T) (in_n : Int) (in_map : Option (List Int)) (out_values : Ptr T)
    (out_n : List Int) (out_map : Option (List Int)) (stride : Int) :
    ((detail.all_gathervm_impl heap comm in_values in_n in_map out_values out_n out_map
        stride).fault = some .NotEnoughMemory →
      (detail.all_gathervm_impl heap comm in_values in_n in_map out_values out_n out_map
        stride).rounds = 0)
    ∧ ((detail.all_gathervm_impl heap comm in_values in_n in_map out_values out_n out_map
        stride).fault = none →
      (detail.all_gathervm_impl heap comm in_values in_n in_map out_values out_n out_map
        stride).rounds = 1) := by
  unfold detail.all_gathervm_impl
  simp only
  split
  · simp
  · split
    · simp
    · split
      · simp
      · split
        · simp
        · split
          · simp
          · split
            · simp
            · split
              · split <;> simp
              · split
                · split <;> simp
                · simp

theorem negotiate_rounds {T : Type} (heap : Heap) (g : Group T) (in_n : Int)
    (out_n : List Int) (out_map : Option (List Int)) :
    (negotiate heap g in_n out_n out_map).fault ≠ some .NotEnoughMemory
    ∧ (negotiate heap g in_n out_n out_map).rounds ≤ 1
    ∧ (sum_out_n g.calls.length out_n ≠ some (int32 (-(g.calls.length : Int))) →
        (negotiate heap g in_n out_n out_map).rounds = 0)
    ∧ ((negotiate heap g in_n out_n out_map).fault = none →
        (negotiate heap g in_n out_n out_map).rounds
          = if sum_out_n g.calls.length out_n = some (int32 (-(g.calls.length : Int)))
            then 1 else 0) := by
  have h1 := all_gatherc_impl_rounds heap g.count_round [in_n] 1 (.buffer out_n) 1
  have h2 := all_gatherc_impl_buffer_fault heap g.count_round [in_n] 1 out_n 1
  cases hs : sum_out_n g.calls.length out_n with
  | none => simp [negotiate, hs]
  | some s =>
    by_cases hsent : s = int32 (-(g.calls.length : Int))
    · subst hsent
      cases hm : out_map.isSome with
      | true => simp [negotiate, hs, hm]
      | false =>
        simp only [negotiate, hs, hm, if_true, Bool.false_eq_true, if_false]
        split
        · rename_i f hf
          rw [hf] at h2
          exact ⟨by simpa using h2, h1.2.2, by simp, by simp⟩
        · rename_i hf
          split
          · simp [h1.2.2]
          · simp [h1.2.1 hf]
    · simp [negotiate, hs, hsent]

theorem all_gather_const_raw_rounds {T : Type} [Inhabited T] (heap : Heap)
    (comm : Communicator T) (in_values : List T) (in_n : Int) (out_values : Ptr T)
    (stride : Int) :
    ((all_gather_const_raw heap comm in_values in_n out_values stride).fault
        = some .NotEnoughMemory →
      (all_gather_const_raw heap comm in_values in_n out_values stride).rounds = 0)
    ∧ ((all_gather_const_raw heap comm in_values in_n out_values stride).fault = none →
      (all_gather_const_raw heap comm in_values in_n out_values stride).rounds = 1) := by
  unfold all_gather_const_raw
  simp only
  split
  · simp
  · rename_i ob fresh _
    have h := all_gatherc_impl_rounds heap comm in_values in_n ob stride
    exact ⟨h.1, h.2.1⟩

theorem all_gather_const_vector_rounds {T : Type} [Inhabited T] (heap : Heap)
    (comm : Communicator T) (in_values : List T) (out_values : OutVec T) (stride : Int) :
    ((all_gather_const_vector heap comm in_values out_values stride).fault
        = some .NotEnoughMemory →
      (all_gather_const_vector heap comm in_values out_values stride).rounds = 0)
    ∧ ((all_gather_const_vector heap comm in_values out_values stride).fault = none →
      (all_gather_const_vector heap comm in_values out_values stride).rounds = 1) := by
  unfold all_gather_const_vector
  simp only
  split
  · simp
  · split
    · simp
    · rename_i cells _
      cases out_values with
      | self =>
        have h := all_gatherc_impl_rounds heap comm cells
          ((in_values.length : Int).tdiv stride) .aliased stride
        exact ⟨h.1, h.2.1⟩
      | vec c =>
        have h := all_gatherc_impl_rounds heap comm in_values
          ((in_values.length : Int).tdiv stride) (.buffer cells) stride
        exact ⟨h.1, h.2.1⟩

theorem all_gather_scalar_rounds {T : Type} [Inhabited T] (heap : Heap)
    (comm : Communicator T) (in_value : T) (out_values : List T) :
    ((all_gather_scalar heap comm in_value out_values).fault = some .NotEnoughMemory →
      (all_gather_scalar heap comm in_value out_values).rounds = 0)
    ∧ ((all_gather_scalar heap comm in_value out_values).fault = none →
      (all_gather_scalar heap comm in_value out_values).rounds = 1) := by
  unfold all_gather_scalar
  simp only
  split
  · simp
  · rename_i cells _
    have h := all_gatherc_impl_rounds heap comm [in_value] 1 (.buffer cells) 1
    exact ⟨h.1, h.2.1⟩

/-- The rounds of the mapped raw-pointer all_gather: those of the pre
communication, plus the data exchange when the call returns normally. -/
theorem all_gather_mapped_raw_rounds {T : Type} [Inhabited T] (heap : Heap) (g : Group T)
    (in_values : List T) (in_n : Int) (in_map : Option (List Int)) (out_values : Ptr T)
    (out_n : List Int) (out_map : Option (List Int)) (stride : Int) :
    ((all_gather_mapped_raw heap g in_values in_n in_map out_values out_n out_map stride).fault
        = some .NotEnoughMemory →
      (all_gather_mapped_raw heap g in_values in_n in_map out_values out_n out_map
        stride).rounds = (negotiate heap g in_n out_n out_map).rounds)
    ∧ ((all_gather_mapped_raw heap g in_values in_n in_map out_values out_n out_map
        stride).fault = none →
      (all_gather_mapped_raw heap g in_values in_n in_map out_values out_n out_map
        stride).rounds
        = if sum_out_n g.calls.length out_n = some (int32 (-(g.calls.length : Int)))
          then 2 else 1) := by
  have hn := negotiate_rounds heap g in_n out_n out_map
  unfold all_gather_mapped_raw
  simp only
  split
  · simp
  · rename_i hf
    split
    · simp
    · rename_i ob fresh _
      have h := all_gathervm_impl_rounds heap (g.data_round heap) in_values in_n in_map ob
        (negotiate heap g in_n out_n out_map).state.1 out_map stride
      refine ⟨fun hx => ?_, fun hx => ?_⟩
      · show _ + _ = _
        rw [h.1 hx, Nat.add_zero]
      · show _ + _ = _
        rw [h.2 hx, hn.2.2.2 hf]
        split <;> rfl

/-- The rounds of the mapped std::vector all_gather. -/
theorem all_gather_mapped_vector_rounds {T : Type} [Inhabited T] (heap : Heap) (g : Group T)
    (in_values : List T) (in_n : Int) (in_map : List Int) (out_values : OutVec T)
    (out_n : List Int) (out_map : List Int) (stride : Int) :
    ((all_gather_mapped_vector heap g in_values in_n in_map out_values out_n out_map
        stride).fault = some .NotEnoughMemory →
      (all_gather_mapped_vector heap g in_values in_n in_map out_values out_n out_map
        stride).rounds ≤ 1
      ∧ (int32 out_n.sum ≠ int32 (-(g.calls.length : Int)) →
        (all_gather_mapped_vector heap g in_values in_n in_map out_values out_n out_map
          stride).rounds = 0))
    ∧ ((all_gather_mapped_vector heap g in_values in_n in_map out_values out_n out_map
        stride).fault = none →
      (all_gather_mapped_vector heap g in_values in_n in_map out_values out_n out_map
        stride).rounds
        = if int32 out_n.sum = int32 (-(g.calls.length : Int)) then 2 else 1) := by
  have h1 := all_gatherc_impl_rounds heap g.count_round [in_n] 1 (.buffer out_n) 1
  have h2 := all_gatherc_impl_buffer_fault heap g.count_round [in_n] 1 out_n 1
  have himpl : ∀ (iv : List T) (p : Ptr T) (t : List Int),
      ((detail.all_gathervm_impl heap (g.data_round heap) iv in_n (map_pointer in_map) p t
          (map_pointer out_map) stride).fault = some .NotEnoughMemory →
        (detail.all_gathervm_impl heap (g.data_round heap) iv in_n (map_pointer in_map) p t
          (map_pointer out_map) stride).rounds = 0)
      ∧ ((detail.all_gathervm_impl heap (g.data_round heap) iv in_n (map_pointer in_map) p t
          (map_pointer out_map) stride).fault = none →
        (detail.all_gathervm_impl heap (g.data_round heap) iv in_n (map_pointer in_map) p t
          (map_pointer out_map) stride).rounds = 1) :=
    fun iv p t => all_gathervm_impl_rounds heap _ iv in_n _ p t _ stride
  unfold all_gather_mapped_vector
  simp only [foldl_add_eq_sum]
  by_cases hs : int32 out_n.sum = int32 (-(g.calls.length : Int))
  · simp only [if_pos hs]
    by_cases hm : out_map.length ≠ 0
    · simp [hm]
    · simp only [if_neg hm]
      split
      · rename_i f hf
        refine ⟨fun hx => ?_, fun hx => by cases hx⟩
        simp only [Option.some.injEq] at hx
        subst hx
        exact absurd hf h2
      · rename_i hf
        split
        · refine ⟨fun _ => ⟨h1.2.2, fun hne => absurd hs hne⟩, fun hx => by cases hx⟩
        · cases out_values with
          | self =>
            refine ⟨fun hx => ?_, fun hx => ?_⟩
            · have := (himpl _ _ _).1 hx
              refine ⟨?_, fun hne => absurd hs hne⟩
              show _ + _ ≤ 1
              rw [this]
              exact h1.2.2
            · have := (himpl _ _ _).2 hx
              show _ + _ = 2
              rw [this, h1.2.1 hf]
          | vec c =>
            refine ⟨fun hx => ?_, fun hx => ?_⟩
            · have := (himpl _ _ _).1 hx
              refine ⟨?_, fun hne => absurd hs hne⟩
              show _ + _ ≤ 1
              rw [this]
              exact h1.2.2
            · have := (himpl _ _ _).2 hx
              show _ + _ = 2
              rw [this, h1.2.1 hf]
  · simp only [if_neg hs]
    split
    · simp
    · cases out_values with
      | self =>
        refine ⟨fun hx => ?_, fun hx => ?_⟩
        · have := (himpl _ _ _).1 hx
          refine ⟨?_, fun _ => ?_⟩
          · show 0 + _ ≤ 1
            rw [this]
            decide
          · show 0 + _ = 0
            rw [this]
        · have := (himpl _ _ _).2 hx
          show 0 + _ = 1
          rw [this]
      | vec c =>
        refine ⟨fun hx => ?_, fun hx => ?_⟩
        · have := (himpl _ _ _).1 hx
          refine ⟨?_, fun _ => ?_⟩
          · show 0 + _ ≤ 1
            rw [this]
            decide
          · show 0 + _ = 0
            rw [this]
        · have := (himpl _ _ _).2 hx
          show 0 + _ = 1
          rw [this]

/-- C23, as stated, fails for the very call it names: the variable size
raw-pointer all_gather entered with the null pointer and `out_n` all -1 first
negotiates the counts (one exchange) and only then allocates the output; when
that allocation is refused the transport has been invoked once. -/
theorem allocation_after_negotiation_counterexample :
    all_gather_mapped_raw (fun _ => false) (group 0 [(⟨[5], 1, none, 1⟩ : SendArgs Int)])
        [5] 1 none .null [-1] none 1
      = ⟨some .NotEnoughMemory, ⟨⟨[], false⟩, [1]⟩, 1⟩
    ∧ (all_gather_mapped_raw (fun _ => false) (group 0 [(⟨[5], 1, none, 1⟩ : SendArgs Int)])
        [5] 1 none .null [-1] none 1).rounds ≠ 0 := by
  decide

/-- C23, amended: an allocation failure precedes the data exchange. In every
call shape, a call that fails because an output or staging buffer could not be
allocated has not invoked the data exchange: the implementations and the
constant size shapes have not invoked the transport at all, and a variable
size all_gather has invoked it only for the pre communication of the counts,
that is not at all unless `out_n` was recognised as the sentinel (its `int`
sum equals `-nproc`). -/
theorem allocation_failure_precedes_exchange {T : Type} [Inhabited T] (heap : Heap)
    (comm : Communicator T) (g : Group T) (in_values : List T) (in_value : T) (in_n : Int)
    (in_map : Option (List Int)) (in_map_vector : List Int) (out_values : Ptr T)
    (out_vector : OutVec T) (out_cells : List T) (out_n : List Int)
    (out_map : Option (List Int)) (out_map_vector : List Int) (stride : Int) :
    ((detail.all_gatherc_impl heap comm in_values in_n out_values stride).fault
        = some .NotEnoughMemory →
      (detail.all_gatherc_impl heap comm in_values in_n out_values stride).rounds = 0)
    ∧ ((detail.all_gathervm_impl heap comm in_values in_n in_map out_values out_n out_map
        stride).fault = some .NotEnoughMemory →
      (detail.all_gathervm_impl heap comm in_values in_n in_map out_values out_n out_map
        stride).rounds = 0)
    ∧ ((all_gather_const_raw heap comm in_values in_n out_values stride).fault
        = some .NotEnoughMemory →
      (all_gather_const_raw heap comm in_values in_n out_values stride).rounds = 0)
    ∧ ((all_gather_const_vector heap comm in_values out_vector stride).fault
        = some .NotEnoughMemory →
      (all_gather_const_vector heap comm in_values out_vector stride).rounds = 0)
    ∧ ((all_gather_scalar heap comm in_value out_cells).fault = some .NotEnoughMemory →
      (all_gather_scalar heap comm in_value out_cells).rounds = 0)
    ∧ ((all_gather_mapped_raw heap g in_values in_n in_map out_values out_n out_map
        stride).fault = some .NotEnoughMemory →
      (all_gather_mapped_raw heap g in_values in_n in_map out_values out_n out_map
          stride).rounds = (negotiate heap g in_n out_n out_map).rounds
      ∧ (all_gather_mapped_raw heap g in_values in_n in_map out_values out_n out_map
          stride).rounds ≤ 1
      ∧ (sum_out_n g.calls.length out_n ≠ some (int32 (-(g.calls.length : Int))) →
        (all_gather_mapped_raw heap g in_values in_n in_map out_values out_n out_map
          stride).rounds = 0))
    ∧ ((all_gather_mapped_vector heap g in_values in_n in_map_vector out_vector out_n
        out_map_vector stride).fault = some .NotEnoughMemory →
      (all_gather_mapped_vector heap g in_values in_n in_map_vector out_vector out_n
          out_map_vector stride).rounds ≤ 1
      ∧ (int32 out_n.sum ≠ int32 (-(g.calls.length : Int)) →
        (all_gather_mapped_vector heap g in_values in_n in_map_vector out_vector out_n
          out_map_vector stride).rounds = 0)) := by
  have hn := negotiate_rounds heap g in_n out_n out_map
  refine ⟨(all_gatherc_impl_rounds heap comm in_values in_n out_values stride).1,
    (all_gathervm_impl_rounds heap comm in_values in_n in_map out_values out_n out_map
      stride).1,
    (all_gather_const_raw_rounds heap comm in_values in_n out_values stride).1,
    (all_gather_const_vector_rounds heap comm in_values out_vector stride).1,
    (all_gather_scalar_rounds heap comm in_value out_cells).1, ?_,
    (all_gather_mapped_vector_rounds heap g in_values in_n in_map_vector out_vector out_n
      out_map_vector stride).1⟩
  intro hx
  have h := (all_gather_mapped_raw_rounds heap g in_values in_n in_map out_values out_n out_map
    stride).1 hx
  refine ⟨h, by rw [h]; exact hn.2.1, fun hne => by rw [h]; exact hn.2.2.1 hne⟩

/-- C23 (amended) at a call whose allocations are all refused: the raw-pointer
shape entered with the null pointer and the sentinel fails after the pre
communication, before the data exchange. -/
theorem allocation_failure_precedes_exchange_witness :
    (all_gather_mapped_raw (fun _ => false) (group 0 [(⟨[5], 1, none, 1⟩ : SendArgs Int)])
        [5] 1 none .null [-1] none 1).fault = some .NotEnoughMemory
    ∧ (((detail.all_gatherc_impl (fun _ => false)
          (constant_round 0 [(⟨[5], 1, 1⟩ : ConstArgs Int)]) [5] 1 .null 1).fault
        = some .NotEnoughMemory →
      (detail.all_gatherc_impl (fun _ => false)
          (constant_round 0 [(⟨[5], 1, 1⟩ : ConstArgs Int)]) [5] 1 .null 1).rounds = 0)
    ∧ ((detail.all_gathervm_impl (fun _ => false)
          (constant_round 0 [(⟨[5], 1, 1⟩ : ConstArgs Int)]) [5] 1 none .null [-1] none
        1).fault = some .NotEnoughMemory →
      (detail.all_gathervm_impl (fun _ => false)
          (constant_round 0 [(⟨[5], 1, 1⟩ : ConstArgs Int)]) [5] 1 none .null [-1] none
        1).rounds = 0)
    ∧ ((all_gather_const_raw (fun _ => false)
          (constant_round 0 [(⟨[5], 1, 1⟩ : ConstArgs Int)]) [5] 1 .null 1).fault
        = some .NotEnoughMemory →
      (all_gather_const_raw (fun _ => false)
          (constant_round 0 [(⟨[5], 1, 1⟩ : ConstArgs Int)]) [5] 1 .null 1).rounds = 0)
    ∧ ((all_gather_const_vector (fun _ => false)
          (constant_round 0 [(⟨[5], 1, 1⟩ : ConstArgs Int)]) [5] (.vec []) 1).fault
        = some .NotEnoughMemory →
      (all_gather_const_vector (fun _ => false)
          (constant_round 0 [(⟨[5], 1, 1⟩ : ConstArgs Int)]) [5] (.vec []) 1).rounds = 0)
    ∧ ((all_gather_scalar (fun _ => false)
          (constant_round 0 [(⟨[5], 1, 1⟩ : ConstArgs Int)]) 5 []).fault
        = some .NotEnoughMemory →
      (all_gather_scalar (fun _ => false)
          (constant_round 0 [(⟨[5], 1, 1⟩ : ConstArgs Int)]) 5 []).rounds = 0)
    ∧ ((all_gather_mapped_raw (fun _ => false) (group 0 [(⟨[5], 1, none, 1⟩ : SendArgs Int)])
        [5] 1 none .null [-1] none 1).fault = some .NotEnoughMemory →
      (all_gather_mapped_raw (fun _ => false) (group 0 [(⟨[5], 1, none, 1⟩ : SendArgs Int)])
          [5] 1 none .null [-1] none 1).rounds
        = (negotiate (fun _ => false) (group 0 [(⟨[5], 1, none, 1⟩ : SendArgs Int)]) 1 [-1]
            none).rounds
      ∧ (all_gather_mapped_raw (fun _ => false) (group 0 [(⟨[5], 1, none, 1⟩ : SendArgs Int)])
          [5] 1 none .null [-1] none 1).rounds ≤ 1
      ∧ (sum_out_n (group 0 [(⟨[5], 1, none, 1⟩ : SendArgs Int)]).calls.length [-1]
          ≠ some (int32 (-((group 0 [(⟨[5], 1, none, 1⟩ : SendArgs Int)]).calls.length : Int))) →
        (all_gather_mapped_raw (fun _ => false) (group 0 [(⟨[5], 1, none, 1⟩ : SendArgs Int)])
          [5] 1 none .null [-1] none 1).rounds = 0))
    ∧ ((all_gather_mapped_vector (fun _ => false)
          (group 0 [(⟨[5], 1, none, 1⟩ : SendArgs Int)]) [5] 1 [] (.vec []) [-1] [] 1).fault
        = some .NotEnoughMemory →
      (all_gather_mapped_vector (fun _ => false)
          (group 0 [(⟨[5], 1, none, 1⟩ : SendArgs Int)]) [5] 1 [] (.vec []) [-1] [] 1).rounds ≤ 1
      ∧ (int32 ([-1] : List Int).sum
          ≠ int32 (-((group 0 [(⟨[5], 1, none, 1⟩ : SendArgs Int)]).calls.length : Int)) →
        (all_gather_mapped_vector (fun _ => false)
          (group 0 [(⟨[5], 1, none, 1⟩ : SendArgs Int)]) [5] 1 [] (.vec []) [-1] [] 1).rounds
          = 0))) :=
  ⟨by decide,
    allocation_failure_precedes_exchange (fun _ => false)
      (constant_round 0 [(⟨[5], 1, 1⟩ : ConstArgs Int)])
      (group 0 [(⟨[5], 1, none, 1⟩ : SendArgs Int)]) [5] 5 1 none [] .null (.vec []) []
      [-1] none [] 1⟩

theorem sum_eq_neg_length_iff (l : List Int) (h : ∀ x ∈ l, -1 ≤ x) :
    l.sum = -(l.length : Int) ↔ ∀ x ∈ l, x = -1 := by
  constructor
  · exact (sum_ge_neg_length l h).2
  · intro hall
    have e : l = List.replicate l.length (-1) := List.eq_replicate_iff.2 ⟨rfl, hall⟩
    rw [e, sum_sentinel, List.length_replicate]

/-- For a table of `P` entries, none below -1, whose sum is a value of type
`int`, the test of the `int` sum against `-P` holds exactly for the table of
-1. -/
theorem sentinel_test_iff (P : Nat) (out_n : List Int) (hlen : out_n.length = P)
    (hge : ∀ x ∈ out_n, -1 ≤ x)
    (hint : (P : Int) ≤ 2147483647 ∧ out_n.sum ≤ 2147483647) :
    int32 out_n.sum = int32 (-(P : Int)) ↔ ∀ x ∈ out_n, x = -1 := by
  have h1 := (sum_ge_neg_length out_n hge).1
  rw [hlen] at h1
  rw [← sum_eq_neg_length_iff out_n hge, hlen]
  unfold int32
  omega

/-- C25, as stated, fails for a table that is not all -1 but whose `int` sum
is `-P`. Two ranks, `out_n = [1, -3]`: both shapes complete without error
after two invocations of the transport. Two ranks,
`out_n = [2147483647, 2147483647]`, no entry below -1: the `int` sum is -2, and
again both shapes complete after two invocations. -/
theorem rounds_counterexample :
    (([1, -3] : List Int) ≠ List.replicate 2 (-1)
      ∧ all_gather_var_raw (fun _ => true)
          (group 0 [(⟨[7], 1, none, 1⟩ : SendArgs Int), ⟨[8], 1, none, 1⟩]) [7] 1
          (.buffer [0, 0]) [1, -3] 1
        = ⟨none, ⟨⟨[7, 8], false⟩, [1, 1]⟩, 2⟩
      ∧ all_gather_var_vector (fun _ => true)
          (group 0 [(⟨[7], 1, none, 1⟩ : SendArgs Int), ⟨[8], 1, none, 1⟩]) [7] 1
          (.vec [0, 0]) [1, -3] 1
        = ⟨none, ⟨[7, 8], [1, 1]⟩, 2⟩)
    ∧ (([2147483647, 2147483647] : List Int) ≠ List.replicate 2 (-1)
      ∧ all_gather_var_raw (fun _ => true)
          (group 0 [(⟨[7], 1, none, 1⟩ : SendArgs Int), ⟨[8], 1, none, 1⟩]) [7] 1
          (.buffer [0, 0]) [2147483647, 2147483647] 1
        = ⟨none, ⟨⟨[7, 8], false⟩, [1, 1]⟩, 2⟩
      ∧ all_gather_var_vector (fun _ => true)
          (group 0 [(⟨[7], 1, none, 1⟩ : SendArgs Int), ⟨[8], 1, none, 1⟩]) [7] 1
          (.vec [0, 0]) [2147483647, 2147483647] 1
        = ⟨none, ⟨[7, 8], [1, 1]⟩, 2⟩) := by
  decide

/-- C25, amended: the number of collective rounds. For a table `out_n` of `P`
entries that are all at least -1 and whose sum does not exceed `INT_MAX` (nor
does `P`), a variable size all_gather (raw pointers or std::vector, with or
without maps) that completes without error has invoked the transport exactly
twice when `out_n` was all -1 on entry and exactly once otherwise; every
constant size all_gather that completes without error has invoked it exactly
once. -/
theorem rounds_of_a_gather {T : Type} [Inhabited T] (heap : Heap)
    (comm : Communicator T) (g : Group T) (in_values : List T) (in_value : T) (in_n : Int)
    (in_map : Option (List Int)) (in_map_vector : List Int) (out_values : Ptr T)
    (out_vector : OutVec T) (out_cells : List T) (out_n : List Int)
    (out_map : Option (List Int)) (out_map_vector : List Int) (stride : Int)
    (hlen : out_n.length = g.calls.length) (hge : ∀ x ∈ out_n, -1 ≤ x)
    (hint : (g.calls.length : Int) ≤ 2147483647 ∧ out_n.sum ≤ 2147483647) :
    ((all_gather_mapped_raw heap g in_values in_n in_map out_values out_n out_map
        stride).fault = none →
      (all_gather_mapped_raw heap g in_values in_n in_map out_values out_n out_map
        stride).rounds = if out_n = List.replicate g.calls.length (-1) then 2 else 1)
    ∧ ((all_gather_var_raw heap g in_values in_n out_values out_n stride).fault = none →
      (all_gather_var_raw heap g in_values in_n out_values out_n stride).rounds
        = if out_n = List.replicate g.calls.length (-1) then 2 else 1)
    ∧ ((all_gather_mapped_vector heap g in_values in_n in_map_vector out_vector out_n
        out_map_vector stride).fault = none →
      (all_gather_mapped_vector heap g in_values in_n in_map_vector out_vector out_n
        out_map_vector stride).rounds = if out_n = List.replicate g.calls.length (-1) then 2 else 1)
    ∧ ((all_gather_var_vector heap g in_values in_n out_vector out_n stride).fault = none →
      (all_gather_var_vector heap g in_values in_n out_vector out_n stride).rounds
        = if out_n = List.replicate g.calls.length (-1) then 2 else 1)
    ∧ ((detail.all_gatherc_impl heap comm in_values in_n out_values stride).fault = none →
      (detail.all_gatherc_impl heap comm in_values in_n out_values stride).rounds = 1)
    ∧ ((all_gather_const_raw heap comm in_values in_n out_values stride).fault = none →
      (all_gather_const_raw heap comm in_values in_n out_values stride).rounds = 1)
    ∧ ((all_gather_const_vector heap comm in_values out_vector stride).fault = none →
      (all_gather_const_vector heap comm in_values out_vector stride).rounds = 1)
    ∧ ((all_gather_scalar heap comm in_value out_cells).fault = none →
      (all_gather_scalar heap comm in_value out_cells).rounds = 1) := by
  have hiff : int32 out_n.sum = int32 (-(g.calls.length : Int))
      ↔ out_n = List.replicate g.calls.length (-1) := by
    rw [sentinel_test_iff g.calls.length out_n hlen hge hint, List.eq_replicate_iff]
    simp [hlen]
  have hsum : sum_out_n g.calls.length out_n = some (int32 out_n.sum) := by
    rw [sum_out_n_eq _ _ (by omega), ← hlen, List.take_length]
  have hraw : ∀ (im om : Option (List Int)),
      (all_gather_mapped_raw heap g in_values in_n im out_values out_n om stride).fault = none →
      (all_gather_mapped_raw heap g in_values in_n im out_values out_n om stride).rounds
        = if out_n = List.replicate g.calls.length (-1) then 2 else 1 := by
    intro im om hx
    rw [(all_gather_mapped_raw_rounds heap g in_values in_n im out_values out_n om stride).2 hx,
      hsum]
    simp only [Option.some.injEq, hiff]
  have hvec : ∀ (im om : List Int),
      (all_gather_mapped_vector heap g in_values in_n im out_vector out_n om stride).fault
        = none →
      (all_gather_mapped_vector heap g in_values in_n im out_vector out_n om stride).rounds
        = if out_n = List.replicate g.calls.length (-1) then 2 else 1 := by
    intro im om hx
    rw [(all_gather_mapped_vector_rounds heap g in_values in_n im out_vector out_n om
      stride).2 hx]
    simp only [hiff]
  exact ⟨hraw in_map out_map, hraw none none, hvec in_map_vector out_map_vector, hvec [] [],
    (all_gatherc_impl_rounds heap comm in_values in_n out_values stride).2.1,
    (all_gather_const_raw_rounds heap comm in_values in_n out_values stride).2,
    (all_gather_const_vector_rounds heap comm in_values out_vector stride).2,
    (all_gather_scalar_rounds heap comm in_value out_cells).2⟩

/-- C25 (amended) for two ranks entered with the table of -1: the variable
size shapes complete after two rounds, the constant size shapes after one. -/
theorem rounds_of_a_gather_witness :
    ((all_gather_mapped_raw (fun _ => true)
        (group 0 [(⟨[7], 1, none, 1⟩ : SendArgs Int), ⟨[8], 1, none, 1⟩]) [7] 1 none
        (.buffer [0, 0]) [-1, -1] none 1).fault = none
      ∧ (all_gather_mapped_raw (fun _ => true)
        (group 0 [(⟨[7], 1, none, 1⟩ : SendArgs Int), ⟨[8], 1, none, 1⟩]) [7] 1 none
        (.buffer [0, 0]) [-1, -1] none 1).rounds = 2
      ∧ (all_gather_const_raw (fun _ => true)
        (constant_round 0 [(⟨[7], 1, 1⟩ : ConstArgs Int), ⟨[8], 1, 1⟩]) [7] 1
        (.buffer [0, 0]) 1).fault = none)
    ∧ (((all_gather_mapped_raw (fun _ => true)
        (group 0 [(⟨[7], 1, none, 1⟩ : SendArgs Int), ⟨[8], 1, none, 1⟩]) [7] 1 none
        (.buffer [0, 0]) [-1, -1] none 1).fault = none →
      (all_gather_mapped_raw (fun _ => true)
        (group 0 [(⟨[7], 1, none, 1⟩ : SendArgs Int), ⟨[8], 1, none, 1⟩]) [7] 1 none
        (.buffer [0, 0]) [-1, -1] none 1).rounds
        = if ([-1, -1] : List Int) = List.replicate
            (group 0 [(⟨[7], 1, none, 1⟩ : SendArgs Int), ⟨[8], 1, none, 1⟩]).calls.length (-1)
          then 2 else 1)
    ∧ ((all_gather_var_raw (fun _ => true)
        (group 0 [(⟨[7], 1, none, 1⟩ : SendArgs Int), ⟨[8], 1, none, 1⟩]) [7] 1
        (.buffer [0, 0]) [-1, -1] 1).fault = none →
      (all_gather_var_raw (fun _ => true)
        (group 0 [(⟨[7], 1, none, 1⟩ : SendArgs Int), ⟨[8], 1, none, 1⟩]) [7] 1
        (.buffer [0, 0]) [-1, -1] 1).rounds
        = if ([-1, -1] : List Int) = List.replicate
            (group 0 [(⟨[7], 1, none, 1⟩ : SendArgs Int), ⟨[8], 1, none, 1⟩]).calls.length (-1)
          then 2 else 1)
    ∧ ((all_gather_mapped_vector (fun _ => true)
        (group 0 [(⟨[7], 1, none, 1⟩ : SendArgs Int), ⟨[8], 1, none, 1⟩]) [7] 1 []
        (.vec [0, 0]) [-1, -1] [] 1).fault = none →
      (all_gather_mapped_vector (fun _ => true)
        (group 0 [(⟨[7], 1, none, 1⟩ : SendArgs Int), ⟨[8], 1, none, 1⟩]) [7] 1 []
        (.vec [0, 0]) [-1, -1] [] 1).rounds
        = if ([-1, -1] : List Int) = List.replicate
            (group 0 [(⟨[7], 1, none, 1⟩ : SendArgs Int), ⟨[8], 1, none, 1⟩]).calls.length (-1)
          then 2 else 1)
    ∧ ((all_gather_var_vector (fun _ => true)
        (group 0 [(⟨[7], 1, none, 1⟩ : SendArgs Int), ⟨[8], 1, none, 1⟩]) [7] 1
        (.vec [0, 0]) [-1, -1] 1).fault = none →
      (all_gather_var_vector (fun _ => true)
        (group 0 [(⟨[7], 1, none, 1⟩ : SendArgs Int), ⟨[8], 1, none, 1⟩]) [7] 1
        (.vec [0, 0]) [-1, -1] 1).rounds
        = if ([-1, -1] : List Int) = List.replicate
            (group 0 [(⟨[7], 1, none, 1⟩ : SendArgs Int), ⟨[8], 1, none, 1⟩]).calls.length (-1)
          then 2 else 1)
    ∧ ((detail.all_gatherc_impl (fun _ => true)
        (constant_round 0 [(⟨[7], 1, 1⟩ : ConstArgs Int), ⟨[8], 1, 1⟩]) [7] 1
        (.buffer [0, 0]) 1).fault = none →
      (detail.all_gatherc_impl (fun _ => true)
        (constant_round 0 [(⟨[7], 1, 1⟩ : ConstArgs Int), ⟨[8], 1, 1⟩]) [7] 1
        (.buffer [0, 0]) 1).rounds = 1)
    ∧ ((all_gather_const_raw (fun _ => true)
        (constant_round 0 [(⟨[7], 1, 1⟩ : ConstArgs Int), ⟨[8], 1, 1⟩]) [7] 1
        (.buffer [0, 0]) 1).fault = none →
      (all_gather_const_raw (fun _ => true)
        (constant_round 0 [(⟨[7], 1, 1⟩ : ConstArgs Int), ⟨[8], 1, 1⟩]) [7] 1
        (.buffer [0, 0]) 1).rounds = 1)
    ∧ ((all_gather_const_vector (fun _ => true)
        (constant_round 0 [(⟨[7], 1, 1⟩ : ConstArgs Int), ⟨[8], 1, 1⟩]) [7]
        (.vec [0, 0]) 1).fault = none →
      (all_gather_const_vector (fun _ => true)
        (constant_round 0 [(⟨[7], 1, 1⟩ : ConstArgs Int), ⟨[8], 1, 1⟩]) [7]
        (.vec [0, 0]) 1).rounds = 1)
    ∧ ((all_gather_scalar (fun _ => true)
        (constant_round 0 [(⟨[7], 1, 1⟩ : ConstArgs Int), ⟨[8], 1, 1⟩]) 7 [0, 0]).fault = none →
      (all_gather_scalar (fun _ => true)
        (constant_round 0 [(⟨[7], 1, 1⟩ : ConstArgs Int), ⟨[8], 1, 1⟩]) 7 [0, 0]).rounds = 1)) :=
  ⟨by decide,
    rounds_of_a_gather (fun _ => true)
      (constant_round 0 [(⟨[7], 1, 1⟩ : ConstArgs Int), ⟨[8], 1, 1⟩])
      (group 0 [(⟨[7], 1, none, 1⟩ : SendArgs Int), ⟨[8], 1, none, 1⟩]) [7] 7 1 none []
      (.buffer [0, 0]) (.vec [0, 0]) [0, 0] [-1, -1] none [] 1 rfl (by decide) (by decide)⟩

/-- C26, as stated, fails: the sum the code tests is a sum of `int`s. For
`P = 2` and the table `[2147483647, 2147483647]`, whose entries are all at
least -1, the sum computed by the loop of the raw-pointer shape and by the
accumulation of the std::vector shape is `-2 = -P`, so the tested condition
holds, and no entry is -1. -/
theorem sentinel_sum_counterexample :
    ([2147483647, 2147483647] : List Int).length = 2
    ∧ (∀ x ∈ ([2147483647, 2147483647] : List Int), -1 ≤ x)
    ∧ sum_out_n 2 [2147483647, 2147483647] = some (-2)
    ∧ ([2147483647, 2147483647] : List Int).foldl (fun out_sum i => int32 (out_sum + i)) 0 = -2
    ∧ int32 (-((2 : Nat) : Int)) = -2
    ∧ ¬ ∀ x ∈ ([2147483647, 2147483647] : List Int), x = -1 := by
  decide

/-- C26, amended: soundness of the sum-based sentinel test for sums that are
values of type `int`. For every `P` up to `INT_MAX` (in particular `P ≥ 1`) and
a table of `P` entries that are all at least -1 and whose sum does not exceed
`INT_MAX`, the test the code performs, the `int` sum of the entries being `-P`
(the loop of the raw-pointer shape, the accumulation of the std::vector
shape), holds if and only if every entry is -1; on such a table the `int` sum
is the exact sum, and `-P` is a value of type `int`. -/
theorem sentinel_test_sound (P : Nat) (out_n : List Int)
    (hlen : out_n.length = P) (hge : ∀ x ∈ out_n, -1 ≤ x)
    (hint : (P : Int) ≤ 2147483647 ∧ out_n.sum ≤ 2147483647) :
    (sum_out_n P out_n = some (int32 (-(P : Int))) ↔ ∀ x ∈ out_n, x = -1)
    ∧ (out_n.foldl (fun out_sum i => int32 (out_sum + i)) 0 = int32 (-(P : Int))
        ↔ ∀ x ∈ out_n, x = -1)
    ∧ sum_out_n P out_n = some out_n.sum
    ∧ out_n.foldl (fun out_sum i => int32 (out_sum + i)) 0 = out_n.sum
    ∧ int32 (-(P : Int)) = -(P : Int) := by
  have hsum : sum_out_n P out_n = some (int32 out_n.sum) := by
    rw [sum_out_n_eq _ _ (by omega), ← hlen, List.take_length]
  have hiff := sentinel_test_iff P out_n hlen hge hint
  have h1 := (sum_ge_neg_length out_n hge).1
  rw [hlen] at h1
  have hex : int32 out_n.sum = out_n.sum := int32_of_range _ (by omega)
  have hP : int32 (-(P : Int)) = -(P : Int) := int32_of_range _ (by omega)
  rw [hsum, foldl_add_eq_sum, Option.some.injEq]
  exact ⟨hiff, hiff, by rw [hex], hex, hP⟩

/-- C26, amended, for the table `[-1, 0, -1]`, which is not the sentinel. -/
theorem sentinel_test_sound_witness :
    (sum_out_n 3 [-1, 0, -1] = some (int32 (-((3 : Nat) : Int)))
        ↔ ∀ x ∈ ([-1, 0, -1] : List Int), x = -1)
    ∧ (([-1, 0, -1] : List Int).foldl (fun out_sum i => int32 (out_sum + i)) 0
          = int32 (-((3 : Nat) : Int))
        ↔ ∀ x ∈ ([-1, 0, -1] : List Int), x = -1)
    ∧ sum_out_n 3 [-1, 0, -1] = some ([-1, 0, -1] : List Int).sum
    ∧ ([-1, 0, -1] : List Int).foldl (fun out_sum i => int32 (out_sum + i)) 0
        = ([-1, 0, -1] : List Int).sum
    ∧ int32 (-((3 : Nat) : Int)) = -((3 : Nat) : Int) :=
  sentinel_test_sound 3 [-1, 0, -1] rfl (by decide) (by decide)


/-! ## Stride factoring -/

theorem all_gatherc_impl_stride {T : Type} [Inhabited T] (heap : Heap) (comm : Communicator T)
    (in_values : List T) (N S : Int) (out_values : Ptr T) (hS : 0 < S) :
    detail.all_gatherc_impl heap comm in_values N out_values S
      = detail.all_gatherc_impl heap comm in_values (N * S) out_values 1 := by
  have h1 : (1 : Int) > 0 := by decide
  have hS' : S > 0 := hS
  simp only [detail.all_gatherc_impl, mul_one, mul_assoc, hS', h1, not_true_eq_false,
    if_false]

/-- C29: stride factoring is irrelevant for the constant size gather. For
`S > 0`, `all_gatherc_impl` called with `in_n = N` and `stride = S` yields the
same outcome and output as called with `in_n = N*S` and `stride = 1` on the
same data, from the same counts and displacements; and the std::vector shape,
which passes `in_n = L/S`, yields for a size `L` that is a multiple of `S` what
it yields with stride 1. -/
theorem stride_factoring {T : Type} [Inhabited T] (heap : Heap) (comm : Communicator T)
    (in_values : List T) (N S : Int) (out_values : Ptr T) (out_vector : OutVec T)
    (hS : 0 < S) :
    detail.all_gatherc_impl heap comm in_values N out_values S
      = detail.all_gatherc_impl heap comm in_values (N * S) out_values 1
    ∧ List.map (fun (_ : Nat) => N * S) (List.range comm.nproc)
      = List.map (fun (_ : Nat) => N * S * 1) (List.range comm.nproc)
    ∧ List.map (fun (i : Nat) => (i : Int) * N * S) (List.range comm.nproc)
      = List.map (fun (i : Nat) => (i : Int) * (N * S) * 1) (List.range comm.nproc)
    ∧ ((in_values.length : Int) % S = 0 →
        all_gather_const_vector heap comm in_values out_vector S
          = all_gather_const_vector heap comm in_values out_vector 1) := by
  refine ⟨all_gatherc_impl_stride heap comm in_values N S out_values hS, ?_, ?_, ?_⟩
  · simp only [mul_one]
  · simp only [mul_one, mul_assoc]
  · intro hdiv
    have hcnt : (in_values.length : Int).tdiv S * S = in_values.length :=
      Int.tdiv_mul_cancel (Int.dvd_of_emod_eq_zero hdiv)
    have h1 : ∀ (iv : List T) (p : Ptr T),
        detail.all_gatherc_impl heap comm iv ((in_values.length : Int).tdiv S) p S
          = detail.all_gatherc_impl heap comm iv ((in_values.length : Int).tdiv 1) p 1 := by
      intro iv p
      rw [all_gatherc_impl_stride heap comm iv _ S p hS, hcnt, Int.tdiv_one]
    simp only [all_gather_const_vector, hdiv, Int.emod_one, not_true_eq_false, if_false, h1]

/-- C29 for three ranks, two elements of stride two each. -/
theorem stride_factoring_witness :
    detail.all_gatherc_impl (fun _ => true)
        (constant_round 1 [⟨[1, 2, 3, 4], 2, 2⟩, ⟨[5, 6, 7, 8], 2, 2⟩, ⟨[9, 10, 11, 12], 2, 2⟩])
        ([5, 6, 7, 8] : List Int) 2 (.buffer (List.replicate 12 0)) 2
      = detail.all_gatherc_impl (fun _ => true)
        (constant_round 1 [⟨[1, 2, 3, 4], 2, 2⟩, ⟨[5, 6, 7, 8], 2, 2⟩, ⟨[9, 10, 11, 12], 2, 2⟩])
        ([5, 6, 7, 8] : List Int) (2 * 2) (.buffer (List.replicate 12 0)) 1
    ∧ List.map (fun (_ : Nat) => (2 : Int) * 2) (List.range
        (constant_round 1 [(⟨[1, 2, 3, 4], 2, 2⟩ : ConstArgs Int), ⟨[5, 6, 7, 8], 2, 2⟩,
          ⟨[9, 10, 11, 12], 2, 2⟩]).nproc)
      = List.map (fun (_ : Nat) => (2 : Int) * 2 * 1) (List.range
        (constant_round 1 [(⟨[1, 2, 3, 4], 2, 2⟩ : ConstArgs Int), ⟨[5, 6, 7, 8], 2, 2⟩,
          ⟨[9, 10, 11, 12], 2, 2⟩]).nproc)
    ∧ List.map (fun (i : Nat) => (i : Int) * 2 * 2) (List.range
        (constant_round 1 [(⟨[1, 2, 3, 4], 2, 2⟩ : ConstArgs Int), ⟨[5, 6, 7, 8], 2, 2⟩,
          ⟨[9, 10, 11, 12], 2, 2⟩]).nproc)
      = List.map (fun (i : Nat) => (i : Int) * (2 * 2) * 1) (List.range
        (constant_round 1 [(⟨[1, 2, 3, 4], 2, 2⟩ : ConstArgs Int), ⟨[5, 6, 7, 8], 2, 2⟩,
          ⟨[9, 10, 11, 12], 2, 2⟩]).nproc)
    ∧ (((([5, 6, 7, 8] : List Int).length : Nat) : Int) % 2 = 0 →
        all_gather_const_vector (fun _ => true)
            (constant_round 1 [⟨[1, 2, 3, 4], 2, 2⟩, ⟨[5, 6, 7, 8], 2, 2⟩,
              ⟨[9, 10, 11, 12], 2, 2⟩])
            ([5, 6, 7, 8] : List Int) (.vec []) 2
          = all_gather_const_vector (fun _ => true)
            (constant_round 1 [⟨[1, 2, 3, 4], 2, 2⟩, ⟨[5, 6, 7, 8], 2, 2⟩,
              ⟨[9, 10, 11, 12], 2, 2⟩])
            ([5, 6, 7, 8] : List Int) (.vec []) 1) :=
  stride_factoring (fun _ => true)
    (constant_round 1 [⟨[1, 2, 3, 4], 2, 2⟩, ⟨[5, 6, 7, 8], 2, 2⟩, ⟨[9, 10, 11, 12], 2, 2⟩])
    [5, 6, 7, 8] 2 2 (.buffer (List.replicate 12 0)) (.vec []) (by decide)

/-! ## Duplicate receive map entries -/

theorem exists_last_index (E : Nat → Nat) (G e : Nat) (h : ∃ i, i < G ∧ E i = e) :
    ∃ istar, istar < G ∧ E istar = e ∧ ∀ i, istar < i → i < G → E i ≠ e := by
  induction G with
  | zero =>
    obtain ⟨i, hi, -⟩ := h
    omega
  | succ n ih =>
    by_cases hn : E n = e
    · exact ⟨n, by omega, hn, fun i h1 h2 => by omega⟩
    · obtain ⟨i, hi, hie⟩ := h
      have hin : i < n := by
        by_contra hc
        have : i = n := by omega
        subst this
        exact hn hie
      obtain ⟨istar, h1, h2, h3⟩ := ih ⟨i, hin, hie⟩
      refine ⟨istar, by omega, h2, fun k hk1 hk2 => ?_⟩
      by_cases hkn : k = n
      · subst hkn; exact hn
      · exact h3 k hk1 (by omega)

/-- C30: duplicate receive map entries resolve to the last wire position. In
`all_gathervm_impl` with a receive map whose entries read are non-negative and
in range, and receive counts equal to what every rank sends, the call returns
normally after one exchange, and for every output element `e` named by an
entry `out_map[i]` with `i` below the sum of `out_n` there is a largest such
index `i*`, and the `S` items of the output at `S*e .. S*e+S-1` are the `S`
items of the wire-order content at `S*i* .. S*i*+S-1`. -/
theorem duplicate_entries_last_wins {T : Type} [Inhabited T] (heap : Heap)
    (calls : List (SendArgs T)) (rank : Nat) (c : SendArgs T) (out_values : Ptr T)
    (out_n out_map : List Int) (S : Int) (hS : 0 < S)
    (hrank : calls[rank]? = some c)
    (hpeers : ∀ a ∈ calls, a.stride = S ∧ 0 ≤ a.in_n ∧
      ∃ b, detail.in_buf heap a.in_values a.in_n a.in_map a.stride = .ok b
        ∧ S * a.in_n ≤ b.length)
    (htable : ∀ (k : Nat) (a : SendArgs T), calls[k]? = some a → out_n[k]? = some a.in_n)
    (hheap : heap (S * (out_n.take calls.length).sum + 1) = true)
    (hmap : ∀ g : Nat, (g : Int) < (out_n.take calls.length).sum →
      ∃ e, out_map[g]? = some e ∧ 0 ≤ e ∧ S * e + S ≤ (out_values.view c.in_values).length) :
    ∃ cells : List T,
      detail.all_gathervm_impl heap ((group rank calls).data_round heap) c.in_values c.in_n
        c.in_map out_values out_n (some out_map) S = ⟨none, cells, 1⟩
      ∧ ∀ e : Int, (∃ i : Nat, (i : Int) < (out_n.take calls.length).sum ∧ out_map[i]? = some e) →
          ∃ istar : Nat, (istar : Int) < (out_n.take calls.length).sum
            ∧ out_map[istar]? = some e
            ∧ (∀ i : Nat, istar < i → (i : Int) < (out_n.take calls.length).sum →
                out_map[i]? ≠ some e)
            ∧ ∀ j : Nat, (j : Int) < S →
                ∃ v, load (wire (staged_sends heap calls)) (S * istar + j) = some v
                  ∧ load cells (S * e + j) = some v := by
  obtain ⟨Sn, rfl⟩ : ∃ Sn : Nat, S = (Sn : Int) := ⟨S.toNat, by omega⟩
  have hSn : 0 < Sn := by omega
  obtain ⟨hwl, hnn⟩ := staged_wire_length heap calls out_n (Sn : Int) hS hpeers htable
  obtain ⟨G, hG⟩ : ∃ G : Nat, (out_n.take calls.length).sum = (G : Int) :=
    ⟨(out_n.take calls.length).sum.toNat, by omega⟩
  rw [hG] at hwl hmap
  rw [hG]
  have hE : ∀ g, g < G → out_map[g]? = some (((out_map.getD g 0).toNat : Nat) : Int)
      ∧ Sn * (out_map.getD g 0).toNat + Sn ≤ (out_values.view c.in_values).length := by
    intro g hg
    obtain ⟨e, he1, he2, he3⟩ := hmap g (by omega)
    have hgd : out_map.getD g 0 = e := by simp [List.getD, he1]
    rw [hgd, he1, Int.toNat_of_nonneg he2]
    refine ⟨rfl, ?_⟩
    have : (((Sn * e.toNat + Sn : Nat)) : Int) = (Sn : Int) * e + Sn := by
      rw [Nat.cast_add, Nat.cast_mul, Int.toNat_of_nonneg he2]
    omega
  obtain ⟨cells, hrun, hcl, hlastw, -⟩ := all_gathervm_impl_mapped_group heap calls rank c
    out_values out_n out_map Sn G (fun g => (out_map.getD g 0).toNat) hSn hrank hpeers htable hG
    (by rw [← hG]; exact hheap) (fun g hg => (hE g hg).1) (fun g hg => (hE g hg).2)
  refine ⟨cells, hrun, ?_⟩
  rintro e ⟨i, hi, hie⟩
  have hiG : i < G := by omega
  have he0 : 0 ≤ e := by
    obtain ⟨e', he1, he2, -⟩ := hmap i hi
    rw [hie] at he1
    cases he1
    exact he2
  have hEi : ∀ g, g < G → ∀ x : Int, out_map[g]? = some x →
      (((out_map.getD g 0).toNat : Nat) : Int) = x := by
    intro g hg x hx
    have := (hE g hg).1
    rw [hx] at this
    exact (Option.some.inj this).symm
  obtain ⟨istar, h1, h2, h3⟩ := exists_last_index (fun g => (out_map.getD g 0).toNat) G e.toNat
    ⟨i, hiG, by
      have := hEi i hiG e hie
      show (out_map.getD i 0).toNat = e.toNat
      omega⟩
  have h2 : (out_map.getD istar 0).toNat = e.toNat := h2
  have h3 : ∀ i, istar < i → i < G → (out_map.getD i 0).toNat ≠ e.toNat := h3
  have hstar : out_map[istar]? = some e := by
    rw [(hE istar h1).1]
    congr 1
    omega
  refine ⟨istar, by omega, hstar, ?_, ?_⟩
  · intro k hk1 hk2 hke
    have := hEi k (by omega) e hke
    exact h3 k hk1 (by omega) (by omega)
  · intro j hj
    have hjn : j < Sn := by omega
    have hlw := hlastw istar j h1 (fun g' hg1 hg2 => by rw [h2]; exact h3 g' hg1 hg2) hjn
    simp only at hlw
    rw [h2] at hlw
    have hmul : Sn * istar + Sn ≤ Sn * G := by
      have := Nat.mul_le_mul_left Sn (Nat.succ_le_of_lt h1)
      rw [Nat.mul_succ] at this
      exact this
    have hwn : (wire (staged_sends heap calls)).length = Sn * G := by
      have : ((Sn * G : Nat) : Int) = (Sn : Int) * (G : Int) := by push_cast; rfl
      omega
    have hlt : Sn * istar + j < (wire (staged_sends heap calls)).length := by omega
    refine ⟨(wire (staged_sends heap calls))[Sn * istar + j], ?_, ?_⟩
    · have e1 : (Sn : Int) * (istar : Int) + (j : Int) = ((Sn * istar + j : Nat) : Int) := by
        push_cast; rfl
      rw [e1, load_natCast]
      exact List.getElem?_eq_getElem hlt
    · have e2 : (Sn : Int) * e + (j : Int) = ((Sn * e.toNat + j : Nat) : Int) := by
        rw [Nat.cast_add, Nat.cast_mul, Int.toNat_of_nonneg he0]
      rw [e2, load_natCast, hlw]
      exact List.getElem?_eq_getElem hlt

/-- C30 for two ranks of stride 1 and the receive map `[4, 1, 4]`: element 4
is named by the wire positions 0 and 2 and holds the item of position 2. -/
theorem duplicate_entries_last_wins_witness :
    ∃ cells : List Int,
      detail.all_gathervm_impl (fun _ => true)
        ((group 0 [(⟨[5, 6], 2, none, 1⟩ : SendArgs Int), ⟨[9], 1, none, 1⟩]).data_round
          (fun _ => true))
        (⟨[5, 6], 2, none, 1⟩ : SendArgs Int).in_values
        (⟨[5, 6], 2, none, 1⟩ : SendArgs Int).in_n
        (⟨[5, 6], 2, none, 1⟩ : SendArgs Int).in_map
        (.buffer [0, 0, 0, 0, 0]) [2, 1] (some [4, 1, 4]) 1 = ⟨none, cells, 1⟩
      ∧ ∀ e : Int, (∃ i : Nat, (i : Int) < (([2, 1] : List Int).take
            [(⟨[5, 6], 2, none, 1⟩ : SendArgs Int), ⟨[9], 1, none, 1⟩].length).sum
            ∧ ([4, 1, 4] : List Int)[i]? = some e) →
          ∃ istar : Nat, (istar : Int) < (([2, 1] : List Int).take
              [(⟨[5, 6], 2, none, 1⟩ : SendArgs Int), ⟨[9], 1, none, 1⟩].length).sum
            ∧ ([4, 1, 4] : List Int)[istar]? = some e
            ∧ (∀ i : Nat, istar < i → (i : Int) < (([2, 1] : List Int).take
                [(⟨[5, 6], 2, none, 1⟩ : SendArgs Int), ⟨[9], 1, none, 1⟩].length).sum →
                ([4, 1, 4] : List Int)[i]? ≠ some e)
            ∧ ∀ j : Nat, (j : Int) < 1 →
                ∃ v, load (wire (staged_sends (fun _ => true)
                    [(⟨[5, 6], 2, none, 1⟩ : SendArgs Int), ⟨[9], 1, none, 1⟩]))
                    (1 * istar + j) = some v
                  ∧ load cells (1 * e + j) = some v :=
  duplicate_entries_last_wins (fun _ => true)
    [(⟨[5, 6], 2, none, 1⟩ : SendArgs Int), ⟨[9], 1, none, 1⟩] 0 ⟨[5, 6], 2, none, 1⟩
    (.buffer [0, 0, 0, 0, 0]) [2, 1] [4, 1, 4] 1 (by decide) (by decide)
    (by
      intro a ha
      simp only [List.mem_cons, List.mem_singleton, List.not_mem_nil, or_false] at ha
      rcases ha with rfl | rfl
      · exact ⟨rfl, by decide, _, rfl, by decide⟩
      · exact ⟨rfl, by decide, _, rfl, by decide⟩)
    (by
      intro k a hk
      match k, hk with
      | 0, hk => cases hk; rfl
      | 1, hk => cases hk; rfl
      | n + 2, hk => cases hk)
    rfl
    (by
      intro g hg
      have hg3 : g < 3 := by
        have : (([2, 1] : List Int).take
          [(⟨[5, 6], 2, none, 1⟩ : SendArgs Int), ⟨[9], 1, none, 1⟩].length).sum = 3 := by
          decide
        omega
      have hg' : g = 0 ∨ g = 1 ∨ g = 2 := by omega
      rcases hg' with rfl | rfl | rfl
      · exact ⟨4, rfl, by decide, by decide⟩
      · exact ⟨1, rfl, by decide, by decide⟩
      · exact ⟨4, rfl, by decide, by decide⟩)

/-- The receive map `[4, 1, 4]` at a concrete input: position 4 holds the item
of wire position 2. -/
theorem duplicate_entries_example :
    detail.all_gathervm_impl (fun _ => true)
        ((group 0 [(⟨[5, 6], 2, none, 1⟩ : SendArgs Int), ⟨[9], 1, none, 1⟩]).data_round
          (fun _ => true))
        [5, 6] 2 none (.buffer [0, 0, 0, 0, 0]) [2, 1] (some [4, 1, 4]) 1
      = ⟨none, [0, 6, 0, 0, 9], 1⟩ := by
  decide


/-! ## How much of a map is read -/

theorem forLoop_body_some {σ : Type} (n : Nat) (body : Nat → σ → Option σ) (s t : σ)
    (h : forLoop n body s = some t) (i : Nat) (hi : i < n) :
    ∃ u u', body i u = some u' := by
  induction n generalizing t with
  | zero => omega
  | succ m ih =>
    obtain ⟨u, hu, hb⟩ := forLoop_succ_some m body s t h
    by_cases him : i = m
    · subst him
      exact ⟨u, t, hb⟩
    · exact ih u hu (by omega)

theorem load_take {α : Type} (m : List α) (n i : Nat) (hi : i < n) :
    load (m.take n) (i : Int) = load m (i : Int) := by
  rw [load_natCast, load_natCast, List.getElem?_take, if_pos hi]

theorem load_some_lt {α : Type} (m : List α) (i : Nat) (x : α)
    (h : load m (i : Int) = some x) : i < m.length := by
  rw [load_natCast] at h
  exact getElem?_lt_length m i x h

/-- The send-side staging reads the first `in_n` entries of the send map and
no other. -/
theorem in_buf_take {T : Type} [Inhabited T] (heap : Heap) (in_values : List T)
    (in_n : Int) (m : List Int) (stride : Int) (hS : 0 < stride) :
    detail.in_buf heap in_values in_n (some m) stride
      = detail.in_buf heap in_values in_n (some (m.take in_n.toNat)) stride := by
  have hcount : (if stride = 1 then (stride * in_n).toNat
      else ((stride * in_n).tdiv stride).toNat) = in_n.toNat := by
    split
    · rename_i h1; rw [h1, one_mul]
    · rw [Int.mul_tdiv_cancel_left _ (by omega)]
  unfold detail.in_buf
  simp only
  split
  · rfl
  · rename_i buf _
    by_cases h1 : stride = 1
    · simp only [if_pos h1]
      rw [forLoop_congr _ _ (fun i b => (load (m.take in_n.toNat) i).bind fun m_i =>
        (load in_values m_i).bind fun v => store b i v)]
      intro i t hi
      rw [if_pos h1] at hcount
      rw [load_take m _ i (by omega)]
    · simp only [if_neg h1]
      rw [forLoop_congr _ _ (fun i b => (load (m.take in_n.toNat) i).bind fun m_i =>
        memcpy b (stride * i) in_values (stride * m_i) stride)]
      intro i t hi
      rw [if_neg h1] at hcount
      rw [load_take m _ i (by omega)]

theorem in_buf_needs {T : Type} [Inhabited T] (heap : Heap) (in_values : List T)
    (in_n : Int) (m : List Int) (stride : Int) (hS : 0 < stride) (b : List T)
    (h : detail.in_buf heap in_values in_n (some m) stride = .ok b) :
    in_n ≤ m.length := by
  by_contra hc
  have hlt : m.length < in_n.toNat := by omega
  unfold detail.in_buf at h
  simp only at h
  split at h
  · cases h
  · split at h
    · cases h
    · rename_i buf _ b' hb
      by_cases h1 : stride = 1
      · rw [if_pos h1] at hb
        obtain ⟨u, u', hu⟩ := forLoop_body_some _ _ _ _ hb m.length
          (by rw [h1, one_mul]; exact hlt)
        have hu : (load m (m.length : Int)).bind _ = some u' := hu
        cases hl : load m (m.length : Int) with
        | none => rw [hl] at hu; cases hu
        | some x => exact absurd (load_some_lt m _ x hl) (lt_irrefl _)
      · rw [if_neg h1] at hb
        obtain ⟨u, u', hu⟩ := forLoop_body_some _ _ _ _ hb m.length
          (by rw [Int.mul_tdiv_cancel_left _ (by omega)]; exact hlt)
        have hu : (load m (m.length : Int)).bind _ = some u' := hu
        cases hl : load m (m.length : Int) with
        | none => rw [hl] at hu; cases hu
        | some x => exact absurd (load_some_lt m _ x hl) (lt_irrefl _)

/-- The receive-side scatter reads the first `total` entries of the receive
map, `total` being the number of elements received, and no other. -/
theorem repopulate_take {T : Type} (out0 out_buf : List T) (m : List Int)
    (total stride : Int) (hS : 0 < stride) :
    detail.repopulate out0 out_buf m (stride * total) stride
      = detail.repopulate out0 out_buf (m.take total.toNat) (stride * total) stride := by
  rw [repopulate_eq_loop, repopulate_eq_loop, Int.mul_tdiv_cancel_left _ (by omega)]
  apply forLoop_congr
  intro i t hi
  rw [load_take m _ i hi]

theorem repopulate_needs {T : Type} (out0 out_buf : List T) (m : List Int)
    (total stride : Int) (hS : 0 < stride) (o : List T)
    (h : detail.repopulate out0 out_buf m (stride * total) stride = some o) :
    total ≤ m.length := by
  by_contra hc
  have hlt : m.length < total.toNat := by omega
  rw [repopulate_eq_loop, Int.mul_tdiv_cancel_left _ (by omega)] at h
  obtain ⟨u, u', hu⟩ := forLoop_body_some _ _ _ _ h m.length hlt
  have hu : (load m (m.length : Int)).bind _ = some u' := hu
  cases hl : load m (m.length : Int) with
  | none => rw [hl] at hu; cases hu
  | some x => exact absurd (load_some_lt m _ x hl) (lt_irrefl _)

/-- The variable size implementation depends on its maps only through the
first `in_n` entries of the send map and the first `sum(out_n)` entries of the
receive map. -/
theorem all_gathervm_impl_maps_take {T : Type} [Inhabited T] (heap : Heap)
    (comm : Communicator T) (in_values : List T) (in_n : Int) (im : List Int)
    (out_values : Ptr T) (out_n : List Int) (om : List Int) (stride : Int) (hS : 0 < stride) :
    detail.all_gathervm_impl heap comm in_values in_n (some im) out_values out_n (some om) stride
      = detail.all_gathervm_impl heap comm in_values in_n (some (im.take in_n.toNat)) out_values
          out_n (some (om.take (out_n.take comm.nproc).sum.toNat)) stride := by
  have hS' : stride > 0 := hS
  unfold detail.all_gathervm_impl
  simp only [hS', not_true_eq_false, if_false, ← in_buf_take heap in_values in_n im stride hS]
  cases htab : detail.out_tables comm.nproc stride out_n with
  | none => rfl
  | some t =>
    obtain ⟨ns, ds⟩ := t
    simp only [out_sum_eq comm.nproc stride out_n ns ds htab]
    cases hb : detail.in_buf heap in_values in_n (some im) stride with
    | error f => rfl
    | ok b =>
      simp only [Option.isSome_some, true_or, if_true]
      cases hal : (alloc heap (stride * (out_n.take comm.nproc).sum + 1) : Option (List T)) with
      | none => rfl
      | some ob =>
        simp only
        cases hx : MPI_Allgatherv comm b (stride * in_n) ob ns ds with
        | none => rfl
        | some ob' =>
          simp only
          rw [repopulate_take _ ob' om _ stride hS]

/-- C24, as stated, fails for a stride above 1: with stride 2 and one element
on either side, the staging and the scatter run through with maps of a single
entry, fewer than the `stride * in_n = 2` items. -/
theorem map_length_counterexample :
    detail.in_buf (fun _ => true) ([5, 6] : List Int) 1 (some [0]) 2 = .ok [5, 6, 0]
    ∧ detail.repopulate ([0, 0] : List Int) [5, 6, 0] [0] (2 * 1) 2 = some [5, 6]
    ∧ (([0] : List Int).length : Int) < 2 * 1
    ∧ detail.all_gathervm_impl (fun _ => true)
        ((group 0 [(⟨[5, 6], 1, some [0], 2⟩ : SendArgs Int)]).data_round (fun _ => true))
        [5, 6] 1 (some [0]) (.buffer [0, 0]) [1] (some [0]) 2
      = ⟨none, [5, 6], 1⟩ :=
  ⟨rfl, by decide, by decide, by decide⟩

/-- C24, amended: index-map length. For every stride > 0, the send-side
staging of `all_gathervm_impl` reads exactly the first `in_n` entries of the
send map and the receive-side scatter exactly the first `sum(out_n)` entries of
the receive map, one entry per element of `stride` items: entries beyond those
do not influence the call, and the staging and the scatter run through only if
the map has that many entries. -/
theorem map_entries_read {T : Type} [Inhabited T] (heap : Heap) (comm : Communicator T)
    (in_values out0 out_buf : List T) (in_n : Int) (in_map : List Int) (out_values : Ptr T)
    (out_n out_map : List Int) (stride : Int) (hS : 0 < stride) :
    detail.in_buf heap in_values in_n (some in_map) stride
      = detail.in_buf heap in_values in_n (some (in_map.take in_n.toNat)) stride
    ∧ (∀ b, detail.in_buf heap in_values in_n (some in_map) stride = .ok b →
        in_n ≤ in_map.length)
    ∧ detail.repopulate out0 out_buf out_map (stride * (out_n.take comm.nproc).sum) stride
      = detail.repopulate out0 out_buf (out_map.take (out_n.take comm.nproc).sum.toNat)
          (stride * (out_n.take comm.nproc).sum) stride
    ∧ (∀ o, detail.repopulate out0 out_buf out_map (stride * (out_n.take comm.nproc).sum) stride
        = some o → (out_n.take comm.nproc).sum ≤ out_map.length)
    ∧ detail.all_gathervm_impl heap comm in_values in_n (some in_map) out_values out_n
        (some out_map) stride
      = detail.all_gathervm_impl heap comm in_values in_n (some (in_map.take in_n.toNat))
          out_values out_n (some (out_map.take (out_n.take comm.nproc).sum.toNat)) stride :=
  ⟨in_buf_take heap in_values in_n in_map stride hS,
    fun b hb => in_buf_needs heap in_values in_n in_map stride hS b hb,
    repopulate_take out0 out_buf out_map _ stride hS,
    fun o ho => repopulate_needs out0 out_buf out_map _ stride hS o ho,
    all_gathervm_impl_maps_take heap comm in_values in_n in_map out_values out_n out_map stride
      hS⟩

/-- C24 (amended) for stride 2, two elements sent and three received, with
maps that have more entries than are read. -/
theorem map_entries_read_witness :
    detail.in_buf (fun _ => true) ([1, 2, 3, 4] : List Int) 2 (some [1, 0, 7, 7]) 2
      = detail.in_buf (fun _ => true) ([1, 2, 3, 4] : List Int) 2
          (some (([1, 0, 7, 7] : List Int).take (2 : Int).toNat)) 2
    ∧ (∀ b, detail.in_buf (fun _ => true) ([1, 2, 3, 4] : List Int) 2 (some [1, 0, 7, 7]) 2
        = .ok b → (2 : Int) ≤ ([1, 0, 7, 7] : List Int).length)
    ∧ detail.repopulate ([0, 0, 0, 0, 0, 0] : List Int) [3, 4, 1, 2, 9, 10, 0] [2, 0, 1, 9]
        (2 * (([2, 1] : List Int).take
          ((group 0 [(⟨[1, 2, 3, 4], 2, some [1, 0, 7, 7], 2⟩ : SendArgs Int),
            ⟨[9, 10], 1, none, 2⟩]).data_round (fun _ => true)).nproc).sum) 2
      = detail.repopulate ([0, 0, 0, 0, 0, 0] : List Int) [3, 4, 1, 2, 9, 10, 0]
          (([2, 0, 1, 9] : List Int).take (([2, 1] : List Int).take
            ((group 0 [(⟨[1, 2, 3, 4], 2, some [1, 0, 7, 7], 2⟩ : SendArgs Int),
              ⟨[9, 10], 1, none, 2⟩]).data_round (fun _ => true)).nproc).sum.toNat)
          (2 * (([2, 1] : List Int).take
            ((group 0 [(⟨[1, 2, 3, 4], 2, some [1, 0, 7, 7], 2⟩ : SendArgs Int),
              ⟨[9, 10], 1, none, 2⟩]).data_round (fun _ => true)).nproc).sum) 2
    ∧ (∀ o, detail.repopulate ([0, 0, 0, 0, 0, 0] : List Int) [3, 4, 1, 2, 9, 10, 0]
        [2, 0, 1, 9]
        (2 * (([2, 1] : List Int).take
          ((group 0 [(⟨[1, 2, 3, 4], 2, some [1, 0, 7, 7], 2⟩ : SendArgs Int),
            ⟨[9, 10], 1, none, 2⟩]).data_round (fun _ => true)).nproc).sum) 2
        = some o → (([2, 1] : List Int).take
          ((group 0 [(⟨[1, 2, 3, 4], 2, some [1, 0, 7, 7], 2⟩ : SendArgs Int),
            ⟨[9, 10], 1, none, 2⟩]).data_round (fun _ => true)).nproc).sum
          ≤ ([2, 0, 1, 9] : List Int).length)
    ∧ detail.all_gathervm_impl (fun _ => true)
        ((group 0 [(⟨[1, 2, 3, 4], 2, some [1, 0, 7, 7], 2⟩ : SendArgs Int),
          ⟨[9, 10], 1, none, 2⟩]).data_round (fun _ => true))
        [1, 2, 3, 4] 2 (some [1, 0, 7, 7]) (.buffer [0, 0, 0, 0, 0, 0]) [2, 1]
        (some [2, 0, 1, 9]) 2
      = detail.all_gathervm_impl (fun _ => true)
          ((group 0 [(⟨[1, 2, 3, 4], 2, some [1, 0, 7, 7], 2⟩ : SendArgs Int),
            ⟨[9, 10], 1, none, 2⟩]).data_round (fun _ => true))
          [1, 2, 3, 4] 2 (some (([1, 0, 7, 7] : List Int).take (2 : Int).toNat))
          (.buffer [0, 0, 0, 0, 0, 0]) [2, 1]
          (some (([2, 0, 1, 9] : List Int).take (([2, 1] : List Int).take
            ((group 0 [(⟨[1, 2, 3, 4], 2, some [1, 0, 7, 7], 2⟩ : SendArgs Int),
              ⟨[9, 10], 1, none, 2⟩]).data_round (fun _ => true)).nproc).sum.toNat)) 2 :=
  map_entries_read (fun _ => true)
    ((group 0 [(⟨[1, 2, 3, 4], 2, some [1, 0, 7, 7], 2⟩ : SendArgs Int),
      ⟨[9, 10], 1, none, 2⟩]).data_round (fun _ => true))
    [1, 2, 3, 4] [0, 0, 0, 0, 0, 0] [3, 4, 1, 2, 9, 10, 0] 2 [1, 0, 7, 7]
    (.buffer [0, 0, 0, 0, 0, 0]) [2, 1] [2, 0, 1, 9] 2 (by decide)

/-- The mapped gather of stride 2 at a concrete input, with maps that have
more entries than elements. -/
theorem map_entries_example :
    detail.all_gathervm_impl (fun _ => true)
        ((group 0 [(⟨[1, 2, 3, 4], 2, some [1, 0, 7, 7], 2⟩ : SendArgs Int),
          ⟨[9, 10], 1, none, 2⟩]).data_round (fun _ => true))
        [1, 2, 3, 4] 2 (some [1, 0, 7, 7]) (.buffer [0, 0, 0, 0, 0, 0]) [2, 1]
        (some [2, 0, 1, 9]) 2
      = ⟨none, [1, 2, 9, 10, 3, 4], 1⟩ := by
  decide


/-! ## The two mapped shapes -/

theorem storage_pointer_nil (map : List Int) : storage_pointer map [] = map_pointer map := by
  simp only [storage_pointer, map_pointer, List.append_nil]

/-- Called with map vectors that own no storage past their items, the
std::vector shape is `all_gather_mapped_vector`. -/
theorem all_gather_mapped_vector_storage_nil {T : Type} [Inhabited T] (heap : Heap)
    (g : Group T) (in_values : List T) (in_n : Int) (in_map : List Int)
    (out_values : OutVec T) (out_n out_map : List Int) (stride : Int) :
    all_gather_mapped_vector_storage heap g in_values in_n in_map [] out_values out_n out_map []
        stride
      = all_gather_mapped_vector heap g in_values in_n in_map out_values out_n out_map stride := by
  simp only [all_gather_mapped_vector_storage, all_gather_mapped_vector, storage_pointer_nil]

/-- The two shapes at a concrete input, on a supplied and on an absent
output. -/
theorem mapped_shapes_example :
    all_gather_mapped_vector_storage (fun _ => true)
        (group 0 [(⟨[5, 6], 2, none, 1⟩ : SendArgs Int), ⟨[9], 1, none, 1⟩])
        [5, 6] 2 [] [] (.vec [0, 0, 0, 77]) [2, 1] [2, 0, 1] [7] 1
      = ⟨none, ⟨[6, 9, 5, 77], [2, 1]⟩, 1⟩
    ∧ all_gather_mapped_raw (fun _ => true)
        (group 0 [(⟨[5, 6], 2, none, 1⟩ : SendArgs Int), ⟨[9], 1, none, 1⟩])
        [5, 6] 2 none (.buffer [0, 0, 0, 77]) [2, 1] (some [2, 0, 1, 7]) 1
      = ⟨none, ⟨⟨[6, 9, 5, 77], false⟩, [2, 1]⟩, 1⟩
    ∧ all_gather_mapped_vector_storage (fun _ => true)
        (group 0 [(⟨[5, 6], 2, none, 1⟩ : SendArgs Int), ⟨[9], 1, none, 1⟩])
        [5, 6] 2 [] [] (.vec []) [2, 1] [2, 0, 1] [7] 1
      = ⟨none, ⟨[6, 9, 5], [2, 1]⟩, 1⟩
    ∧ all_gather_mapped_raw (fun _ => true)
        (group 0 [(⟨[5, 6], 2, none, 1⟩ : SendArgs Int), ⟨[9], 1, none, 1⟩])
        [5, 6] 2 none .null [2, 1] (some [2, 0, 1, 7]) 1
      = ⟨none, ⟨⟨[6, 9, 5], true⟩, [2, 1]⟩, 1⟩ := by
  decide

/-! ## Memory safety of the variable size implementation -/

theorem alloc_some {T : Type} [Inhabited T] (heap : Heap) (n : Int) (b : List T)
    (h : alloc heap n = some b) : 0 ≤ n ∧ heap n = true ∧ b.length = n.toNat := by
  unfold alloc at h
  split at h
  · rename_i hc
    simp only [Option.some.injEq] at h
    subst h
    exact ⟨hc.1, hc.2, by simp⟩
  · cases h

theorem mul_succ_le_of_lt_ediv (stride e len : Int) (hS : 0 < stride)
    (h : e < len / stride) : stride * e + stride ≤ len := by
  have h1 : e + 1 ≤ len / stride := by omega
  have h2 := (Int.le_ediv_iff_mul_le hS).1 h1
  have h3 : (e + 1) * stride = stride * e + stride := by ring
  omega

/-- The send-side staging through a map whose entries read are in range runs
through unless the staging buffer cannot be allocated. -/
theorem in_buf_safe {T : Type} [Inhabited T] (heap : Heap) (in_values : List T)
    (in_n : Int) (m : List Int) (stride : Int) (hS : 0 < stride)
    (hin : ∀ i : Nat, (i : Int) < in_n →
      ∃ e, m[i]? = some e ∧ 0 ≤ e ∧ e < (in_values.length : Int) / stride) :
    detail.in_buf heap in_values in_n (some m) stride = .error .NotEnoughMemory
    ∨ ∃ b, detail.in_buf heap in_values in_n (some m) stride = .ok b
        ∧ stride * in_n ≤ b.length := by
  cases hal : (alloc heap (stride * in_n + 1) : Option (List T)) with
  | none =>
    left
    simp only [detail.in_buf, hal]
  | some buf =>
    right
    obtain ⟨h0, hheap, -⟩ := alloc_some heap _ buf hal
    by_cases hn : 0 ≤ in_n
    · obtain ⟨b, hb, hbl, -⟩ := staged_mapped heap ⟨in_values, in_n, some m, stride⟩ stride m hS rfl
        hn hheap rfl
        (fun i hi => by
          obtain ⟨e, he1, he2, he3⟩ := hin i hi
          exact ⟨e, he1, he2, mul_succ_le_of_lt_ediv stride e _ hS he3⟩)
      exact ⟨b, hb, hbl⟩
    · have hneg : stride * in_n < 0 := by
        have : stride * in_n ≤ stride * (-1) :=
          mul_le_mul_of_nonneg_left (by omega) (le_of_lt hS)
        omega
      have h1 : (stride * in_n).toNat = 0 := by omega
      have h2 : ((stride * in_n).tdiv stride).toNat = 0 := by
        rw [Int.mul_tdiv_cancel_left _ (by omega)]
        omega
      refine ⟨buf, ?_, by omega⟩
      simp only [detail.in_buf, hal, h1, h2, forLoop, ite_self]

/-- The blocks the tables of `all_gathervm_impl` describe, for a table of
non-negative counts: block `k` starts at `out_disp[k] ≥ 0`, holds
`out_nstride[k] ≥ 0` items and ends at or before `stride * sum(out_n)`. -/
theorem out_tables_blocks (nproc : Nat) (stride : Int) (out_n : List Int) (hP : 0 < nproc)
    (hlen : out_n.length = nproc) (hS : 0 < stride) (hnn : ∀ x ∈ out_n, 0 ≤ x) :
    ∃ ns ds : List Int, detail.out_tables nproc stride out_n = some (ns, ds)
      ∧ ns.length = nproc ∧ ds.length = nproc
      ∧ ∀ k : Nat, k < nproc → ∃ c d : Int, ns[k]? = some c ∧ ds[k]? = some d
          ∧ 0 ≤ c ∧ 0 ≤ d ∧ d + c ≤ stride * out_n.sum := by
  obtain ⟨ns, ds, htab, h1, h2, hns, hds⟩ := out_tables_spec nproc stride out_n hP (by omega)
  refine ⟨ns, ds, htab, h1, h2, fun k hk => ?_⟩
  have hko : k < out_n.length := by omega
  have hx : out_n[k]? = some out_n[k] := List.getElem?_eq_getElem hko
  have hx0 : 0 ≤ out_n[k] := hnn _ (List.getElem_mem _)
  have ha0 : 0 ≤ (out_n.take k).sum :=
    List.sum_nonneg fun x hx => hnn x (List.mem_of_mem_take hx)
  have hr0 : 0 ≤ (out_n.drop (k + 1)).sum :=
    List.sum_nonneg fun x hx => hnn x (List.mem_of_mem_drop hx)
  have hsplit : out_n.sum = (out_n.take k).sum + out_n[k] + (out_n.drop (k + 1)).sum := by
    rw [← List.sum_take_succ _ _ hko, List.sum_take_add_sum_drop]
  refine ⟨stride * out_n[k], stride * (out_n.take k).sum, hns k _ hk hx, hds k hk,
    mul_nonneg (le_of_lt hS) hx0, mul_nonneg (le_of_lt hS) ha0, ?_⟩
  have hr := mul_nonneg (le_of_lt hS) hr0
  rw [hsplit, mul_add, mul_add]
  omega

/-- The exchange of `all_gathervm_impl` goes through when every rank takes
part with the count the table announces for it and a send buffer that holds
it, and the receive buffer holds `stride * sum(out_n)` items. -/
theorem MPI_Allgatherv_matched {T : Type} (comm : Communicator T) (b : List T) (in_sum : Int)
    (ob : List T) (out_n : List Int) (stride : Int) (ns ds : List Int)
    (sends : List (List T × Int))
    (htab : detail.out_tables sends.length stride out_n = some (ns, ds))
    (hs : comm.sends.set comm.rank (some (b, in_sum)) = sends.map some)
    (hcount : ∀ (k : Nat) (p : List T × Int), sends[k]? = some p →
      ∃ x, out_n[k]? = some x ∧ p.2 = stride * x)
    (hn : ∀ p ∈ sends, 0 ≤ p.2 ∧ p.2 ≤ p.1.length)
    (hob : stride * (out_n.take sends.length).sum ≤ ob.length) :
    MPI_Allgatherv comm b in_sum ob ns ds
      = some (wire sends ++ ob.drop (wire sends).length) := by
  obtain ⟨hP, hlen⟩ := out_tables_some sends.length stride out_n _ htab
  obtain ⟨ns', ds', htab', -, -, hns, hds⟩ := out_tables_spec sends.length stride out_n hP hlen
  rw [htab] at htab'
  simp only [Option.some.injEq, Prod.mk.injEq] at htab'
  obtain ⟨rfl, rfl⟩ := htab'
  have hoff := offset_eq_stride_mul sends stride out_n hcount
  refine MPI_Allgatherv_wire comm b in_sum ob ns ds sends hs ?_ ?_ hn ?_
  · intro k p hk
    obtain ⟨y, hy, hpy⟩ := hcount k p hk
    rw [hns k y (getElem?_lt_length sends k p hk) hy, hpy]
  · intro k hk
    rw [hds k hk, hoff k (by omega)]
  · rw [hoff _ (le_refl _)]
    exact hob

/-- With its tables and its send buffer set up, `all_gathervm_impl` called on
arguments whose maps and sizes are in range ends normally or because a buffer
could not be allocated, unless the exchange itself fails on a receive buffer
that holds `stride * sum(out_n)` items. -/
theorem all_gathervm_impl_safe {T : Type} [Inhabited T] (heap : Heap) (comm : Communicator T)
    (in_values : List T) (in_n : Int) (in_map : Option (List Int)) (out_values : Ptr T)
    (out_n : List Int) (out_map : Option (List Int)) (stride : Int) (b : List T)
    (ns ds : List Int)
    (hS : 0 < stride) (hlen : out_n.length = comm.nproc) (hnn : ∀ x ∈ out_n, 0 ≤ x)
    (htab : detail.out_tables comm.nproc stride out_n = some (ns, ds))
    (hb : detail.in_buf heap in_values in_n in_map stride = .ok b)
    (hout : ∀ m, out_map = some m → ∀ i : Nat, (i : Int) < out_n.sum →
      ∃ e, m[i]? = some e ∧ 0 ≤ e
        ∧ e < ((out_values.view in_values).length : Int) / stride)
    (hout0 : out_map = none → stride * out_n.sum ≤ (out_values.view in_values).length) :
    (detail.all_gathervm_impl heap comm in_values in_n in_map out_values out_n out_map
        stride).fault = none
    ∨ (detail.all_gathervm_impl heap comm in_values in_n in_map out_values out_n out_map
        stride).fault = some .NotEnoughMemory
    ∨ ((detail.all_gathervm_impl heap comm in_values in_n in_map out_values out_n out_map
        stride).fault = some .TransportFailure
      ∧ ∃ ob : List T, stride * out_n.sum ≤ ob.length
          ∧ MPI_Allgatherv comm b (stride * in_n) ob ns ds = none) := by
  have hS' : stride > 0 := hS
  have htk : out_n.take comm.nproc = out_n := by rw [← hlen, List.take_length]
  have hsumnn : 0 ≤ out_n.sum := List.sum_nonneg hnn
  have hos := out_sum_eq comm.nproc stride out_n ns ds htab
  rw [htk] at hos
  have htot : 0 ≤ stride * out_n.sum := mul_nonneg (le_of_lt hS) hsumnn
  unfold detail.all_gathervm_impl
  simp only [hS', not_true_eq_false, if_false, htab, hos, hb]
  cases out_map with
  | some om =>
    simp only [Option.isSome_some, true_or, if_true]
    cases hal : (alloc heap (stride * out_n.sum + 1) : Option (List T)) with
    | none => simp
    | some ob =>
      obtain ⟨-, -, hobl⟩ := alloc_some heap _ ob hal
      simp only
      cases hx : MPI_Allgatherv comm b (stride * in_n) ob ns ds with
      | none => exact Or.inr (Or.inr ⟨rfl, ob, by omega, hx⟩)
      | some ob' =>
        have hl := MPI_Allgatherv_length _ _ _ _ _ _ _ hx
        simp only
        obtain ⟨Sn, rfl⟩ : ∃ Sn : Nat, stride = (Sn : Int) := ⟨stride.toNat, by omega⟩
        obtain ⟨G, hG⟩ : ∃ G : Nat, out_n.sum = (G : Int) := ⟨out_n.sum.toNat, by omega⟩
        rw [hG] at hobl hout ⊢
        have hE : ∀ g, g < G → om[g]? = some (((om.getD g 0).toNat : Nat) : Int)
            ∧ Sn * (om.getD g 0).toNat + Sn ≤ (out_values.view in_values).length := by
          intro g hg
          obtain ⟨e, he1, he2, he3⟩ := hout om rfl g (by omega)
          have hgd : om.getD g 0 = e := by simp [List.getD, he1]
          rw [hgd, he1, Int.toNat_of_nonneg he2]
          refine ⟨rfl, ?_⟩
          have h4 := mul_succ_le_of_lt_ediv (Sn : Int) e _ hS he3
          have : (((Sn * e.toNat + Sn : Nat)) : Int) = (Sn : Int) * e + Sn := by
            rw [Nat.cast_add, Nat.cast_mul, Int.toNat_of_nonneg he2]
          omega
        obtain ⟨o, ho, -⟩ := repopulate_spec (out_values.view in_values) ob' om Sn G
          (fun g => (om.getD g 0).toNat) (by omega) (fun g hg => (hE g hg).1)
          (by
            have : ((Sn * G : Nat) : Int) = (Sn : Int) * (G : Int) := by push_cast; rfl
            omega)
          (fun g hg => (hE g hg).2)
        simp only [ho]
        simp
  | none =>
    have ho0 := hout0 rfl
    simp only [Option.isSome_none, Bool.false_eq_true, false_or]
    cases out_values with
    | null =>
      simp only [Ptr.isAlias, Bool.false_eq_true, if_false]
      cases hx : MPI_Allgatherv comm b (stride * in_n) (Ptr.view in_values .null) ns ds with
      | none => exact Or.inr (Or.inr ⟨rfl, _, ho0, hx⟩)
      | some ob' => simp
    | buffer c =>
      simp only [Ptr.isAlias, Bool.false_eq_true, if_false]
      cases hx : MPI_Allgatherv comm b (stride * in_n) (Ptr.view in_values (.buffer c)) ns
          ds with
      | none => exact Or.inr (Or.inr ⟨rfl, _, ho0, hx⟩)
      | some ob' => simp
    | aliased =>
      simp only [Ptr.isAlias, if_true]
      cases hal : (alloc heap (stride * out_n.sum + 1) : Option (List T)) with
      | none => simp
      | some ob =>
        obtain ⟨-, -, hobl⟩ := alloc_some heap _ ob hal
        simp only
        cases hx : MPI_Allgatherv comm b (stride * in_n) ob ns ds with
        | none => exact Or.inr (Or.inr ⟨rfl, ob, by omega, hx⟩)
        | some ob' =>
          have hl := MPI_Allgatherv_length _ _ _ _ _ _ _ hx
          simp only [Ptr.view] at ho0 ⊢
          have hm : memcpy in_values 0 ob' 0 (stride * out_n.sum)
              = some (in_values.take (0 : Int).toNat
                  ++ (ob'.drop (0 : Int).toNat).take (stride * out_n.sum).toNat
                  ++ in_values.drop (0 + stride * out_n.sum).toNat) := by
            unfold memcpy
            rw [if_pos ⟨htot, le_refl _, le_refl _, by omega, by omega⟩]
          simp only [hm]
          simp

/-- The receive buffer of `all_gathervm_impl`, the staging buffer of
`out_sum + 1` items or the storage of `out_values`, holds `stride * sum(out_n)`
items. -/
theorem receive_buffer_holds {T : Type} [Inhabited T] (heap : Heap) (in_values : List T)
    (out_values : Ptr T) (out_n : List Int) (out_map : Option (List Int)) (stride : Int)
    (ob : List T)
    (hout0 : out_map = none → stride * out_n.sum ≤ (out_values.view in_values).length)
    (hob : (if out_map.isSome ∨ out_values.isAlias then alloc heap (stride * out_n.sum + 1)
        else some (out_values.view in_values)) = some ob) :
    stride * out_n.sum ≤ ob.length := by
  split at hob
  · obtain ⟨-, -, hobl⟩ := alloc_some heap _ ob hob
    omega
  · rename_i hc
    simp only [Option.some.injEq] at hob
    subst hob
    apply hout0
    cases out_map with
    | none => rfl
    | some m => exact absurd (Or.inl rfl) hc

/-- Re-populating the output through a receive map whose entries read are in
range touches no item outside the output or the received data. -/
theorem repopulate_safe {T : Type} (out0 ob : List T) (om : List Int) (stride total : Int)
    (hS : 0 < stride) (h0 : 0 ≤ total)
    (hout : ∀ i : Nat, (i : Int) < total →
      ∃ e, om[i]? = some e ∧ 0 ≤ e ∧ e < (out0.length : Int) / stride)
    (hob : stride * total ≤ ob.length) :
    ∃ cells, detail.repopulate out0 ob om (stride * total) stride = some cells := by
  obtain ⟨Sn, rfl⟩ : ∃ Sn : Nat, stride = (Sn : Int) := ⟨stride.toNat, by omega⟩
  obtain ⟨G, rfl⟩ : ∃ G : Nat, total = (G : Int) := ⟨total.toNat, by omega⟩
  have hE : ∀ g, g < G → om[g]? = some (((om.getD g 0).toNat : Nat) : Int)
      ∧ Sn * (om.getD g 0).toNat + Sn ≤ out0.length := by
    intro g hg
    obtain ⟨e, he1, he2, he3⟩ := hout g (by omega)
    have hgd : om.getD g 0 = e := by simp [List.getD, he1]
    rw [hgd, he1, Int.toNat_of_nonneg he2]
    refine ⟨rfl, ?_⟩
    have h4 := mul_succ_le_of_lt_ediv (Sn : Int) e _ hS he3
    have : (((Sn * e.toNat + Sn : Nat)) : Int) = (Sn : Int) * e + Sn := by
      rw [Nat.cast_add, Nat.cast_mul, Int.toNat_of_nonneg he2]
    omega
  obtain ⟨o, ho, -⟩ := repopulate_spec out0 ob om Sn G
    (fun g => (om.getD g 0).toNat) (by omega) (fun g hg => (hE g hg).1)
    (by
      have : ((Sn * G : Nat) : Int) = (Sn : Int) * (G : Int) := by push_cast; rfl
      omega)
    (fun g hg => (hE g hg).2)
  exact ⟨o, ho⟩

/-- C28: the memory accesses of `all_gathervm_impl` stay in bounds. For
`P ≥ 1` and `stride > 0`, if `out_n` has `P` non-negative entries, every send
map entry read lies in `[0, len(in_values)/stride)`, every receive map entry
read lies in `[0, len(out_values)/stride)`, and without a map on a side the
block of that side holds `stride*in_n`, respectively `stride*sum(out_n)`,
items, then no access of the call falls outside its array. The call ends
normally, or because a buffer could not be allocated, or because the exchange
failed. The send buffer handed to the exchange is set up without a fault and
holds the `stride*in_n` items to be sent. The tables `out_nstride` and
`out_disp` are filled without a fault, and every block they describe,
`out_disp[k] .. out_disp[k] + out_nstride[k]`, lies inside the receive buffer,
which is the staging buffer of `out_sum + 1` items or the storage of
`out_values` and holds `stride*sum(out_n)` items. Whatever the exchange left in
a receive buffer of that size, the re-population through the receive map and
the copy back into an aliased output go through. And when every rank takes
part in the exchange with the count `out_n` announces for it and a send buffer
that holds it, the exchange does not fail: the call ends normally or because a
buffer could not be allocated. -/
theorem accesses_in_bounds {T : Type} [Inhabited T] (heap : Heap) (comm : Communicator T)
    (in_values : List T) (in_n : Int) (in_map : Option (List Int)) (out_values : Ptr T)
    (out_n : List Int) (out_map : Option (List Int)) (stride : Int)
    (hP : 1 ≤ comm.nproc) (hS : 0 < stride)
    (hlen : out_n.length = comm.nproc) (hnn : ∀ x ∈ out_n, 0 ≤ x)
    (hin : ∀ m, in_map = some m → ∀ i : Nat, (i : Int) < in_n →
      ∃ e, m[i]? = some e ∧ 0 ≤ e ∧ e < (in_values.length : Int) / stride)
    (hin0 : in_map = none → stride * in_n ≤ in_values.length)
    (hout : ∀ m, out_map = some m → ∀ i : Nat, (i : Int) < out_n.sum →
      ∃ e, m[i]? = some e ∧ 0 ≤ e
        ∧ e < ((out_values.view in_values).length : Int) / stride)
    (hout0 : out_map = none → stride * out_n.sum ≤ (out_values.view in_values).length) :
    ((detail.all_gathervm_impl heap comm in_values in_n in_map out_values out_n out_map
        stride).fault = none
      ∨ (detail.all_gathervm_impl heap comm in_values in_n in_map out_values out_n out_map
        stride).fault = some .NotEnoughMemory
      ∨ (detail.all_gathervm_impl heap comm in_values in_n in_map out_values out_n out_map
        stride).fault = some .TransportFailure)
    ∧ (detail.in_buf heap in_values in_n in_map stride = .error .NotEnoughMemory
      ∨ ∃ b, detail.in_buf heap in_values in_n in_map stride = .ok b
          ∧ stride * in_n ≤ b.length)
    ∧ (∃ ns ds : List Int, detail.out_tables comm.nproc stride out_n = some (ns, ds)
        ∧ ns.length = comm.nproc ∧ ds.length = comm.nproc
        ∧ ∀ ob : List T,
            (if out_map.isSome ∨ out_values.isAlias then alloc heap (stride * out_n.sum + 1)
              else some (out_values.view in_values)) = some ob →
            stride * out_n.sum ≤ ob.length
            ∧ ∀ k : Nat, k < comm.nproc → ∃ c d : Int, ns[k]? = some c ∧ ds[k]? = some d
                ∧ 0 ≤ c ∧ 0 ≤ d ∧ d + c ≤ ob.length)
    ∧ (∀ ob : List T, stride * out_n.sum ≤ ob.length →
        (∀ om, out_map = some om →
          ∃ cells, detail.repopulate (out_values.view in_values) ob om (stride * out_n.sum) stride = some cells)
        ∧ (out_map = none → out_values.isAlias = true →
          ∃ cells, memcpy (out_values.view in_values) 0 ob 0 (stride * out_n.sum) = some cells))
    ∧ (∀ (b : List T) (sends : List (List T × Int)),
        detail.in_buf heap in_values in_n in_map stride = .ok b →
        comm.sends.set comm.rank (some (b, stride * in_n)) = sends.map some →
        (∀ (k : Nat) (p : List T × Int), sends[k]? = some p →
          ∃ x, out_n[k]? = some x ∧ p.2 = stride * x) →
        (∀ p ∈ sends, p.2 ≤ p.1.length) →
        (detail.all_gathervm_impl heap comm in_values in_n in_map out_values out_n out_map
        stride).fault = none
        ∨ (detail.all_gathervm_impl heap comm in_values in_n in_map out_values out_n out_map
        stride).fault = some .NotEnoughMemory) := by
  have hS' : stride > 0 := hS
  have htk : out_n.take comm.nproc = out_n := by rw [← hlen, List.take_length]
  have hsumnn : 0 ≤ out_n.sum := List.sum_nonneg hnn
  have htot : 0 ≤ stride * out_n.sum := mul_nonneg (le_of_lt hS) hsumnn
  obtain ⟨ns, ds, htab, hnsl, hdsl, hblocks⟩ :=
    out_tables_blocks comm.nproc stride out_n hP hlen hS hnn
  have hos := out_sum_eq comm.nproc stride out_n ns ds htab
  rw [htk] at hos
  have hbuf : detail.in_buf heap in_values in_n in_map stride = .error .NotEnoughMemory
      ∨ ∃ b, detail.in_buf heap in_values in_n in_map stride = .ok b
          ∧ stride * in_n ≤ b.length := by
    cases in_map with
    | none => exact Or.inr ⟨in_values, rfl, hin0 rfl⟩
    | some m => exact in_buf_safe heap in_values in_n m stride hS (hin m rfl)
  have hfault : (detail.all_gathervm_impl heap comm in_values in_n in_map out_values out_n
        out_map stride).fault = none
      ∨ (detail.all_gathervm_impl heap comm in_values in_n in_map out_values out_n out_map
        stride).fault = some .NotEnoughMemory
      ∨ (detail.all_gathervm_impl heap comm in_values in_n in_map out_values out_n out_map
        stride).fault = some .TransportFailure := by
    rcases hbuf with hb | ⟨b, hb, -⟩
    · right; left
      unfold detail.all_gathervm_impl
      simp only [hS', not_true_eq_false, if_false, htab, hos, hb]
    · rcases all_gathervm_impl_safe heap comm in_values in_n in_map out_values out_n out_map
        stride b ns ds hS hlen hnn htab hb hout hout0 with h | h | ⟨h, -⟩
      · exact Or.inl h
      · exact Or.inr (Or.inl h)
      · exact Or.inr (Or.inr h)
  refine ⟨hfault, hbuf, ⟨ns, ds, htab, hnsl, hdsl, fun ob hob => ?_⟩, fun ob hob => ⟨?_, ?_⟩,
    fun b sends hb hs hcount hfit => ?_⟩
  · have hl := receive_buffer_holds heap in_values out_values out_n out_map stride ob hout0 hob
    refine ⟨hl, fun k hk => ?_⟩
    obtain ⟨c, d, h1, h2, h3, h4, h5⟩ := hblocks k hk
    exact ⟨c, d, h1, h2, h3, h4, by omega⟩
  · intro om hom
    exact repopulate_safe _ ob om stride out_n.sum hS hsumnn (hout om hom) hob
  · intro hnone halias
    have ho0 := hout0 hnone
    cases out_values with
    | null => cases halias
    | buffer c => cases halias
    | aliased =>
      simp only [Ptr.view] at ho0 ⊢
      unfold memcpy
      rw [if_pos ⟨htot, le_refl _, le_refl _, by omega, by omega⟩]
      exact ⟨_, rfl⟩
  · rcases all_gathervm_impl_safe heap comm in_values in_n in_map out_values out_n out_map
      stride b ns ds hS hlen hnn htab hb hout hout0 with h | h | ⟨-, ob, hobl, hx⟩
    · exact Or.inl h
    · exact Or.inr h
    · exfalso
      have hnp : comm.nproc = sends.length := by
        have := congrArg List.length hs
        simpa [Communicator.nproc] using this
      have hn : ∀ p ∈ sends, 0 ≤ p.2 ∧ p.2 ≤ p.1.length := by
        intro p hp
        refine ⟨?_, hfit p hp⟩
        obtain ⟨k, hk, hpk⟩ := List.getElem_of_mem hp
        obtain ⟨x, hx1, hx2⟩ := hcount k p (by rw [List.getElem?_eq_getElem hk, hpk])
        rw [hx2]
        exact mul_nonneg (le_of_lt hS) (hnn x (mem_of_getElem?_eq out_n k x hx1))
      rw [hnp] at htab htk
      have := MPI_Allgatherv_matched comm b (stride * in_n) ob out_n stride ns ds sends htab hs
        hcount hn (by rw [htk]; exact hobl)
      rw [this] at hx
      cases hx

/-- C28 for two ranks of stride 2 with a send map and a receive map. -/
theorem accesses_in_bounds_witness :
    ((detail.all_gathervm_impl (fun _ => true)
        ((group 0 [(⟨[1, 2, 3, 4], 2, some [1, 0], 2⟩ : SendArgs Int),
          ⟨[9, 10], 1, none, 2⟩]).data_round (fun _ => true))
        [1, 2, 3, 4] 2 (some [1, 0]) (.buffer [0, 0, 0, 0, 0, 0, 0]) [2, 1]
        (some [2, 0, 1]) 2).fault = none
      ∨ (detail.all_gathervm_impl (fun _ => true)
        ((group 0 [(⟨[1, 2, 3, 4], 2, some [1, 0], 2⟩ : SendArgs Int),
          ⟨[9, 10], 1, none, 2⟩]).data_round (fun _ => true))
        [1, 2, 3, 4] 2 (some [1, 0]) (.buffer [0, 0, 0, 0, 0, 0, 0]) [2, 1]
        (some [2, 0, 1]) 2).fault = some .NotEnoughMemory
      ∨ (detail.all_gathervm_impl (fun _ => true)
        ((group 0 [(⟨[1, 2, 3, 4], 2, some [1, 0], 2⟩ : SendArgs Int),
          ⟨[9, 10], 1, none, 2⟩]).data_round (fun _ => true))
        [1, 2, 3, 4] 2 (some [1, 0]) (.buffer [0, 0, 0, 0, 0, 0, 0]) [2, 1]
        (some [2, 0, 1]) 2).fault = some .TransportFailure)
    ∧ (detail.in_buf (fun _ => true) ([1, 2, 3, 4] : List Int) 2 (some [1, 0]) 2
        = .error .NotEnoughMemory
      ∨ ∃ b, detail.in_buf (fun _ => true) ([1, 2, 3, 4] : List Int) 2 (some [1, 0]) 2 = .ok b
          ∧ (2 : Int) * 2 ≤ b.length)
    ∧ (∃ ns ds : List Int, detail.out_tables
        ((group 0 [(⟨[1, 2, 3, 4], 2, some [1, 0], 2⟩ : SendArgs Int),
          ⟨[9, 10], 1, none, 2⟩]).data_round (fun _ => true)).nproc 2 [2, 1] = some (ns, ds)
        ∧ ns.length = ((group 0 [(⟨[1, 2, 3, 4], 2, some [1, 0], 2⟩ : SendArgs Int),
          ⟨[9, 10], 1, none, 2⟩]).data_round (fun _ => true)).nproc ∧ ds.length =
              ((group 0 [(⟨[1, 2, 3, 4], 2, some [1, 0], 2⟩ : SendArgs Int),
          ⟨[9, 10], 1, none, 2⟩]).data_round (fun _ => true)).nproc
        ∧ ∀ ob : List Int,
            (if (some [2, 0, 1] : Option (List Int)).isSome ∨
                (Ptr.buffer [0, 0, 0, 0, 0, 0, 0] : Ptr Int).isAlias then alloc (fun _ => true)
                    ((2 : Int) * ([2, 1] : List Int).sum + 1)
              else some (Ptr.view ([1, 2, 3, 4] : List Int) (.buffer [0, 0, 0, 0, 0, 0, 0])))
                  = some ob →
            (2 : Int) * ([2, 1] : List Int).sum ≤ ob.length
            ∧ ∀ k : Nat, k < ((group 0 [(⟨[1, 2, 3, 4], 2, some [1, 0], 2⟩ : SendArgs Int),
          ⟨[9, 10], 1, none, 2⟩]).data_round (fun _ => true)).nproc → ∃ c d : Int, ns[k]? = some c
              ∧ ds[k]? = some d
                ∧ 0 ≤ c ∧ 0 ≤ d ∧ d + c ≤ ob.length)
    ∧ (∀ ob : List Int, (2 : Int) * ([2, 1] : List Int).sum ≤ ob.length →
        (∀ om, (some [2, 0, 1] : Option (List Int)) = some om →
          ∃ cells, detail.repopulate (Ptr.view ([1, 2, 3, 4] : List Int)
              (.buffer [0, 0, 0, 0, 0, 0, 0])) ob om ((2 : Int) * ([2, 1] : List Int).sum) 2
                  = some cells)
        ∧ ((some [2, 0, 1] : Option (List Int)) = none →
            (Ptr.buffer [0, 0, 0, 0, 0, 0, 0] : Ptr Int).isAlias = true →
          ∃ cells, memcpy (Ptr.view ([1, 2, 3, 4] : List Int)
              (.buffer [0, 0, 0, 0, 0, 0, 0])) 0 ob 0 ((2 : Int) * ([2, 1] : List Int).sum)
                  = some cells))
    ∧ (∀ (b : List Int) (sends : List (List Int × Int)),
        detail.in_buf (fun _ => true) ([1, 2, 3, 4] : List Int) 2 (some [1, 0]) 2 = .ok b →
        ((group 0 [(⟨[1, 2, 3, 4], 2, some [1, 0], 2⟩ : SendArgs Int),
          ⟨[9, 10], 1, none, 2⟩]).data_round (fun _ => true)).sends.set
              ((group 0 [(⟨[1, 2, 3, 4], 2, some [1, 0], 2⟩ : SendArgs Int),
          ⟨[9, 10], 1, none, 2⟩]).data_round (fun _ => true)).rank
              (some (b, (2 : Int) * 2)) = sends.map some →
        (∀ (k : Nat) (p : List Int × Int), sends[k]? = some p →
          ∃ x, ([2, 1] : List Int)[k]? = some x ∧ p.2 = 2 * x) →
        (∀ p ∈ sends, p.2 ≤ p.1.length) →
        (detail.all_gathervm_impl (fun _ => true)
        ((group 0 [(⟨[1, 2, 3, 4], 2, some [1, 0], 2⟩ : SendArgs Int),
          ⟨[9, 10], 1, none, 2⟩]).data_round (fun _ => true))
        [1, 2, 3, 4] 2 (some [1, 0]) (.buffer [0, 0, 0, 0, 0, 0, 0]) [2, 1]
        (some [2, 0, 1]) 2).fault = none
        ∨ (detail.all_gathervm_impl (fun _ => true)
        ((group 0 [(⟨[1, 2, 3, 4], 2, some [1, 0], 2⟩ : SendArgs Int),
          ⟨[9, 10], 1, none, 2⟩]).data_round (fun _ => true))
        [1, 2, 3, 4] 2 (some [1, 0]) (.buffer [0, 0, 0, 0, 0, 0, 0]) [2, 1]
        (some [2, 0, 1]) 2).fault = some .NotEnoughMemory) :=
  accesses_in_bounds (fun _ => true)
    ((group 0 [(⟨[1, 2, 3, 4], 2, some [1, 0], 2⟩ : SendArgs Int),
      ⟨[9, 10], 1, none, 2⟩]).data_round (fun _ => true))
    [1, 2, 3, 4] 2 (some [1, 0]) (.buffer [0, 0, 0, 0, 0, 0, 0]) [2, 1] (some [2, 0, 1]) 2
    (by decide) (by decide) rfl (by decide)
    (by
      intro m hm i hi
      cases hm
      have hi' : i = 0 ∨ i = 1 := by omega
      rcases hi' with rfl | rfl
      · exact ⟨1, rfl, by decide, by decide⟩
      · exact ⟨0, rfl, by decide, by decide⟩)
    (by intro h; cases h)
    (by
      intro m hm i hi
      cases hm
      have hi3 : (i : Int) < 3 := hi
      have hi' : i = 0 ∨ i = 1 ∨ i = 2 := by omega
      rcases hi' with rfl | rfl | rfl
      · exact ⟨2, rfl, by decide, by decide⟩
      · exact ⟨0, rfl, by decide, by decide⟩
      · exact ⟨1, rfl, by decide, by decide⟩)
    (by intro h; cases h)

/-- The call of the preceding statement returns normally. -/
theorem accesses_in_bounds_example :
    detail.all_gathervm_impl (fun _ => true)
        ((group 0 [(⟨[1, 2, 3, 4], 2, some [1, 0], 2⟩ : SendArgs Int),
          ⟨[9, 10], 1, none, 2⟩]).data_round (fun _ => true))
        [1, 2, 3, 4] 2 (some [1, 0]) (.buffer [0, 0, 0, 0, 0, 0, 0]) [2, 1]
        (some [2, 0, 1]) 2
      = ⟨none, [1, 2, 9, 10, 3, 4, 0], 1⟩ := by
  decide

end CF.Common.mpi
